import Mathlib

/-!
# The Debian network-configuration translator of coreos-cloudinit

A shallow embedding of `network/stanza.go` and `network/interface.go`
(package `network`), followed by theorems about it.

Conventions of the embedding.

* A Go `string` is a Lean `String`; the library functions of package
  `strings` work on its list of characters.
* A function that returns `(value, error)` returns `Except Err value`.
  A run-time panic (an index out of range, the explicit `panic` of
  `parseStanza`) is an `Err` of its own, so that a panic is never confused
  with a returned error or with a result.
* A Go `map[string]T` is an association list with one entry per key. Where
  the code ranges over a map, the order of the visit is a parameter
  (`RangeOrder`), since Go leaves it unspecified.
* A `net.IP` or `net.IPMask` is `Option (List Nat)`: `none` is the nil
  slice, `some bs` the slice of bytes `bs`.
* A pointer to an interface node is the pair of the node's kind and name
  (`Child`): within one kind, the pools are keyed by name.
-/

set_option autoImplicit false

namespace CloudInit

deriving instance DecidableEq for Except

/-! ## Failures -/

/-- Failures: the errors built with `fmt.Errorf` in `stanza.go`, and the
run-time panics. -/
inductive Err where
  /-- The error `missing stanza start` of `splitStanzas`. -/
  | missingStanzaStart (line : String)
  /-- The error `malformed stanza start` of `parseStanza`. -/
  | malformedStanzaStart (line : String)
  /-- The error `unknown stanza` of `parseStanza`. -/
  | unknownStanza (kind : String)
  /-- The error `incorrect number of attributes` of `parseInterfaceStanza`. -/
  | interfaceMissingAttributes
  /-- The error `malformed static network config` of `parseInterfaceStanza`. -/
  | malformedStaticNetwork (iface : String)
  /-- The error `malformed vlan name` of `parseVLANStanza`. -/
  | malformedVLANName (iface : String)
  /-- The call `panic("empty stanza")` of `parseStanza`. -/
  | panicEmptyStanza
  /-- The run-time panic `index out of range`. -/
  | panicIndexOutOfRange
  deriving DecidableEq, Repr

/-- Whether a failure is a run-time panic rather than a returned error. -/
def Err.isPanic : Err → Bool
  | .panicEmptyStanza => true
  | .panicIndexOutOfRange => true
  | _ => false

/-! ## Package `strings` -/

/-- The function `unicode.IsSpace`. -/
def isSpace (c : Char) : Bool :=
  let n := c.toNat
  n == 0x09 || n == 0x0A || n == 0x0B || n == 0x0C || n == 0x0D || n == 0x20 ||
  n == 0x85 || n == 0xA0 || n == 0x1680 || (0x2000 ≤ n && n ≤ 0x200A) ||
  n == 0x2028 || n == 0x2029 || n == 0x202F || n == 0x205F || n == 0x3000

/-- The fields of a list of characters: its maximal runs of non-space
characters. -/
def fieldsChars : List Char → List (List Char)
  | [] => []
  | c :: cs =>
    if isSpace c then fieldsChars cs
    else
      match cs with
      | [] => [[c]]
      | d :: _ =>
        if isSpace d then [c] :: fieldsChars cs
        else
          match fieldsChars cs with
          | [] => [[c]]
          | w :: ws => (c :: w) :: ws

/-- The function `strings.Fields`. -/
def Fields (s : String) : List String :=
  (fieldsChars s.data).map String.mk

/-- The function `strings.HasPrefix`. -/
def HasPrefix (s p : String) : Bool :=
  p.data.isPrefixOf s.data

/-- The function `strings.TrimPrefix`. -/
def TrimPrefix (s p : String) : String :=
  if HasPrefix s p then ⟨s.data.drop p.data.length⟩ else s

/-- The pieces of a list of characters between the occurrences of `sep`. -/
def splitChars (sep : Char) : List Char → List (List Char)
  | [] => [[]]
  | c :: cs =>
    if c = sep then [] :: splitChars sep cs
    else
      match splitChars sep cs with
      | [] => [[c]]
      | p :: ps => (c :: p) :: ps

/-- The function `strings.Split` for a separator of one character. -/
def Split (s : String) (sep : Char) : List String :=
  (splitChars sep s.data).map String.mk

/-- The function `strings.Contains` for a substring of one character. -/
def Contains (s : String) (c : Char) : Bool :=
  s.data.contains c

/-- The function `strings.SplitAfterN(s, sep, 2)` for a separator of one
character: the text up to and including the first separator, then the rest;
the text alone when it has no separator. -/
def splitAfterFirst (sep : Char) : List Char → List (List Char)
  | [] => [[]]
  | c :: cs =>
    if c = sep then [[c], cs]
    else
      match splitAfterFirst sep cs with
      | [p] => [c :: p]
      | p :: ps => (c :: p) :: ps
      | [] => [[c]]

/-- The call `strings.SplitAfterN(s, " ", 2)`. -/
def SplitAfterN2 (s : String) : List String :=
  (splitAfterFirst ' ' s.data).map String.mk

/-! ## Package `strconv` -/

/-- The value of a decimal digit. -/
def digitVal (c : Char) : Option Nat :=
  if '0' ≤ c ∧ c ≤ '9' then some (c.toNat - '0'.toNat) else none

/-- The value of a non-empty run of decimal digits, most significant first,
given the value `acc` of the digits read so far. -/
def digitsVal : Nat → List Char → Option Nat
  | acc, [] => some acc
  | acc, c :: cs =>
    match digitVal c with
    | none => none
    | some d => digitsVal (acc * 10 + d) cs

/-- The result of `strconv.Atoi`: the integer and whether the error is nil. -/
structure AtoiResult where
  val : Int
  ok : Bool
  deriving DecidableEq, Repr

/-- The function `strconv.Atoi` where `int` has 64 bits: an optional sign
followed by one or more decimal digits. On a syntax error the integer is 0;
out of range it is the nearest bound. -/
def Atoi (s : String) : AtoiResult :=
  let (neg, ds) :=
    match s.data with
    | '+' :: r => (false, r)
    | '-' :: r => (true, r)
    | r => (false, r)
  match ds with
  | [] => ⟨0, false⟩
  | _ =>
    match digitsVal 0 ds with
    | none => ⟨0, false⟩
    | some n =>
      if neg then
        if n ≤ 2 ^ 63 then ⟨-(n : Int), true⟩ else ⟨-(2 ^ 63 : Int), false⟩
      else
        if n < 2 ^ 63 then ⟨(n : Int), true⟩ else ⟨(2 ^ 63 - 1 : Int), false⟩

/-- The decimal digits of a natural number, most significant first; `fuel`
bounds the number of digits. -/
def digitsOf : Nat → Nat → List Char
  | 0, _ => []
  | fuel + 1, n =>
    if n < 10 then [Char.ofNat (48 + n)]
    else digitsOf fuel (n / 10) ++ [Char.ofNat (48 + n % 10)]

/-- The decimal text of a natural number (`itod` of package `net`, the verb
`%d` of package `fmt`). -/
def itod (n : Nat) : String :=
  ⟨digitsOf (n + 1) n⟩

/-- The verb `%d` of `fmt.Sprintf` at an `int`. -/
def formatInt (i : Int) : String :=
  match i with
  | Int.ofNat n => itod n
  | Int.negSucc n => "-" ++ itod (n + 1)

/-! ## Package `net` -/

/-- A value of type `net.IP`: `none` is the nil slice. -/
abbrev IP := Option (List Nat)

/-- A value of type `net.IPMask`: `none` is the nil slice. -/
abbrev IPMask := Option (List Nat)

/-- The struct `net.IPNet`. -/
structure IPNet where
  ip : IP
  mask : IPMask
  deriving DecidableEq, Repr

/-- The parts of package `net` that differ between Go releases or deal with
IPv6 text, left open: every theorem holds whatever they are. -/
structure NetLib where
  /-- Whether `parseIPv4` accepts a decimal octet written with leading zeros
  (releases before Go 1.17 do, later ones do not). -/
  leadingZeros : Bool
  /-- The function `parseIPv6`, tried by `ParseIP` on a text that is not a
  dotted-decimal IPv4 address. -/
  parseIPv6 : String → Option (List Nat)
  /-- The text `IP.String` gives a 16-byte address that is not an IPv4
  address. -/
  ipv6String : List Nat → String
  /-- The text `IP.String` gives a slice whose length is neither 0, 4 nor 16. -/
  oddString : List Nat → String

/-- A library whose IPv6 parser accepts no text, for evaluating the
translator on IPv4 input. -/
def ipv4Lib : NetLib where
  leadingZeros := true
  parseIPv6 := fun _ => none
  ipv6String := fun _ => "?"
  oddString := fun _ => "?"

/-- The prefix of an IPv4 address in its 16-byte form. -/
def v4InV6Prefix : List Nat := [0, 0, 0, 0, 0, 0, 0, 0, 0, 0, 0xff, 0xff]

/-- The function `net.IPv4`: the 16-byte form of the address `a.b.c.d`. -/
def IPv4 (a b c d : Nat) : List Nat := v4InV6Prefix ++ [a, b, c, d]

/-- The function `net.IPv4Mask`: the 4-byte mask `a.b.c.d`. -/
def IPv4Mask (a b c d : Nat) : List Nat := [a, b, c, d]

/-- One component of a dotted-decimal address: a non-empty run of decimal
digits of value at most 255 (`dtoi` and the checks of `parseIPv4`). -/
def parseOctet (leadingZeros : Bool) (ds : List Char) : Option Nat :=
  match ds with
  | [] => none
  | d :: rest =>
    if !leadingZeros && d = '0' && !rest.isEmpty then none
    else
      match digitsVal 0 ds with
      | none => none
      | some n => if n ≤ 0xFF then some n else none

/-- The function `parseIPv4`: four components separated by dots, with nothing
before, between or after them. -/
def parseIPv4 (leadingZeros : Bool) (s : String) : Option (List Nat) :=
  match splitChars '.' s.data with
  | [a, b, c, d] =>
    match parseOctet leadingZeros a, parseOctet leadingZeros b,
        parseOctet leadingZeros c, parseOctet leadingZeros d with
    | some a, some b, some c, some d => some (IPv4 a b c d)
    | _, _, _, _ => none
  | _ => none

/-- The function `net.ParseIP`: nil when the text is neither an IPv4 nor an
IPv6 address. -/
def ParseIP (L : NetLib) (s : String) : IP :=
  match parseIPv4 L.leadingZeros s with
  | some ip => some ip
  | none => L.parseIPv6 s

/-- The method `IP.To4`, on the bytes of a slice: the 4-byte form of an IPv4
address, nil for any other slice. -/
def To4 (ip : List Nat) : Option (List Nat) :=
  if ip.length = 4 then some ip
  else if ip.length = 16 ∧ ip.take 12 = v4InV6Prefix then some (ip.drop 12)
  else none

/-- The text `a.b.c.d` of four bytes. -/
def dotted (bs : List Nat) : String :=
  String.intercalate "." (bs.map itod)

/-- The method `IP.String`, which the verb `%s` of `fmt.Sprintf` calls. -/
def IP.String (L : NetLib) (ip : IP) : String :=
  match ip with
  | none => "<nil>"
  | some [] => "<nil>"
  | some bs =>
    match To4 bs with
    | some p4 => dotted p4
    | none => if bs.length = 16 then L.ipv6String bs else L.oddString bs

/-- A hexadecimal digit. -/
def hexDigit (n : Nat) : Char :=
  if n < 10 then Char.ofNat (48 + n) else Char.ofNat (87 + n)

/-- The function `hexString` of package `net`: two digits per byte. -/
def hexString (bs : List Nat) : String :=
  ⟨bs.flatMap (fun b => [hexDigit (b / 16 % 16), hexDigit (b % 16)])⟩

/-- The method `IPMask.String`. -/
def IPMask.String (m : List Nat) : String :=
  if m.isEmpty then "<nil>" else hexString m

/-- The leading one bits of a byte, and the byte that is left once they are
shifted out (the loop `for v&0x80 != 0` of `simpleMaskLength`). -/
def leadingOnes : Nat → Nat → Nat × Nat
  | 0, v => (0, v)
  | fuel + 1, v =>
    if v / 128 % 2 = 1 then
      let r := leadingOnes fuel (v * 2 % 256)
      (r.1 + 1, r.2)
    else (0, v)

/-- The function `simpleMaskLength`: the number of leading one bits of a mask
that is a run of ones followed by zeros; `none` is the result -1. -/
def simpleMaskLength : List Nat → Option Nat
  | [] => some 0
  | v :: rest =>
    if v = 0xff then (simpleMaskLength rest).map (· + 8)
    else
      let r := leadingOnes 8 v
      if r.2 ≠ 0 then none
      else if rest.all (· == 0) then some r.1 else none

/-- The function `networkNumberAndMask`. -/
def networkNumberAndMask (n : IPNet) : Option (List Nat × List Nat) :=
  let ip? : Option (List Nat) :=
    match n.ip with
    | none => none
    | some bs =>
      match To4 bs with
      | some p4 => some p4
      | none => if bs.length = 16 then some bs else none
  match ip? with
  | none => none
  | some ip =>
    let m := n.mask.getD []
    if m.length = 4 then
      if ip.length = 4 then some (ip, m) else none
    else if m.length = 16 then
      if ip.length = 4 then some (ip, m.drop 12) else some (ip, m)
    else none

/-- The method `IPNet.String`: the address, a slash, and the length of the
mask (or the mask in hexadecimal when it is not a run of ones). -/
def IPNet.String (L : NetLib) (n : IPNet) : String :=
  match networkNumberAndMask n with
  | none => "<nil>"
  | some (nn, m) =>
    match simpleMaskLength m with
    | none => IP.String L (some nn) ++ "/" ++ IPMask.String m
    | some l => IP.String L (some nn) ++ "/" ++ itod l

/-! ## Maps -/

/-- A Go map with string keys: one entry per key. -/
abbrev Map (V : Type) := List (String × V)

/-- The lookup `v, ok := m[k]`. -/
def Map.get {V : Type} : Map V → String → Option V
  | [], _ => none
  | (k, v) :: m, x => if k = x then some v else Map.get m x

/-- The assignment `m[k] = v`. -/
def Map.set {V : Type} : Map V → String → V → Map V
  | [], k, v => [(k, v)]
  | (k', v') :: m, k, v =>
    if k' = k then (k, v) :: m else (k', v') :: Map.set m k v

/-- The keys of a map. -/
def Map.keys {V : Type} (m : Map V) : List String :=
  m.map Prod.fst

/-- The value `m[k]` of a map of slices: the nil slice when the key is
absent. -/
def Map.getD {V : Type} (m : Map (List V)) (k : String) : List V :=
  (Map.get m k).getD []

/-- The order in which each `range` loop over a map visits its keys, which Go
leaves unspecified: `visit i ks` is the order of the `i`-th loop of
`buildInterfaces` over a map whose keys are `ks`. -/
structure RangeOrder where
  visit : Nat → List String → List String

/-- An order visits every key once. -/
def RangeOrder.Valid (o : RangeOrder) : Prop :=
  ∀ (i : Nat) (ks : List String), (o.visit i ks).Perm ks

/-- The order in which the entries were inserted. -/
def insertionOrder : RangeOrder where
  visit := fun _ ks => ks

/-- The entries of a map in the order in which loop `i` visits them. -/
def Map.range {V : Type} (o : RangeOrder) (i : Nat) (m : Map V) : List (String × V) :=
  (o.visit i m.keys).filterMap (fun k => (Map.get m k).map (fun v => (k, v)))

/-! ## The data model of `stanza.go` -/

/-- The type `interfaceKind`. -/
inductive InterfaceKind where
  | interfaceBond
  | interfacePhysical
  | interfaceVLAN
  deriving DecidableEq, Repr

/-- The struct `route`. -/
structure Route where
  destination : IPNet
  gateway : IP
  deriving DecidableEq, Repr

/-- The struct `configMethodStatic`. -/
structure ConfigMethodStatic where
  address : IPNet
  nameservers : List IP
  routes : List Route
  deriving DecidableEq, Repr

/-- The interface type `configMethod`: `unset` is the nil interface value. -/
inductive ConfigMethod where
  | unset
  | static (config : ConfigMethodStatic)
  | loopback
  | manual
  deriving DecidableEq, Repr

/-- The option map of an interface stanza, `map[string][]string`; a nil slice
is the empty list. -/
abbrev OptionMap := Map (List String)

/-- The struct `stanzaInterface`. -/
structure StanzaInterface where
  name : String
  kind : InterfaceKind
  auto : Bool
  configMethod : ConfigMethod
  options : OptionMap
  deriving DecidableEq, Repr

/-- The struct `stanzaAuto`. -/
structure StanzaAuto where
  interfaces : List String
  deriving DecidableEq, Repr

/-- The interface type `stanza`. -/
inductive Stanza where
  | auto (s : StanzaAuto)
  | iface (s : StanzaInterface)
  deriving DecidableEq, Repr

/-! ## `stanza.go` -/

/-- The function `isStanzaStart`. -/
def isStanzaStart (line : String) : Bool :=
  let first := (Split line ' ').headD ""
  if first = "auto" ∨ first = "iface" ∨ first = "mapping" then true
  else if HasPrefix line "allow-" then true
  else false

/-- The state of the loop of `splitStanzas`: the stanzas closed so far and
the open one (`none` while `curStanza` is nil). -/
def splitStanzasLoop : List (List String) → Option (List String) → List String →
    Except Err (List (List String))
  | stanzas, cur, [] =>
    match cur with
    | some c => .ok (stanzas ++ [c])
    | none => .ok stanzas
  | stanzas, cur, line :: lines =>
    if isStanzaStart line then
      match cur with
      | some c => splitStanzasLoop (stanzas ++ [c]) (some [line]) lines
      | none => splitStanzasLoop stanzas (some [line]) lines
    else
      match cur with
      | some c => splitStanzasLoop stanzas (some (c ++ [line])) lines
      | none => .error (.missingStanzaStart line)

/-- The function `splitStanzas`. -/
def splitStanzas (lines : List String) : Except Err (List (List String)) :=
  splitStanzasLoop [] none lines

/-- The function `parseAutoStanza`. -/
def parseAutoStanza (attributes : List String) (_options : List String) :
    Except Err StanzaAuto :=
  .ok ⟨attributes⟩

/-- The function `parseBondStanza`. -/
def parseBondStanza (iface : String) (conf : ConfigMethod) (_attributes : List String)
    (options : OptionMap) : Except Err StanzaInterface :=
  let options := Map.set options "slaves" (Map.getD options "bond-slaves")
  .ok ⟨iface, .interfaceBond, false, conf, options⟩

/-- The function `parsePhysicalStanza`. -/
def parsePhysicalStanza (iface : String) (conf : ConfigMethod) (_attributes : List String)
    (options : OptionMap) : Except Err StanzaInterface :=
  .ok ⟨iface, .interfacePhysical, false, conf, options⟩

/-- The function `parseVLANStanza`. -/
def parseVLANStanza (iface : String) (conf : ConfigMethod) (_attributes : List String)
    (options : OptionMap) : Except Err StanzaInterface :=
  let id? : Option String :=
    if Contains iface '.' then
      let tokens := Split iface '.'
      some (tokens.getLastD "")
    else if HasPrefix iface "vlan" then
      some (TrimPrefix iface "vlan")
    else none
  match id? with
  | none => .error (.malformedVLANName iface)
  | some id =>
    if (Atoi id).ok = false then .error (.malformedVLANName iface)
    else
      let options := Map.set options "id" [id]
      let options := Map.set options "raw_device" (Map.getD options "vlan_raw_device")
      .ok ⟨iface, .interfaceVLAN, false, conf, options⟩

/-- One turn of the loop of `parseInterfaceStanza` over the option lines
(lines 158 to 177). The index `tokens[1]` or `tokens[0]` panics when the
slice is too short. -/
def parseOption (optionMap : OptionMap) (option : String) : Except Err OptionMap :=
  if HasPrefix option "post-up" then
    match (SplitAfterN2 option).get? 1 with
    | none => .error .panicIndexOutOfRange
    | some value =>
      match Map.get optionMap "post-up" with
      | some v => .ok (Map.set optionMap "post-up" (v ++ [value]))
      | none => .ok (Map.set optionMap "post-up" [value])
  else if HasPrefix option "pre-down" then
    match (SplitAfterN2 option).get? 1 with
    | none => .error .panicIndexOutOfRange
    | some value =>
      match Map.get optionMap "pre-down" with
      | some v => .ok (Map.set optionMap "pre-down" (v ++ [value]))
      | none => .ok (Map.set optionMap "pre-down" [value])
  else
    match Fields option with
    | [] => .error .panicIndexOutOfRange
    | key :: values => .ok (Map.set optionMap key values)

/-- The loop of `parseInterfaceStanza` over the option lines, from the map
built so far. -/
def parseOptionsFrom : OptionMap → List String → Except Err OptionMap
  | optionMap, [] => .ok optionMap
  | optionMap, option :: options =>
    match parseOption optionMap option with
    | .error e => .error e
    | .ok optionMap => parseOptionsFrom optionMap options

/-- The option map `parseInterfaceStanza` builds from the option lines. -/
def parseOptions (options : List String) : Except Err OptionMap :=
  parseOptionsFrom [] options

/-- The loop over the fields of a `post-up` value that starts with
`route add` (lines 221 to 230): `rest` holds the fields after the current
one, so that `fields[i+1]` is its head and panics when it is empty. -/
def routeFromFields (L : NetLib) : Route → List String → Except Err Route
  | route, [] => .ok route
  | route, field :: rest =>
    if field = "-net" then
      match rest with
      | [] => .error .panicIndexOutOfRange
      | next :: _ =>
        routeFromFields L
          { route with destination := { route.destination with ip := ParseIP L next } } rest
    else if field = "netmask" then
      match rest with
      | [] => .error .panicIndexOutOfRange
      | next :: _ =>
        routeFromFields L
          { route with destination := { route.destination with mask := ParseIP L next } } rest
    else if field = "gw" then
      match rest with
      | [] => .error .panicIndexOutOfRange
      | next :: _ => routeFromFields L { route with gateway := ParseIP L next } rest
    else routeFromFields L route rest

/-- The loop over the `post-up` values (lines 217 to 233), from the routes
found so far. -/
def postUpRoutes (L : NetLib) : List Route → List String → Except Err (List Route)
  | routes, [] => .ok routes
  | routes, postup :: postups =>
    if HasPrefix postup "route add" then
      match routeFromFields L ⟨⟨none, none⟩, none⟩ (Fields postup) with
      | .error e => .error e
      | .ok route => postUpRoutes L (routes ++ [route]) postups
    else postUpRoutes L routes postups

/-- The route of the `gateway` option (lines 203 to 213). -/
def gatewayRoutes (L : NetLib) (optionMap : OptionMap) : List Route :=
  match Map.get optionMap "gateway" with
  | some [gateway] =>
    [⟨⟨some (IPv4 0 0 0 0), some (IPv4Mask 0 0 0 0)⟩, ParseIP L gateway⟩]
  | _ => []

/-- The case `static` of the switch of `parseInterfaceStanza` (lines 185 to
234). -/
def staticConfig (L : NetLib) (iface : String) (optionMap : OptionMap) :
    Except Err ConfigMethod :=
  let ip : IP :=
    match Map.get optionMap "address" with
    | some [address] => ParseIP L address
    | _ => none
  let mask : IPMask :=
    match Map.get optionMap "netmask" with
    | some [netmask] => ParseIP L netmask
    | _ => none
  if ip = none ∨ mask = none then .error (.malformedStaticNetwork iface)
  else
    let routes := gatewayRoutes L optionMap
    let nameservers := (Map.getD optionMap "dns-nameservers").map (ParseIP L)
    match postUpRoutes L routes (Map.getD optionMap "post-up") with
    | .error e => .error e
    | .ok routes => .ok (.static ⟨⟨ip, mask⟩, nameservers, routes⟩)

/-- The switch of `parseInterfaceStanza` on the method (lines 183 to 239): it
has no default case, so any other method leaves `conf` nil. -/
def configOf (L : NetLib) (confMethod iface : String) (optionMap : OptionMap) :
    Except Err ConfigMethod :=
  if confMethod = "static" then staticConfig L iface optionMap
  else if confMethod = "loopback" then .ok .loopback
  else if confMethod = "manual" then .ok .manual
  else .ok .unset

/-- The end of `parseInterfaceStanza` (lines 241 to 253): the kind of the
interface. -/
def classify (iface : String) (conf : ConfigMethod) (attributes : List String)
    (optionMap : OptionMap) : Except Err StanzaInterface :=
  if (Map.get optionMap "vlan_raw_device").isSome then
    parseVLANStanza iface conf attributes optionMap
  else if Contains iface '.' then
    parseVLANStanza iface conf attributes optionMap
  else if (Map.get optionMap "bond-slaves").isSome then
    parseBondStanza iface conf attributes optionMap
  else parsePhysicalStanza iface conf attributes optionMap

/-- The function `parseInterfaceStanza`. -/
def parseInterfaceStanza (L : NetLib) (attributes : List String) (options : List String) :
    Except Err StanzaInterface :=
  match attributes with
  | [iface, _addressFamily, confMethod] =>
    match parseOptions options with
    | .error e => .error e
    | .ok optionMap =>
      match configOf L confMethod iface optionMap with
      | .error e => .error e
      | .ok conf => classify iface conf attributes optionMap
  | _ => .error .interfaceMissingAttributes

/-- The function `parseStanza`. -/
def parseStanza (L : NetLib) (rawStanza : List String) : Except Err Stanza :=
  match rawStanza with
  | [] => .error .panicEmptyStanza
  | first :: options =>
    match Fields first with
    | kind :: attr :: attributes =>
      if kind = "auto" then
        (parseAutoStanza (attr :: attributes) options).map Stanza.auto
      else if kind = "iface" then
        (parseInterfaceStanza L (attr :: attributes) options).map Stanza.iface
      else .error (.unknownStanza kind)
    | _ => .error (.malformedStanzaStart first)

/-- The first loop of `parseStanzas`: every raw stanza is parsed, and the
first failure is returned. -/
def parseRawStanzas (L : NetLib) : List (List String) → Except Err (List Stanza)
  | [] => .ok []
  | rawStanza :: rawStanzas =>
    match parseStanza L rawStanza with
    | .error e => .error e
    | .ok stanza =>
      match parseRawStanzas L rawStanzas with
      | .error e => .error e
      | .ok stanzas => .ok (stanza :: stanzas)

/-- The names of the `auto` stanzas, in order (the second loop of
`parseStanzas`). -/
def autoNames : List Stanza → List String
  | [] => []
  | .auto a :: stanzas => a.interfaces ++ autoNames stanzas
  | .iface _ :: stanzas => autoNames stanzas

/-- The map `interfaceMap` of `parseStanzas`: for each name, the position of
the last interface stanza of that name. -/
def interfaceMap : Nat → List Stanza → Map Nat → Map Nat
  | _, [], m => m
  | i, .auto _ :: stanzas, m => interfaceMap (i + 1) stanzas m
  | i, .iface c :: stanzas, m => interfaceMap (i + 1) stanzas (Map.set m c.name i)

/-- The third loop of `parseStanzas`: the stanza at a position that
`interfaceMap` gives an `auto` name is marked. -/
def applyAuto (marked : List Nat) : Nat → List Stanza → List Stanza
  | _, [] => []
  | i, .auto a :: stanzas => .auto a :: applyAuto marked (i + 1) stanzas
  | i, .iface c :: stanzas =>
    (if i ∈ marked then Stanza.iface { c with auto := true } else Stanza.iface c) ::
      applyAuto marked (i + 1) stanzas

/-- The function `parseStanzas`. The error of `splitStanzas` is overwritten by
the loop that follows, which then runs over the raw stanzas it returned (none
on error). -/
def parseStanzas (L : NetLib) (lines : List String) : Except Err (List Stanza) :=
  let rawStanzas : List (List String) :=
    match splitStanzas lines with
    | .ok r => r
    | .error _ => []
  match parseRawStanzas L rawStanzas with
  | .error e => .error e
  | .ok stanzas =>
    let m := interfaceMap 0 stanzas []
    let marked := (autoNames stanzas).filterMap (Map.get m)
    .ok (applyAuto marked 0 stanzas)

/-! ## `interface.go` -/

/-- An element of `children`: a pointer to a node, given by the node's kind
and name. -/
structure Child where
  kind : InterfaceKind
  name : String
  deriving DecidableEq, Repr

/-- The struct `logicalInterface`. -/
structure LogicalInterface where
  name : String
  config : ConfigMethod
  children : List Child
  deriving DecidableEq, Repr

/-- The struct `physicalInterface`. -/
structure PhysicalInterface where
  logical : LogicalInterface
  deriving DecidableEq, Repr

/-- The struct `bondInterface`. -/
structure BondInterface where
  logical : LogicalInterface
  slaves : List String
  deriving DecidableEq, Repr

/-- The struct `vlanInterface`. -/
structure VlanInterface where
  logical : LogicalInterface
  id : Int
  rawDevice : String
  deriving DecidableEq, Repr

/-- The interface type `InterfaceGenerator`, with its three implementations. -/
inductive InterfaceGenerator where
  | physical (p : PhysicalInterface)
  | bond (b : BondInterface)
  | vlan (v : VlanInterface)
  deriving DecidableEq, Repr

/-- The lines the loop over `children` adds to the network fragment of a
physical or bond node: a line for a VLAN and for a bond, nothing for any
other child. -/
def childLines : List Child → String
  | [] => ""
  | child :: children =>
    (match child.kind with
      | .interfaceVLAN => "VLAN=" ++ child.name ++ "\n"
      | .interfaceBond => "Bond=" ++ child.name ++ "\n"
      | .interfacePhysical => "") ++ childLines children

/-- The method `physicalInterface.Network`. -/
def PhysicalInterface.Network (p : PhysicalInterface) : String :=
  "[Match]\nName=" ++ p.logical.name ++ "\n\n[Network]\n" ++ childLines p.logical.children

/-- The method `bondInterface.Netdev`. -/
def BondInterface.Netdev (b : BondInterface) : String :=
  "[NetDev]\nKind=bond\nName=" ++ b.logical.name ++ "\n"

/-- The method `bondInterface.Network`. -/
def BondInterface.Network (b : BondInterface) : String :=
  "[Match]\nName=" ++ b.logical.name ++ "\n\n[Network]\nDHCP=true\n" ++
    childLines b.logical.children

/-- The method `vlanInterface.Netdev`. -/
def VlanInterface.Netdev (v : VlanInterface) : String :=
  "[NetDev]\nKind=vlan\nName=" ++ v.logical.name ++ "\n\n[VLAN]\nId=" ++ formatInt v.id ++ "\n"

/-- The lines of the nameservers in the network fragment of a VLAN. -/
def dnsLines (L : NetLib) : List IP → String
  | [] => ""
  | nameserver :: nameservers =>
    "DNS=" ++ IP.String L nameserver ++ "\n" ++ dnsLines L nameservers

/-- The sections of the routes in the network fragment of a VLAN. -/
def routeSections (L : NetLib) : List Route → String
  | [] => ""
  | route :: routes =>
    "\n[Route]\nDestination=" ++ IPNet.String L route.destination ++ "\nGateway=" ++
      IP.String L route.gateway ++ "\n" ++ routeSections L routes

/-- The section of the address in the network fragment of a VLAN. -/
def addressSection (L : NetLib) (address : IPNet) : String :=
  if address.ip ≠ none then "\n[Address]\nAddress=" ++ IPNet.String L address ++ "\n" else ""

/-- The method `vlanInterface.Network`. -/
def VlanInterface.Network (L : NetLib) (v : VlanInterface) : String :=
  "[Match]\nName=" ++ v.logical.name ++ "\n\n[Network]\n" ++
    (match v.logical.config with
      | .static conf =>
        dnsLines L conf.nameservers ++ addressSection L conf.address ++
          routeSections L conf.routes
      | _ => "")

/-- The method `Name`. -/
def InterfaceGenerator.Name : InterfaceGenerator → String
  | .physical p => p.logical.name
  | .bond b => b.logical.name
  | .vlan v => v.logical.name

/-- The method `Netdev`. -/
def InterfaceGenerator.Netdev : InterfaceGenerator → String
  | .physical _ => ""
  | .bond b => b.Netdev
  | .vlan v => v.Netdev

/-- The method `Link`. -/
def InterfaceGenerator.Link : InterfaceGenerator → String
  | .physical _ => ""
  | .bond _ => ""
  | .vlan _ => ""

/-- The method `Network`. -/
def InterfaceGenerator.Network (L : NetLib) : InterfaceGenerator → String
  | .physical p => p.Network
  | .bond b => b.Network
  | .vlan v => v.Network L

/-- The three maps of stanzas by kind that `buildInterfaces` fills first
(lines 122 to 134). -/
structure StanzaPools where
  bondStanzas : Map StanzaInterface
  physicalStanzas : Map StanzaInterface
  vlanStanzas : Map StanzaInterface

/-- The first loop of `buildInterfaces`. -/
def stanzaPools : StanzaPools → List StanzaInterface → StanzaPools
  | pools, [] => pools
  | pools, iface :: stanzas =>
    match iface.kind with
    | .interfaceBond =>
      stanzaPools { pools with bondStanzas := Map.set pools.bondStanzas iface.name iface } stanzas
    | .interfacePhysical =>
      stanzaPools
        { pools with physicalStanzas := Map.set pools.physicalStanzas iface.name iface } stanzas
    | .interfaceVLAN =>
      stanzaPools { pools with vlanStanzas := Map.set pools.vlanStanzas iface.name iface } stanzas

/-- The loop that builds `physicals` (lines 136 to 148). -/
def buildPhysicals : Map PhysicalInterface → List (String × StanzaInterface) →
    Map PhysicalInterface
  | physicals, [] => physicals
  | physicals, (_, p) :: rest =>
    if p.name = "lo" then buildPhysicals physicals rest
    else buildPhysicals (Map.set physicals p.name ⟨⟨p.name, p.configMethod, []⟩⟩) rest

/-- The loop that builds `bonds` (lines 150 to 164). -/
def buildBonds : Map BondInterface → List (String × StanzaInterface) → Map BondInterface
  | bonds, [] => bonds
  | bonds, (_, b) :: rest =>
    let slaves := Map.getD b.options "bond-slaves"
    buildBonds (Map.set bonds b.name ⟨⟨b.name, b.configMethod, []⟩, slaves⟩) rest

/-- The loop that builds `vlans` (lines 166 to 182). The index `[1]` into the
pieces of the name panics when the name has no dot; the error of `Atoi` is
dropped. -/
def buildVlans : Map VlanInterface → List (String × StanzaInterface) →
    Except Err (Map VlanInterface)
  | vlans, [] => .ok vlans
  | vlans, (_, v) :: rest =>
    match (Split v.name '.').get? 1 with
    | none => .error .panicIndexOutOfRange
    | some piece =>
      let id := (Atoi piece).val
      let rawDevice :=
        match Map.get v.options "vlan_raw_device" with
        | some [device] => device
        | _ => ""
      buildVlans (Map.set vlans v.name ⟨⟨v.name, v.configMethod, []⟩, id, rawDevice⟩) rest

/-- The pointer to a node is appended to the children of a node. -/
def LogicalInterface.addChild (l : LogicalInterface) (c : Child) : LogicalInterface :=
  { l with children := l.children ++ [c] }

/-- The body of the loop over `vlans` (lines 185 to 190), for one VLAN. -/
def linkVlan (vlan : VlanInterface) (pools : Map PhysicalInterface × Map BondInterface) :
    Map PhysicalInterface × Map BondInterface :=
  let physicals :=
    match Map.get pools.1 vlan.rawDevice with
    | some physical =>
      Map.set pools.1 vlan.rawDevice
        { physical with logical := physical.logical.addChild ⟨.interfaceVLAN, vlan.logical.name⟩ }
    | none => pools.1
  let bonds :=
    match Map.get pools.2 vlan.rawDevice with
    | some bond =>
      Map.set pools.2 vlan.rawDevice
        { bond with logical := bond.logical.addChild ⟨.interfaceVLAN, vlan.logical.name⟩ }
    | none => pools.2
  (physicals, bonds)

/-- The loop over `vlans` (lines 184 to 191). -/
def linkVlans : List (String × VlanInterface) → Map PhysicalInterface × Map BondInterface →
    Map PhysicalInterface × Map BondInterface
  | [], pools => pools
  | (_, vlan) :: rest, pools => linkVlans rest (linkVlan vlan pools)

/-- The body of the inner loop over the slaves of a bond (lines 195 to 200).
In the second `if` the variable `bond` is declared again, as the bond found
under the name of the slave: it is this one that is appended, to its own
children. -/
def linkSlave (bondName : String) (slave : String)
    (pools : Map PhysicalInterface × Map BondInterface) :
    Map PhysicalInterface × Map BondInterface :=
  let physicals :=
    match Map.get pools.1 slave with
    | some physical =>
      Map.set pools.1 slave
        { physical with logical := physical.logical.addChild ⟨.interfaceBond, bondName⟩ }
    | none => pools.1
  let bonds :=
    match Map.get pools.2 slave with
    | some bond =>
      Map.set pools.2 slave
        { bond with logical := bond.logical.addChild ⟨.interfaceBond, bond.logical.name⟩ }
    | none => pools.2
  (physicals, bonds)

/-- The loop over the slaves of one bond (lines 194 to 201). -/
def linkSlaves (bondName : String) : List String →
    Map PhysicalInterface × Map BondInterface → Map PhysicalInterface × Map BondInterface
  | [], pools => pools
  | slave :: slaves, pools => linkSlaves bondName slaves (linkSlave bondName slave pools)

/-- The loop over `bonds` (lines 193 to 202): the names and slaves of the bonds
do not change while it runs, only the children do. -/
def linkBonds : List (String × BondInterface) → Map PhysicalInterface × Map BondInterface →
    Map PhysicalInterface × Map BondInterface
  | [], pools => pools
  | (_, bond) :: rest, pools =>
    linkBonds rest (linkSlaves bond.logical.name bond.slaves pools)

/-- The function `buildInterfaces`; `o` is the order of its `range` loops over
maps, numbered from 0 in the order of the source. -/
def buildInterfaces (o : RangeOrder) (stanzas : List StanzaInterface) :
    Except Err (List InterfaceGenerator) :=
  let pools := stanzaPools ⟨[], [], []⟩ stanzas
  let physicals := buildPhysicals [] (Map.range o 0 pools.physicalStanzas)
  let bonds := buildBonds [] (Map.range o 1 pools.bondStanzas)
  match buildVlans [] (Map.range o 2 pools.vlanStanzas) with
  | .error e => .error e
  | .ok vlans =>
    let linked := linkVlans (Map.range o 3 vlans) (physicals, bonds)
    let linked := linkBonds (Map.range o 4 linked.2) linked
    .ok (((Map.range o 5 linked.1).map (fun e => InterfaceGenerator.physical e.2)) ++
      ((Map.range o 6 linked.2).map (fun e => InterfaceGenerator.bond e.2)) ++
      ((Map.range o 7 vlans).map (fun e => InterfaceGenerator.vlan e.2)))

/-! ## Definitions used to state the properties -/

/-- The four bytes of the IPv4 mask of prefix length `p`: `p` one bits
followed by `32 - p` zero bits. -/
def prefixMask (p : Nat) : List Nat :=
  let n := 2 ^ 32 - 2 ^ (32 - p)
  [n / 2 ^ 24 % 256, n / 2 ^ 16 % 256, n / 2 ^ 8 % 256, n % 256]

/-- The text after the last occurrence of `c` in a text that has one (the
whole text otherwise). -/
def afterLast (c : Char) : List Char → List Char
  | [] => []
  | x :: xs => if c ∈ xs then afterLast c xs else if x = c then xs else x :: xs

/-- The suffix of an interface name that holds the VLAN id: the text after
the last dot of a name with a dot; for a name without a dot, the text after
the prefix `vlan`; no suffix for any other name. -/
def vlanSuffix (name : String) : Option String :=
  if '.' ∈ name.data then some ⟨afterLast '.' name.data⟩
  else if "vlan".data <+: name.data then some ⟨name.data.drop 4⟩
  else none

/-- The declaration `parseVLANStanza` returns for a name whose suffix is
`id`. -/
def vlanDeclaration (iface : String) (conf : ConfigMethod) (options : OptionMap)
    (id : String) : StanzaInterface :=
  ⟨iface, .interfaceVLAN, false, conf,
    Map.set (Map.set options "id" [id]) "raw_device"
      (Map.getD (Map.set options "id" [id]) "vlan_raw_device")⟩

/-- Whether the last of the fields is one of the keywords `-net`, `netmask`,
`gw`, after which the loop over the fields reads one more field. -/
def endsInKeyword (fields : List String) : Bool :=
  match fields.getLast? with
  | some f => f = "-net" || f = "netmask" || f = "gw"
  | none => false

/-- The field that follows the last occurrence of the keyword `kw` among the
fields, when there is one. -/
def argOf (kw : String) : List String → Option String
  | [] => none
  | f :: rest =>
    match argOf kw rest with
    | some a => some a
    | none => if f = kw then rest.head? else none

/-- Children are appended to the children of a node. -/
def LogicalInterface.addChildren (l : LogicalInterface) (cs : List Child) : LogicalInterface :=
  { l with children := l.children ++ cs }

/-- The pointers to the VLANs of a list whose raw device is `k`, in the order
of the list. -/
def vlanChildrenOf (k : String) (l : List (String × VlanInterface)) : List Child :=
  (l.filter (fun e => e.2.rawDevice = k)).map (fun e => ⟨.interfaceVLAN, e.2.logical.name⟩)

/-- The pointers to the bonds of a list that have `k` among their slaves, once
for each time `k` stands in the list of slaves, in the order of the list. -/
def bondChildrenOf (k : String) (l : List (String × BondInterface)) : List Child :=
  l.flatMap (fun e =>
    (e.2.slaves.filter (fun slave => slave = k)).map (fun _ => ⟨.interfaceBond, e.2.logical.name⟩))

/-- The maps `physicals` and `bonds` of `buildInterfaces` before the two loops
that link the nodes. -/
def nodePools (o : RangeOrder) (stanzas : List StanzaInterface) :
    Map PhysicalInterface × Map BondInterface :=
  (buildPhysicals [] (Map.range o 0 (stanzaPools ⟨[], [], []⟩ stanzas).physicalStanzas),
    buildBonds [] (Map.range o 1 (stanzaPools ⟨[], [], []⟩ stanzas).bondStanzas))

/-- The maps `physicals` and `bonds` of `buildInterfaces` after the loop over
`vlans`. -/
def vlanLinkedPools (o : RangeOrder) (stanzas : List StanzaInterface)
    (vlans : Map VlanInterface) : Map PhysicalInterface × Map BondInterface :=
  linkVlans (Map.range o 3 vlans) (nodePools o stanzas)

/-- The maps `physicals` and `bonds` of `buildInterfaces` after the loop over
`bonds`. -/
def linkedPools (o : RangeOrder) (stanzas : List StanzaInterface)
    (vlans : Map VlanInterface) : Map PhysicalInterface × Map BondInterface :=
  linkBonds (Map.range o 4 (vlanLinkedPools o stanzas vlans).2) (vlanLinkedPools o stanzas vlans)

/-- A stanza as `splitStanzas` cuts them: a stanza-start line followed by
lines that are not stanza-start lines. -/
def StanzaShape (s : List String) : Prop :=
  ∃ first rest, s = first :: rest ∧ isStanzaStart first = true ∧
    ∀ l ∈ rest, isStanzaStart l = false

/-- The text of a line before its first space (the whole line when it has no
space). -/
def beforeFirstSpace (line : String) : String :=
  ⟨line.data.takeWhile (fun c => c ≠ ' ')⟩

/-- The pointers the loop over `bonds` adds to the children of the bond under
the key `k`, whose name is `name`: one pointer to that bond itself for each
time `k` stands among the slaves of a bond of the list. -/
def selfChildrenOf (k name : String) (l : List (String × BondInterface)) : List Child :=
  (l.flatMap (fun e => e.2.slaves.filter (fun slave => slave = k))).map
    (fun _ => ⟨.interfaceBond, name⟩)

/-- The raw device `buildInterfaces` gives the node of a VLAN stanza: the
value of the option `vlan_raw_device` when it has exactly one, the empty
string otherwise. -/
def rawDeviceOf (v : StanzaInterface) : String :=
  match Map.get v.options "vlan_raw_device" with
  | some [device] => device
  | _ => ""

/-- The children of a node. -/
def InterfaceGenerator.children : InterfaceGenerator → List Child
  | .physical p => p.logical.children
  | .bond b => b.logical.children
  | .vlan v => v.logical.children


/-- The line a physical or bond node writes in its section `[Network]` for one
dependent: `VLAN=` and the name for a VLAN, `Bond=` and the name for a bond,
nothing for a pointer to any other node. -/
def childLine (child : Child) : String :=
  match child.kind with
  | .interfaceVLAN => "VLAN=" ++ child.name ++ "\n"
  | .interfaceBond => "Bond=" ++ child.name ++ "\n"
  | .interfacePhysical => ""

/-- The order that visits the keys from the last inserted to the first in the
loop `j`, and in the order of insertion in every other loop. -/
def reverseAt (j : Nat) : RangeOrder where
  visit := fun i ks => if i = j then ks.reverse else ks

/-- A node with other children in the place of its own. -/
def InterfaceGenerator.withChildren : InterfaceGenerator → List Child → InterfaceGenerator
  | .physical p, cs => .physical { p with logical := { p.logical with children := cs } }
  | .bond b, cs => .bond { b with logical := { b.logical with children := cs } }
  | .vlan v, cs => .vlan { v with logical := { v.logical with children := cs } }

/-- The short form of the bytes of an address or mask: the four bytes of an
IPv4 value held in sixteen, the bytes themselves otherwise. -/
def shortForm (bs : List Nat) : List Nat :=
  (To4 bs).getD bs

/-- Whether a text is a minus sign followed by decimal digits that are not all
zero. -/
def negativeNumeral (s : String) : Bool :=
  match s.data with
  | '-' :: r =>
    match digitsVal 0 r with
    | some n => decide (0 < n)
    | none => false
  | _ => false

/-! ## Theorems -/

/-! ### Maps -/

theorem Map.get_set_self {V : Type} (m : Map V) (k : String) (v : V) :
    Map.get (Map.set m k v) k = some v := by
  induction m with
  | nil => simp [Map.set, Map.get]
  | cons e m ih =>
    obtain ⟨k', v'⟩ := e
    by_cases h : k' = k
    · simp [Map.set, Map.get, h]
    · simp [Map.set, Map.get, h, ih]

theorem Map.get_set_other {V : Type} (m : Map V) (k k' : String) (v : V) (h : k' ≠ k) :
    Map.get (Map.set m k v) k' = Map.get m k' := by
  induction m with
  | nil => simp [Map.set, Map.get, Ne.symm h]
  | cons e m ih =>
    obtain ⟨k₁, v₁⟩ := e
    by_cases h₁ : k₁ = k
    · subst h₁
      simp [Map.set, Map.get, Ne.symm h]
    · simp [Map.set, Map.get, h₁, ih]

/-! ### Package `net` -/

theorem simpleMaskLength_prefixMask :
    ∀ p : Nat, p ≤ 32 → simpleMaskLength (prefixMask p) = some p := by
  decide

theorem To4_IPv4 (a b c d : Nat) : To4 (IPv4 a b c d) = some [a, b, c, d] := by
  rfl

theorem parseIPv4_eq_some (lz : Bool) (s : String) (ip : List Nat)
    (h : parseIPv4 lz s = some ip) : ∃ a b c d, ip = IPv4 a b c d := by
  unfold parseIPv4 at h
  split at h
  · split at h
    · simp only [Option.some.injEq] at h
      exact ⟨_, _, _, _, h.symm⟩
    · simp at h
  · simp at h

theorem ParseIP_of_parseIPv4 (L : NetLib) (s : String) (ip : List Nat)
    (h : parseIPv4 L.leadingZeros s = some ip) : ParseIP L s = some ip := by
  simp [ParseIP, h]

theorem IPNet_String_v4 (L : NetLib) (a b c d p : Nat) (hp : p ≤ 32) :
    IPNet.String L ⟨some (IPv4 a b c d), some (v4InV6Prefix ++ prefixMask p)⟩ =
      dotted [a, b, c, d] ++ "/" ++ itod p := by
  have h1 : networkNumberAndMask ⟨some (IPv4 a b c d), some (v4InV6Prefix ++ prefixMask p)⟩ =
      some ([a, b, c, d], prefixMask p) := by
    rfl
  simp only [IPNet.String, h1, simpleMaskLength_prefixMask p hp]
  rfl

/-! ### Package `strings` -/

theorem splitChars_ne_nil (c : Char) (l : List Char) : splitChars c l ≠ [] := by
  cases l with
  | nil => simp [splitChars]
  | cons x xs =>
    simp only [splitChars]
    split
    · simp
    · split <;> simp

theorem splitChars_of_not_mem (c : Char) (l : List Char) (h : c ∉ l) :
    splitChars c l = [l] := by
  induction l with
  | nil => rfl
  | cons x xs ih =>
    have hx : x ≠ c := fun e => h (e ▸ List.mem_cons_self _ _)
    have hxs : c ∉ xs := fun e => h (List.mem_cons_of_mem _ e)
    simp [splitChars, hx, ih hxs]

theorem splitChars_length_of_mem (c : Char) (l : List Char) (h : c ∈ l) :
    2 ≤ (splitChars c l).length := by
  induction l with
  | nil => simp at h
  | cons x xs ih =>
    by_cases hx : x = c
    · have := splitChars_ne_nil c xs
      simp only [splitChars, hx, if_true, List.length_cons]
      have : 0 < (splitChars c xs).length := List.length_pos.mpr this
      omega
    · have hxs : c ∈ xs := by
        rcases List.mem_cons.mp h with e | e
        · exact absurd e.symm hx
        · exact e
      have := ih hxs
      simp only [splitChars, hx, if_false]
      cases hs : splitChars c xs with
      | nil => simp [hs] at this
      | cons p ps => simpa [hs] using this

theorem splitChars_length_of_not_mem (c : Char) (l : List Char) (h : c ∉ l) :
    (splitChars c l).length = 1 := by
  simp [splitChars_of_not_mem c l h]

theorem afterLast_of_not_mem (c : Char) (l : List Char) (h : c ∉ l) : afterLast c l = l := by
  cases l with
  | nil => rfl
  | cons x xs =>
    have hx : x ≠ c := fun e => h (e ▸ List.mem_cons_self _ _)
    have hxs : c ∉ xs := fun e => h (List.mem_cons_of_mem _ e)
    simp [afterLast, hx, hxs]

theorem splitChars_getLast? (c : Char) (l : List Char) :
    (splitChars c l).getLast? = some (afterLast c l) := by
  induction l with
  | nil => rfl
  | cons x xs ih =>
    by_cases hx : x = c
    · have hal : afterLast c (x :: xs) = afterLast c xs := by
        by_cases hmem : c ∈ xs
        · simp [afterLast, hmem]
        · simp [afterLast, hmem, hx, afterLast_of_not_mem c xs hmem]
      rw [hal]
      simp only [splitChars, hx, if_true]
      cases hs : splitChars c xs with
      | nil => exact absurd hs (splitChars_ne_nil c xs)
      | cons p ps =>
        rw [hs] at ih
        simpa using ih
    · by_cases hmem : c ∈ xs
      · have hlen := splitChars_length_of_mem c xs hmem
        simp only [splitChars, hx, if_false, afterLast, hmem, if_true]
        cases hs : splitChars c xs with
        | nil => simp [hs] at hlen
        | cons p ps =>
          cases ps with
          | nil => simp [hs] at hlen
          | cons q qs =>
            rw [hs] at ih
            simpa using ih
      · have hn : c ∉ x :: xs := by
          simp [hmem, Ne.symm hx]
        rw [splitChars_of_not_mem c (x :: xs) hn, afterLast_of_not_mem c (x :: xs) hn]
        rfl

theorem Contains_iff (s : String) (c : Char) : Contains s c = true ↔ c ∈ s.data := by
  simp [Contains]

theorem HasPrefix_iff (s p : String) : HasPrefix s p = true ↔ p.data <+: s.data := by
  simp [HasPrefix]

theorem Split_getLastD (s : String) (c : Char) :
    (Split s c).getLastD "" = ⟨afterLast c s.data⟩ := by
  have h := splitChars_getLast? c s.data
  simp [Split, List.getLastD_eq_getLast?, h]

/-! ### `parseVLANStanza` -/

theorem parseVLANStanza_eq (iface : String) (conf : ConfigMethod) (attributes : List String)
    (options : OptionMap) :
    parseVLANStanza iface conf attributes options =
      match vlanSuffix iface with
      | some id =>
        if (Atoi id).ok = true then .ok (vlanDeclaration iface conf options id)
        else .error (.malformedVLANName iface)
      | none => .error (.malformedVLANName iface) := by
  unfold parseVLANStanza vlanSuffix
  by_cases hdot : '.' ∈ iface.data
  · have hc : Contains iface '.' = true := (Contains_iff _ _).mpr hdot
    simp only [hc, if_true, hdot, Split_getLastD]
    cases hok : (Atoi ⟨afterLast '.' iface.data⟩).ok <;> simp [vlanDeclaration]
  · have hc : Contains iface '.' = false := by
      cases h : Contains iface '.'
      · rfl
      · exact absurd ((Contains_iff _ _).mp h) hdot
    simp only [hc, hdot, if_false, Bool.false_eq_true]
    by_cases hp : "vlan".data <+: iface.data
    · have hp2 : HasPrefix iface "vlan" = true := (HasPrefix_iff _ _).mpr hp
      have ht : TrimPrefix iface "vlan" = ⟨iface.data.drop 4⟩ := by
        simp [TrimPrefix, hp2]
      simp only [hp2, if_true, hp, ht]
      cases hok : (Atoi ⟨iface.data.drop 4⟩).ok <;> simp [vlanDeclaration]
    · have hp2 : HasPrefix iface "vlan" = false := by
        cases h : HasPrefix iface "vlan"
        · rfl
        · exact absurd ((HasPrefix_iff _ _).mp h) hp
      simp [hp2, hp]

/-! ### The case `static` of `parseInterfaceStanza` -/

theorem endsInKeyword_cons_cons (f g : String) (rest : List String) :
    endsInKeyword (f :: g :: rest) = endsInKeyword (g :: rest) := by
  simp [endsInKeyword, List.getLast?_cons_cons]

theorem routeFromFields_ok (L : NetLib) (fields : List String) :
    ∀ route : Route, endsInKeyword fields = false →
      ∃ r, routeFromFields L route fields = .ok r := by
  induction fields with
  | nil => intro route _; exact ⟨route, rfl⟩
  | cons f rest ih =>
    intro route h
    cases rest with
    | nil =>
      have hk : (f ≠ "-net" ∧ f ≠ "netmask") ∧ f ≠ "gw" := by
        simpa [endsInKeyword] using h
      exact ⟨route, by simp [routeFromFields, hk.1.1, hk.1.2, hk.2]⟩
    | cons g rest =>
      rw [endsInKeyword_cons_cons] at h
      simp only [routeFromFields]
      split
      · exact ih _ h
      · split
        · exact ih _ h
        · split
          · exact ih _ h
          · exact ih _ h

theorem routeFromFields_panic (L : NetLib) (fields : List String) :
    ∀ route : Route, endsInKeyword fields = true →
      routeFromFields L route fields = .error .panicIndexOutOfRange := by
  induction fields with
  | nil => intro route h; simp [endsInKeyword] at h
  | cons f rest ih =>
    intro route h
    cases rest with
    | nil =>
      have hk : (f = "-net" ∨ f = "netmask") ∨ f = "gw" := by
        simpa [endsInKeyword] using h
      rcases hk with (hk | hk) | hk <;> subst hk <;> simp [routeFromFields]
    | cons g rest =>
      rw [endsInKeyword_cons_cons] at h
      simp only [routeFromFields]
      split
      · exact ih _ h
      · split
        · exact ih _ h
        · split
          · exact ih _ h
          · exact ih _ h

theorem postUpRoutes_acc (L : NetLib) (postups : List String) :
    ∀ routes : List Route,
      postUpRoutes L routes postups =
        match postUpRoutes L [] postups with
        | .error e => .error e
        | .ok rs => .ok (routes ++ rs) := by
  induction postups with
  | nil => intro routes; simp [postUpRoutes]
  | cons v vs ih =>
    intro routes
    simp only [postUpRoutes]
    by_cases hp : HasPrefix v "route add" = true
    · simp only [hp, if_true]
      cases hr : routeFromFields L ⟨⟨none, none⟩, none⟩ (Fields v) with
      | error e => rfl
      | ok r =>
        simp only []
        rw [ih (routes ++ [r]), ih ([] ++ [r])]
        cases postUpRoutes L [] vs with
        | error e => rfl
        | ok rs => simp
    · simp only [hp, if_false, Bool.false_eq_true]
      exact ih routes

theorem postUpRoutes_ok (L : NetLib) (postups : List String)
    (h : ∀ v ∈ postups, HasPrefix v "route add" = true → endsInKeyword (Fields v) = false) :
    ∃ rs, postUpRoutes L [] postups = .ok rs := by
  induction postups with
  | nil => exact ⟨[], rfl⟩
  | cons v vs ih =>
    obtain ⟨rs, hrs⟩ := ih (fun w hw => h w (List.mem_cons_of_mem _ hw))
    simp only [postUpRoutes]
    by_cases hp : HasPrefix v "route add" = true
    · obtain ⟨r, hr⟩ := routeFromFields_ok L (Fields v) ⟨⟨none, none⟩, none⟩
        (h v (List.mem_cons_self _ _) hp)
      simp only [hp, if_true, hr]
      rw [postUpRoutes_acc, hrs]
      exact ⟨_, rfl⟩
    · simp only [hp, if_false, Bool.false_eq_true]
      exact ⟨rs, hrs⟩

theorem staticConfig_valid (L : NetLib) (iface : String) (m : OptionMap) (a nm : String)
    (ip mask : List Nat)
    (ha : Map.get m "address" = some [a]) (hip : ParseIP L a = some ip)
    (hn : Map.get m "netmask" = some [nm]) (hmask : ParseIP L nm = some mask) :
    staticConfig L iface m =
      match postUpRoutes L [] (Map.getD m "post-up") with
      | .error e => .error e
      | .ok rs =>
        .ok (.static ⟨⟨some ip, some mask⟩, (Map.getD m "dns-nameservers").map (ParseIP L),
          gatewayRoutes L m ++ rs⟩) := by
  unfold staticConfig
  simp only [ha, hip, hn, hmask]
  rw [postUpRoutes_acc]
  cases postUpRoutes L [] (Map.getD m "post-up") <;> simp

theorem parseInterfaceStanza_static (L : NetLib) (iface family : String)
    (options : List String) (m : OptionMap) (h : parseOptions options = .ok m) :
    parseInterfaceStanza L [iface, family, "static"] options =
      match staticConfig L iface m with
      | .error e => .error e
      | .ok conf => classify iface conf [iface, family, "static"] m := by
  simp [parseInterfaceStanza, h, configOf]

theorem classify_eq (iface : String) (conf : ConfigMethod) (attributes : List String)
    (m : OptionMap) :
    classify iface conf attributes m =
      if (Map.get m "vlan_raw_device").isSome = true ∨ '.' ∈ iface.data then
        parseVLANStanza iface conf attributes m
      else if (Map.get m "bond-slaves").isSome = true then
        parseBondStanza iface conf attributes m
      else parsePhysicalStanza iface conf attributes m := by
  unfold classify
  by_cases h1 : (Map.get m "vlan_raw_device").isSome = true
  · simp [h1]
  · by_cases h2 : '.' ∈ iface.data
    · simp [h1, h2, (Contains_iff _ _).mpr h2]
    · have hc : Contains iface '.' = false := by
        cases h : Contains iface '.'
        · rfl
        · exact absurd ((Contains_iff _ _).mp h) h2
      simp [h1, h2, hc]

theorem classify_ok (iface : String) (conf : ConfigMethod) (attributes : List String)
    (m : OptionMap)
    (hname : (Map.get m "vlan_raw_device").isSome = true ∨ '.' ∈ iface.data →
      ∃ id, vlanSuffix iface = some id ∧ (Atoi id).ok = true) :
    ∃ d, classify iface conf attributes m = .ok d ∧ d.configMethod = conf ∧ d.name = iface := by
  rw [classify_eq]
  by_cases h : (Map.get m "vlan_raw_device").isSome = true ∨ '.' ∈ iface.data
  · obtain ⟨id, hid, hok⟩ := hname h
    rw [if_pos h, parseVLANStanza_eq, hid]
    simp only [hok, if_true]
    exact ⟨_, rfl, rfl, rfl⟩
  · rw [if_neg h]
    by_cases hb : (Map.get m "bond-slaves").isSome = true
    · rw [if_pos hb]
      exact ⟨_, rfl, rfl, rfl⟩
    · rw [if_neg hb]
      exact ⟨_, rfl, rfl, rfl⟩

theorem addressSection_v4 (L : NetLib) (a b c d p : Nat) (hp : p ≤ 32) :
    addressSection L ⟨some (IPv4 a b c d), some (v4InV6Prefix ++ prefixMask p)⟩ =
      "\n[Address]\nAddress=" ++ dotted [a, b, c, d] ++ "/" ++ itod p ++ "\n" := by
  simp only [addressSection, ne_eq, not_false_eq_true, if_true, IPNet_String_v4 L a b c d p hp,
    reduceCtorEq]
  simp [String.append_assoc]

/-! ### The address of a static interface (C1) -/

/-- C1, as amended. For every interface stanza with method `static` whose
option lines parse into options that carry exactly one `address` value, an
IPv4 address `a0.a1.a2.a3`, and exactly one `netmask` value, the IPv4 mask of
prefix length `p`, whose `post-up` values that start with `route add` do not
end in a keyword, and whose name carries an integer suffix when the stanza is
a VLAN, `parseInterfaceStanza` succeeds with a Static method, and the
Network() fragment of a VLAN node that carries this method is the header, the
`DNS=` lines, the one section `[Address]` with the line
`Address=a0.a1.a2.a3/p`, and the `[Route]` sections. -/
theorem static_address_rendered (L : NetLib) (iface family : String) (options : List String)
    (m : OptionMap) (a nm : String) (a0 a1 a2 a3 p : Nat)
    (hopt : parseOptions options = .ok m)
    (ha : Map.get m "address" = some [a])
    (hip : parseIPv4 L.leadingZeros a = some (IPv4 a0 a1 a2 a3))
    (hn : Map.get m "netmask" = some [nm])
    (hp : p ≤ 32)
    (hmask : parseIPv4 L.leadingZeros nm = some (v4InV6Prefix ++ prefixMask p))
    (hpost : ∀ v ∈ Map.getD m "post-up",
      HasPrefix v "route add" = true → endsInKeyword (Fields v) = false)
    (hname : (Map.get m "vlan_raw_device").isSome = true ∨ '.' ∈ iface.data →
      ∃ id, vlanSuffix iface = some id ∧ (Atoi id).ok = true) :
    ∃ d conf, parseInterfaceStanza L [iface, family, "static"] options = .ok d ∧
      d.configMethod = .static conf ∧
      ∀ v : VlanInterface, v.logical.config = .static conf →
        v.Network L =
          "[Match]\nName=" ++ v.logical.name ++ "\n\n[Network]\n" ++
            (dnsLines L conf.nameservers ++
              ("\n[Address]\nAddress=" ++ dotted [a0, a1, a2, a3] ++ "/" ++ itod p ++ "\n") ++
              routeSections L conf.routes) := by
  obtain ⟨rs, hrs⟩ := postUpRoutes_ok L _ hpost
  have hstatic := staticConfig_valid L iface m a nm _ _ ha (ParseIP_of_parseIPv4 L a _ hip) hn
    (ParseIP_of_parseIPv4 L nm _ hmask)
  rw [hrs] at hstatic
  obtain ⟨d, hd, hconf, _⟩ := classify_ok iface
    (.static ⟨⟨some (IPv4 a0 a1 a2 a3), some (v4InV6Prefix ++ prefixMask p)⟩,
      (Map.getD m "dns-nameservers").map (ParseIP L), gatewayRoutes L m ++ rs⟩)
    [iface, family, "static"] m hname
  refine ⟨d, _, ?_, hconf, ?_⟩
  · rw [parseInterfaceStanza_static L iface family options m hopt, hstatic]
    exact hd
  · intro v hv
    simp only [VlanInterface.Network, hv, addressSection_v4 L a0 a1 a2 a3 p hp]

theorem static_address_rendered_witness :
    ∃ d conf, parseInterfaceStanza ipv4Lib ["eth", "inet", "static"]
        ["address 192.168.1.100", "netmask 255.255.255.0"] = .ok d ∧
      d.configMethod = .static conf ∧
      ∀ v : VlanInterface, v.logical.config = .static conf →
        v.Network ipv4Lib =
          "[Match]\nName=" ++ v.logical.name ++ "\n\n[Network]\n" ++
            (dnsLines ipv4Lib conf.nameservers ++
              ("\n[Address]\nAddress=" ++ dotted [192, 168, 1, 100] ++ "/" ++ itod 24 ++ "\n") ++
              routeSections ipv4Lib conf.routes) :=
  static_address_rendered ipv4Lib "eth" "inet"
    ["address 192.168.1.100", "netmask 255.255.255.0"]
    [("address", ["192.168.1.100"]), ("netmask", ["255.255.255.0"])]
    "192.168.1.100" "255.255.255.0" 192 168 1 100 24
    (by decide) (by decide) (by decide) (by decide) (by decide) (by decide) (by decide)
    (fun h => absurd h (by decide))

/-- C1, counterexample. A stanza with method `static`, one IPv4 address and
one netmask of prefix length 24, whose name has a dot and no integer after
it: `parseInterfaceStanza` fails with the error of `parseVLANStanza`. -/
theorem static_address_vlan_name_rejected :
    parseOptions ["address 192.168.1.100", "netmask 255.255.255.0"] =
        .ok [("address", ["192.168.1.100"]), ("netmask", ["255.255.255.0"])] ∧
      parseIPv4 ipv4Lib.leadingZeros "192.168.1.100" = some (IPv4 192 168 1 100) ∧
      parseIPv4 ipv4Lib.leadingZeros "255.255.255.0" = some (v4InV6Prefix ++ prefixMask 24) ∧
      parseInterfaceStanza ipv4Lib ["eth0.x", "inet", "static"]
        ["address 192.168.1.100", "netmask 255.255.255.0"] =
          .error (.malformedVLANName "eth0.x") := by
  decide

/-! ### A missing address or netmask (C2) -/

/-- C2, at the failing input. With method `static`, no `address` and no
`netmask`, and an option line `post-up` that carries no value,
`parseInterfaceStanza` does not return the malformed-static-network error: the
index `tokens[1]` is out of range and the function panics. -/
theorem static_missing_address_bare_postup :
    parseInterfaceStanza ipv4Lib ["eth", "inet", "static"] ["post-up"] =
      .error .panicIndexOutOfRange := by
  decide

/-! ### An unknown method (C3) -/

/-- C3, at the failing input. For the method token `invalid`,
`parseInterfaceStanza` returns no error: it returns a physical interface
declaration whose method is nil. -/
theorem invalid_method_accepted :
    parseInterfaceStanza ipv4Lib ["eth", "inet", "invalid"] [] =
      .ok ⟨"eth", .interfacePhysical, false, .unset, []⟩ := by
  decide

theorem staticConfig_malformed (L : NetLib) (iface : String) (m : OptionMap)
    (h : (∀ a, Map.get m "address" = some [a] → ParseIP L a = none) ∨
      (∀ nm, Map.get m "netmask" = some [nm] → ParseIP L nm = none)) :
    staticConfig L iface m = .error (.malformedStaticNetwork iface) := by
  unfold staticConfig
  rcases h with h | h
  · have : (match Map.get m "address" with
        | some [address] => ParseIP L address
        | _ => none) = none := by
      split
      · exact h _ (by assumption)
      · rfl
    simp [this]
  · have : (match Map.get m "netmask" with
        | some [netmask] => ParseIP L netmask
        | _ => none) = none := by
      split
      · exact h _ (by assumption)
      · rfl
    simp [this]

theorem gatewayRoutes_one (L : NetLib) (m : OptionMap) (gateway : String)
    (hg : Map.get m "gateway" = some [gateway]) :
    gatewayRoutes L m =
      [⟨⟨some (IPv4 0 0 0 0), some (IPv4Mask 0 0 0 0)⟩, ParseIP L gateway⟩] := by
  simp [gatewayRoutes, hg]

theorem gatewayRoutes_none (L : NetLib) (m : OptionMap) (gateways : List String)
    (hg : Map.get m "gateway" = some gateways) (hlen : gateways.length ≠ 1) :
    gatewayRoutes L m = [] := by
  unfold gatewayRoutes
  rw [hg]
  split
  · rename_i h
    simp only [Option.some.injEq] at h
    subst h
    simp at hlen
  · rfl

/-! ### The route of the `gateway` option (C4) -/

/-- C4. For every static interface stanza whose options carry a valid address
and netmask and a `gateway` option: the destination of the default route
reads `0.0.0.0/0`; when the option has exactly one value, the routes of the
Static method are exactly one route from that option, to that destination and
through that gateway, followed by the routes of the `post-up` values; when it
has no value or two or more, they are the routes of the `post-up` values
alone, and the option brings no failure: in both cases `parseInterfaceStanza`
fails only where the `post-up` values or the classification of the stanza do. -/
theorem gateway_option_route (L : NetLib) (iface family : String) (options : List String)
    (m : OptionMap) (a nm : String) (ip mask : List Nat) (gateways : List String)
    (hopt : parseOptions options = .ok m)
    (ha : Map.get m "address" = some [a]) (hip : ParseIP L a = some ip)
    (hn : Map.get m "netmask" = some [nm]) (hmask : ParseIP L nm = some mask)
    (hg : Map.get m "gateway" = some gateways) :
    IPNet.String L ⟨some (IPv4 0 0 0 0), some (IPv4Mask 0 0 0 0)⟩ = "0.0.0.0/0" ∧
      (∀ gateway, gateways = [gateway] →
        parseInterfaceStanza L [iface, family, "static"] options =
          match postUpRoutes L [] (Map.getD m "post-up") with
          | .error e => .error e
          | .ok rs =>
            classify iface
              (.static ⟨⟨some ip, some mask⟩,
                (Map.getD m "dns-nameservers").map (ParseIP L),
                ⟨⟨some (IPv4 0 0 0 0), some (IPv4Mask 0 0 0 0)⟩, ParseIP L gateway⟩ :: rs⟩)
              [iface, family, "static"] m) ∧
      (gateways.length ≠ 1 →
        parseInterfaceStanza L [iface, family, "static"] options =
          match postUpRoutes L [] (Map.getD m "post-up") with
          | .error e => .error e
          | .ok rs =>
            classify iface
              (.static ⟨⟨some ip, some mask⟩,
                (Map.getD m "dns-nameservers").map (ParseIP L), rs⟩)
              [iface, family, "static"] m) := by
  have hmain := parseInterfaceStanza_static L iface family options m hopt
  rw [staticConfig_valid L iface m a nm ip mask ha hip hn hmask] at hmain
  refine ⟨by rfl, ?_, ?_⟩
  · intro gateway hgw
    subst hgw
    rw [hmain, gatewayRoutes_one L m gateway hg]
    cases postUpRoutes L [] (Map.getD m "post-up") <;> rfl
  · intro hlen
    rw [hmain, gatewayRoutes_none L m gateways hg hlen]
    cases postUpRoutes L [] (Map.getD m "post-up") <;> rfl

theorem gateway_option_route_witness :
    parseInterfaceStanza ipv4Lib ["eth", "inet", "static"]
        ["address 192.168.1.100", "netmask 255.255.255.0", "gateway 192.168.1.1"] =
      .ok ⟨"eth", .interfacePhysical, false,
        .static ⟨⟨some (IPv4 192 168 1 100), some (IPv4 255 255 255 0)⟩, [],
          [⟨⟨some (IPv4 0 0 0 0), some (IPv4Mask 0 0 0 0)⟩, some (IPv4 192 168 1 1)⟩]⟩,
        [("address", ["192.168.1.100"]), ("netmask", ["255.255.255.0"]),
          ("gateway", ["192.168.1.1"])]⟩ :=
  ((gateway_option_route ipv4Lib "eth" "inet"
    ["address 192.168.1.100", "netmask 255.255.255.0", "gateway 192.168.1.1"]
    [("address", ["192.168.1.100"]), ("netmask", ["255.255.255.0"]),
      ("gateway", ["192.168.1.1"])]
    "192.168.1.100" "255.255.255.0" (IPv4 192 168 1 100) (IPv4 255 255 255 0) ["192.168.1.1"]
    (by decide) (by decide) (by decide) (by decide) (by decide) (by decide)).2.1
      "192.168.1.1" rfl).trans (by decide)

/-! ### The routes of the `post-up` values (C5, C6) -/

theorem argOf_of_not_mem (kw : String) (fields : List String) (h : kw ∉ fields) :
    argOf kw fields = none := by
  induction fields with
  | nil => rfl
  | cons f rest ih =>
    have hf : f ≠ kw := fun e => h (e ▸ List.mem_cons_self _ _)
    have hr : kw ∉ rest := fun e => h (List.mem_cons_of_mem _ e)
    simp [argOf, ih hr, hf]

theorem argOf_of_last (kw a : String) (fields : List String) :
    ∀ i : Nat, fields.get? i = some kw → fields.get? (i + 1) = some a →
      (∀ i', i < i' → fields.get? i' ≠ some kw) → argOf kw fields = some a := by
  induction fields with
  | nil => intro i h; simp at h
  | cons f rest ih =>
    intro i hi ha hlast
    cases i with
    | zero =>
      have hf : f = kw := by simpa using hi
      have hr : kw ∉ rest := by
        intro hmem
        obtain ⟨n, hn⟩ := List.get?_of_mem hmem
        exact hlast (n + 1) (Nat.succ_pos n) (by simpa using hn)
      have hhead : rest.head? = some a := by
        cases rest with
        | nil => simp at ha
        | cons g rest => simpa using ha
      simp [argOf, argOf_of_not_mem kw rest hr, hf, hhead]
    | succ i =>
      have := ih i (by simpa using hi) (by simpa using ha)
        (fun i' hlt => by simpa using hlast (i' + 1) (Nat.succ_lt_succ hlt))
      simp [argOf, this]

theorem not_endsInKeyword_of_last (fields : List String) (i j k : Nat) (a b c : String)
    (hi : fields.get? (i + 1) = some a) (hil : ∀ i', i < i' → fields.get? i' ≠ some "-net")
    (hj : fields.get? (j + 1) = some b) (hjl : ∀ j', j < j' → fields.get? j' ≠ some "netmask")
    (hk : fields.get? (k + 1) = some c) (hkl : ∀ k', k < k' → fields.get? k' ≠ some "gw") :
    endsInKeyword fields = false := by
  unfold endsInKeyword
  cases hl : fields.getLast? with
  | none => rfl
  | some f =>
    have hget : fields.get? (fields.length - 1) = some f := by
      rw [← hl, List.getLast?_eq_getElem?, List.get?_eq_getElem?]
    have hlen : ∀ n x, fields.get? n = some x → n < fields.length := by
      intro n x hn
      by_contra hcon
      rw [List.get?_eq_none.mpr (Nat.le_of_not_lt hcon)] at hn
      simp at hn
    have h1 := hlen _ _ hi
    have h2 := hlen _ _ hj
    have h3 := hlen _ _ hk
    have n1 : f ≠ "-net" := fun e => hil (fields.length - 1) (by omega) (e ▸ hget)
    have n2 : f ≠ "netmask" := fun e => hjl (fields.length - 1) (by omega) (e ▸ hget)
    have n3 : f ≠ "gw" := fun e => hkl (fields.length - 1) (by omega) (e ▸ hget)
    simp [n1, n2, n3]

theorem argOf_cons_self (kw next : String) (rest : List String) :
    argOf kw (kw :: next :: rest) = some ((argOf kw (next :: rest)).getD next) := by
  rw [argOf]
  cases argOf kw (next :: rest) <;> simp

theorem argOf_cons_ne (kw f : String) (rest : List String) (h : f ≠ kw) :
    argOf kw (f :: rest) = argOf kw rest := by
  rw [argOf]
  cases argOf kw rest <;> simp [h]

theorem routeFromFields_eq (L : NetLib) (fields : List String) :
    ∀ route r : Route, routeFromFields L route fields = .ok r →
      r = ⟨⟨(argOf "-net" fields).elim route.destination.ip (ParseIP L),
          (argOf "netmask" fields).elim route.destination.mask (ParseIP L)⟩,
        (argOf "gw" fields).elim route.gateway (ParseIP L)⟩ := by
  induction fields with
  | nil =>
    intro route r h
    simp only [routeFromFields, Except.ok.injEq] at h
    subst h
    rfl
  | cons f rest ih =>
    intro route r h
    simp only [routeFromFields] at h
    by_cases h1 : f = "-net"
    · subst h1
      cases rest with
      | nil => simp at h
      | cons next rest =>
        simp only [if_true] at h
        rw [ih _ r h, argOf_cons_self, argOf_cons_ne "netmask" "-net" _ (by decide),
          argOf_cons_ne "gw" "-net" _ (by decide)]
        cases argOf "-net" (next :: rest) <;> simp [Option.elim]
    · by_cases h2 : f = "netmask"
      · subst h2
        cases rest with
        | nil => simp at h
        | cons next rest =>
          simp only [h1, if_false, if_true] at h
          rw [ih _ r h, argOf_cons_self, argOf_cons_ne "-net" "netmask" _ (by decide),
            argOf_cons_ne "gw" "netmask" _ (by decide)]
          cases argOf "netmask" (next :: rest) <;> simp [Option.elim]
      · by_cases h3 : f = "gw"
        · subst h3
          cases rest with
          | nil => simp at h
          | cons next rest =>
            simp only [h1, h2, if_false, if_true] at h
            rw [ih _ r h, argOf_cons_self, argOf_cons_ne "-net" "gw" _ (by decide),
              argOf_cons_ne "netmask" "gw" _ (by decide)]
            cases argOf "gw" (next :: rest) <;> simp [Option.elim]
        · simp only [h1, h2, h3, if_false] at h
          rw [ih _ r h, argOf_cons_ne _ _ _ h1, argOf_cons_ne _ _ _ h2, argOf_cons_ne _ _ _ h3]

theorem postUpRoutes_append (L : NetLib) (xs ys : List String) :
    postUpRoutes L [] (xs ++ ys) =
      match postUpRoutes L [] xs with
      | .error e => .error e
      | .ok rs₁ =>
        match postUpRoutes L [] ys with
        | .error e => .error e
        | .ok rs₂ => .ok (rs₁ ++ rs₂) := by
  induction xs with
  | nil =>
    simp only [List.nil_append, postUpRoutes]
    cases postUpRoutes L [] ys <;> simp
  | cons v vs ih =>
    simp only [List.cons_append, postUpRoutes]
    by_cases hp : HasPrefix v "route add" = true
    · simp only [hp, if_true]
      cases routeFromFields L ⟨⟨none, none⟩, none⟩ (Fields v) with
      | error e => rfl
      | ok r =>
        simp only []
        change postUpRoutes L ([] ++ [r]) (vs ++ ys) = _
        rw [postUpRoutes_acc L (vs ++ ys), postUpRoutes_acc L vs, ih]
        cases postUpRoutes L [] vs with
        | error e => rfl
        | ok rs₁ =>
          cases postUpRoutes L [] ys with
          | error e => rfl
          | ok rs₂ => simp
    · simp only [hp, if_false, Bool.false_eq_true]
      exact ih

theorem postUpRoutes_cons_route (L : NetLib) (v : String) (vs : List String) (r : Route)
    (hp : HasPrefix v "route add" = true)
    (hr : routeFromFields L ⟨⟨none, none⟩, none⟩ (Fields v) = .ok r) :
    postUpRoutes L [] (v :: vs) =
      match postUpRoutes L [] vs with
      | .error e => .error e
      | .ok rs => .ok (r :: rs) := by
  simp only [postUpRoutes, hp, if_true, hr]
  rw [postUpRoutes_acc]
  cases postUpRoutes L [] vs <;> simp

theorem get?_ne_of_bounded (fields : List String) (kw : String) (i : Nat)
    (h : ∀ i', i' < fields.length → i < i' → fields.get? i' ≠ some kw) :
    ∀ i', i < i' → fields.get? i' ≠ some kw := by
  intro i' hlt
  by_cases hb : i' < fields.length
  · exact h i' hb hlt
  · rw [List.get?_eq_none.mpr (Nat.le_of_not_lt hb)]
    simp

/-- C5, as amended. For every static interface stanza with a valid address
and netmask, each `post-up` value that starts with `route add` and in which
the last `-net`, the last `netmask` and the last `gw` token are each followed
by a token (`dest`, `maskText`, `gateway`), in any order, contributes exactly
one route, at its place among the routes of the `post-up` values, whose
destination is `dest` with mask `maskText` and whose gateway is `gateway`.
The mask is stated up to its length: its short form is that of `maskText`,
and with an IPv4 destination the route's destination prints as the one with
the mask `IPv4Mask` does. -/
theorem postup_route_contributed (L : NetLib) (iface family : String) (options : List String)
    (m : OptionMap) (a nm : String) (ip mask : List Nat)
    (before after : List String) (v dest maskText gateway : String) (i j k : Nat)
    (hopt : parseOptions options = .ok m)
    (ha : Map.get m "address" = some [a]) (hip : ParseIP L a = some ip)
    (hn : Map.get m "netmask" = some [nm]) (hmask : ParseIP L nm = some mask)
    (hpu : Map.getD m "post-up" = before ++ v :: after)
    (hstart : HasPrefix v "route add" = true)
    (hnet : (Fields v).get? i = some "-net") (hdest : (Fields v).get? (i + 1) = some dest)
    (hnetLast : ∀ i', i < i' → (Fields v).get? i' ≠ some "-net")
    (hnm : (Fields v).get? j = some "netmask")
    (hmaskText : (Fields v).get? (j + 1) = some maskText)
    (hnmLast : ∀ j', j < j' → (Fields v).get? j' ≠ some "netmask")
    (hgw : (Fields v).get? k = some "gw") (hgateway : (Fields v).get? (k + 1) = some gateway)
    (hgwLast : ∀ k', k < k' → (Fields v).get? k' ≠ some "gw") :
    ∃ (address : IPNet) (r : Route),
      r.destination.ip = ParseIP L dest ∧ r.gateway = ParseIP L gateway ∧
      r.destination.mask.map shortForm = (ParseIP L maskText).map shortForm ∧
      (∀ d0 d1 d2 d3 m0 m1 m2 m3 : Nat, ParseIP L dest = some (IPv4 d0 d1 d2 d3) →
        ParseIP L maskText = some (IPv4 m0 m1 m2 m3) →
        IPNet.String L r.destination =
          IPNet.String L ⟨some (IPv4 d0 d1 d2 d3), some (IPv4Mask m0 m1 m2 m3)⟩) ∧
      parseInterfaceStanza L [iface, family, "static"] options =
        match postUpRoutes L [] before with
        | .error e => .error e
        | .ok rs₁ =>
          match postUpRoutes L [] after with
          | .error e => .error e
          | .ok rs₂ =>
            classify iface
              (.static ⟨address, (Map.getD m "dns-nameservers").map (ParseIP L),
                gatewayRoutes L m ++ (rs₁ ++ r :: rs₂)⟩)
              [iface, family, "static"] m := by
  have hmain := parseInterfaceStanza_static L iface family options m hopt
  rw [staticConfig_valid L iface m a nm ip mask ha hip hn hmask, hpu] at hmain
  obtain ⟨r, hr⟩ := routeFromFields_ok L (Fields v) ⟨⟨none, none⟩, none⟩
    (not_endsInKeyword_of_last (Fields v) i j k dest maskText gateway hdest hnetLast
      hmaskText hnmLast hgateway hgwLast)
  have hval := routeFromFields_eq L (Fields v) _ r hr
  rw [argOf_of_last "-net" dest (Fields v) i hnet hdest hnetLast,
    argOf_of_last "netmask" maskText (Fields v) j hnm hmaskText hnmLast,
    argOf_of_last "gw" gateway (Fields v) k hgw hgateway hgwLast] at hval
  simp only [Option.elim] at hval
  refine ⟨⟨some ip, some mask⟩, r, by rw [hval], by rw [hval], by rw [hval], ?_, ?_⟩
  · intro d0 d1 d2 d3 m0 m1 m2 m3 hd hm
    rw [hval, hd, hm]
    have h1 : networkNumberAndMask ⟨some (IPv4 d0 d1 d2 d3), some (IPv4 m0 m1 m2 m3)⟩ =
        some ([d0, d1, d2, d3], [m0, m1, m2, m3]) := rfl
    have h2 : networkNumberAndMask ⟨some (IPv4 d0 d1 d2 d3), some (IPv4Mask m0 m1 m2 m3)⟩ =
        some ([d0, d1, d2, d3], [m0, m1, m2, m3]) := rfl
    simp only [IPNet.String, h1, h2]
  · rw [hmain, postUpRoutes_append, postUpRoutes_cons_route L v after r hstart hr]
    cases postUpRoutes L [] before with
    | error e => rfl
    | ok rs₁ =>
      cases postUpRoutes L [] after with
      | error e => rfl
      | ok rs₂ => rfl

theorem postup_route_contributed_witness :
    ∃ (address : IPNet) (r : Route),
      r.destination.ip = ParseIP ipv4Lib "192.168.1.0" ∧
      r.gateway = ParseIP ipv4Lib "192.168.1.1" ∧
      r.destination.mask.map shortForm = (ParseIP ipv4Lib "255.255.255.0").map shortForm ∧
      (∀ d0 d1 d2 d3 m0 m1 m2 m3 : Nat,
        ParseIP ipv4Lib "192.168.1.0" = some (IPv4 d0 d1 d2 d3) →
        ParseIP ipv4Lib "255.255.255.0" = some (IPv4 m0 m1 m2 m3) →
        IPNet.String ipv4Lib r.destination =
          IPNet.String ipv4Lib ⟨some (IPv4 d0 d1 d2 d3), some (IPv4Mask m0 m1 m2 m3)⟩) ∧
      parseInterfaceStanza ipv4Lib ["eth", "inet", "static"]
          ["address 192.168.1.100", "netmask 255.255.255.0",
            "post-up route add gw 192.168.1.1 -net 192.168.1.0 netmask 255.255.255.0"] =
        match postUpRoutes ipv4Lib [] [] with
        | .error e => .error e
        | .ok rs₁ =>
          match postUpRoutes ipv4Lib [] [] with
          | .error e => .error e
          | .ok rs₂ =>
            classify "eth"
              (.static ⟨address,
                (Map.getD [("address", ["192.168.1.100"]), ("netmask", ["255.255.255.0"]),
                  ("post-up",
                    ["route add gw 192.168.1.1 -net 192.168.1.0 netmask 255.255.255.0"])]
                  "dns-nameservers").map (ParseIP ipv4Lib),
                gatewayRoutes ipv4Lib
                    [("address", ["192.168.1.100"]), ("netmask", ["255.255.255.0"]),
                      ("post-up",
                        ["route add gw 192.168.1.1 -net 192.168.1.0 netmask 255.255.255.0"])] ++
                  (rs₁ ++ r :: rs₂)⟩)
              ["eth", "inet", "static"]
              [("address", ["192.168.1.100"]), ("netmask", ["255.255.255.0"]),
                ("post-up",
                  ["route add gw 192.168.1.1 -net 192.168.1.0 netmask 255.255.255.0"])] :=
  postup_route_contributed ipv4Lib "eth" "inet"
    ["address 192.168.1.100", "netmask 255.255.255.0",
      "post-up route add gw 192.168.1.1 -net 192.168.1.0 netmask 255.255.255.0"]
    [("address", ["192.168.1.100"]), ("netmask", ["255.255.255.0"]),
      ("post-up", ["route add gw 192.168.1.1 -net 192.168.1.0 netmask 255.255.255.0"])]
    "192.168.1.100" "255.255.255.0" (IPv4 192 168 1 100) (IPv4 255 255 255 0)
    [] [] "route add gw 192.168.1.1 -net 192.168.1.0 netmask 255.255.255.0"
    "192.168.1.0" "255.255.255.0" "192.168.1.1" 4 6 2
    (by decide) (by decide) (by decide) (by decide) (by decide) (by decide) (by decide)
    (by decide) (by decide)
    (get?_ne_of_bounded _ _ _ (by decide))
    (by decide) (by decide)
    (get?_ne_of_bounded _ _ _ (by decide))
    (by decide) (by decide)
    (get?_ne_of_bounded _ _ _ (by decide))

/-- C5, counterexample. A `post-up` value that contains `-net 192.168.1.0`,
`netmask 255.255.255.0` and `gw 192.168.1.1` but does not start with
`route add` contributes no route; and of a value with two `-net` tokens, the
one route takes the destination that follows the last one, not
`-net 10.0.0.0`. -/
theorem postup_route_not_contributed :
    (parseInterfaceStanza ipv4Lib ["eth", "inet", "static"]
        ["address 192.168.1.100", "netmask 255.255.255.0",
          "post-up ip route add -net 192.168.1.0 netmask 255.255.255.0 gw 192.168.1.1"]).map
        (fun d =>
          match d.configMethod with
          | .static conf => some conf.routes
          | _ => none) = .ok (some []) ∧
    (parseInterfaceStanza ipv4Lib ["eth", "inet", "static"]
        ["address 192.168.1.100", "netmask 255.255.255.0",
          "post-up route add -net 10.0.0.0 -net 192.168.1.0 netmask 255.255.255.0 gw 192.168.1.1"]).map
        (fun d =>
          match d.configMethod with
          | .static conf => some (conf.routes.map (fun r => (r.destination.ip, r.gateway)))
          | _ => none) =
      .ok (some [(some (IPv4 192 168 1 0), some (IPv4 192 168 1 1))]) := by
  decide

/-- C6, at the failing inputs. The `post-up` value `route add`, which has
none of the tokens `-net`, `netmask`, `gw`, adds a route (with nil
destination and gateway) to the route list; the value `route add -net`, in
which nothing follows `-net`, makes `parseInterfaceStanza` panic on the index
`fields[i+1]`. -/
theorem postup_incomplete_route :
    (parseInterfaceStanza ipv4Lib ["eth", "inet", "static"]
        ["address 192.168.1.100", "netmask 255.255.255.0", "post-up route add"]).map
        (fun d => d.configMethod) =
      .ok (.static ⟨⟨some (IPv4 192 168 1 100), some (IPv4 255 255 255 0)⟩, [],
        [⟨⟨none, none⟩, none⟩]⟩) ∧
    parseInterfaceStanza ipv4Lib ["eth", "inet", "static"]
        ["address 192.168.1.100", "netmask 255.255.255.0", "post-up route add -net"] =
      .error .panicIndexOutOfRange := by
  decide

/-! ### The kind of an interface (C7) -/

theorem parseVLANStanza_ok (iface : String) (conf : ConfigMethod) (attributes : List String)
    (options : OptionMap) (d : StanzaInterface)
    (h : parseVLANStanza iface conf attributes options = .ok d) :
    ∃ id, vlanSuffix iface = some id ∧ (Atoi id).ok = true ∧
      d = vlanDeclaration iface conf options id := by
  rw [parseVLANStanza_eq] at h
  cases hs : vlanSuffix iface with
  | none => simp [hs] at h
  | some id =>
    rw [hs] at h
    by_cases hok : (Atoi id).ok = true
    · simp only [hok, if_true, Except.ok.injEq] at h
      exact ⟨id, rfl, hok, h.symm⟩
    · simp [hok] at h

/-- C7. For every successfully parsed interface stanza, the kind of the
declaration follows the precedence: VLAN if the option `vlan_raw_device` is
present; else VLAN if the name contains a dot; else Bond if the option
`bond-slaves` is present; else Physical. -/
theorem kind_precedence (L : NetLib) (attributes options : List String) (d : StanzaInterface)
    (h : parseInterfaceStanza L attributes options = .ok d) :
    ∃ m, parseOptions options = .ok m ∧ attributes.head? = some d.name ∧
      d.kind =
        if (Map.get m "vlan_raw_device").isSome = true then InterfaceKind.interfaceVLAN
        else if '.' ∈ d.name.data then InterfaceKind.interfaceVLAN
        else if (Map.get m "bond-slaves").isSome = true then InterfaceKind.interfaceBond
        else InterfaceKind.interfacePhysical := by
  unfold parseInterfaceStanza at h
  split at h
  · rename_i iface family confMethod
    cases hm : parseOptions options with
    | error e => simp [hm] at h
    | ok m =>
      cases hc : configOf L confMethod iface m with
      | error e => simp [hm, hc] at h
      | ok conf =>
        simp only [hm, hc] at h
        refine ⟨m, rfl, ?_⟩
        rw [classify_eq] at h
        by_cases h1 : (Map.get m "vlan_raw_device").isSome = true
        · rw [if_pos (Or.inl h1)] at h
          obtain ⟨id, _, _, hd⟩ := parseVLANStanza_ok _ _ _ _ _ h
          subst hd
          simp [vlanDeclaration, h1]
        · by_cases h2 : '.' ∈ iface.data
          · rw [if_pos (Or.inr h2)] at h
            obtain ⟨id, _, _, hd⟩ := parseVLANStanza_ok _ _ _ _ _ h
            subst hd
            simp [vlanDeclaration, h1, h2]
          · rw [if_neg (by simp [h1, h2])] at h
            by_cases h3 : (Map.get m "bond-slaves").isSome = true
            · rw [if_pos h3] at h
              simp only [parseBondStanza, Except.ok.injEq] at h
              subst h
              simp [h1, h2, h3]
            · rw [if_neg h3] at h
              simp only [parsePhysicalStanza, Except.ok.injEq] at h
              subst h
              simp [h1, h2, h3]
  · simp at h

theorem kind_precedence_witness :
    ∃ m, parseOptions ["vlan_raw_device eth0", "bond-slaves eth1"] = .ok m ∧
      ["vlan1", "inet", "manual"].head? = some "vlan1" ∧
      InterfaceKind.interfaceVLAN =
        if (Map.get m "vlan_raw_device").isSome = true then InterfaceKind.interfaceVLAN
        else if '.' ∈ "vlan1".data then InterfaceKind.interfaceVLAN
        else if (Map.get m "bond-slaves").isSome = true then InterfaceKind.interfaceBond
        else InterfaceKind.interfacePhysical :=
  kind_precedence ipv4Lib ["vlan1", "inet", "manual"] ["vlan_raw_device eth0", "bond-slaves eth1"]
    ⟨"vlan1", .interfaceVLAN, false, .manual,
      [("vlan_raw_device", ["eth0"]), ("bond-slaves", ["eth1"]), ("id", ["1"]),
        ("raw_device", ["eth0"])]⟩
    (by decide)

/-! ### The id of a VLAN (C8, C9) -/

theorem vlanDeclaration_id (iface : String) (conf : ConfigMethod) (options : OptionMap)
    (id : String) : Map.get (vlanDeclaration iface conf options id).options "id" = some [id] := by
  simp only [vlanDeclaration]
  rw [Map.get_set_other _ _ _ _ (by decide), Map.get_set_self]

/-- C8. For every interface name, `parseVLANStanza` succeeds exactly when the
suffix of the name - the text after its last dot if it contains a dot,
otherwise the text after the prefix `vlan` - parses as an integer; it then
records that suffix as the id (`eth0.7` and `vlan7` both give id 7); for
every other name (such as `myvlan` or `eth.vlan`) it fails with the VLAN-name
error. -/
theorem parseVLANStanza_suffix (iface : String) (conf : ConfigMethod)
    (attributes : List String) (options : OptionMap) :
    ((∃ d, parseVLANStanza iface conf attributes options = .ok d) ↔
        ∃ id, vlanSuffix iface = some id ∧ (Atoi id).ok = true) ∧
      (∀ d, parseVLANStanza iface conf attributes options = .ok d →
        ∃ id, vlanSuffix iface = some id ∧ Map.get d.options "id" = some [id] ∧
          d.name = iface ∧ d.kind = .interfaceVLAN ∧ d.configMethod = conf) ∧
      ((¬ ∃ id, vlanSuffix iface = some id ∧ (Atoi id).ok = true) →
        parseVLANStanza iface conf attributes options = .error (.malformedVLANName iface)) ∧
      (vlanSuffix "eth0.7" = some "7" ∧ vlanSuffix "vlan7" = some "7" ∧
        Atoi "7" = ⟨7, true⟩) ∧
      (parseVLANStanza "eth0.7" conf attributes options).map
          (fun d => Map.get d.options "id") = .ok (some ["7"]) ∧
      (parseVLANStanza "vlan7" conf attributes options).map
          (fun d => Map.get d.options "id") = .ok (some ["7"]) ∧
      parseVLANStanza "myvlan" conf attributes options = .error (.malformedVLANName "myvlan") ∧
      parseVLANStanza "eth.vlan" conf attributes options =
        .error (.malformedVLANName "eth.vlan") := by
  refine ⟨⟨?_, ?_⟩, ?_, ?_, by decide, ?_, ?_, ?_, ?_⟩
  · rintro ⟨d, hd⟩
    obtain ⟨id, h1, h2, _⟩ := parseVLANStanza_ok _ _ _ _ _ hd
    exact ⟨id, h1, h2⟩
  · rintro ⟨id, h1, h2⟩
    rw [parseVLANStanza_eq, h1]
    simp only [h2, if_true]
    exact ⟨_, rfl⟩
  · intro d hd
    obtain ⟨id, h1, _, h3⟩ := parseVLANStanza_ok _ _ _ _ _ hd
    subst h3
    exact ⟨id, h1, vlanDeclaration_id _ _ _ _, rfl, rfl, rfl⟩
  · intro hno
    rw [parseVLANStanza_eq]
    cases hs : vlanSuffix iface with
    | none => rfl
    | some id =>
      by_cases hok : (Atoi id).ok = true
      · exact absurd ⟨id, hs, hok⟩ hno
      · simp [hok]
  · rw [parseVLANStanza_eq, show vlanSuffix "eth0.7" = some "7" by decide]
    simp only [show (Atoi "7").ok = true by decide, if_true, Except.map]
    rw [vlanDeclaration_id]
  · rw [parseVLANStanza_eq, show vlanSuffix "vlan7" = some "7" by decide]
    simp only [show (Atoi "7").ok = true by decide, if_true, Except.map]
    rw [vlanDeclaration_id]
  · rw [parseVLANStanza_eq, show vlanSuffix "myvlan" = none by decide]
  · rw [parseVLANStanza_eq, show vlanSuffix "eth.vlan" = some "vlan" by decide]
    simp [show (Atoi "vlan").ok = false by decide]

/-- C9, at the failing inputs. The stanza `iface vlan7 inet manual` with the
option `vlan_raw_device eth0` is accepted as a VLAN with id `7`, and
`buildInterfaces` panics on it: it reads the id from the second piece of the
name split at the dots, and `vlan7` has one piece. For the accepted name
`eth0.1.7`, whose id is `7`, the node carries the id 1 and its Netdev()
fragment reads `Id=1`. -/
theorem vlan_node_id_from_second_piece :
    parseInterfaceStanza ipv4Lib ["vlan7", "inet", "manual"] ["vlan_raw_device eth0"] =
        .ok ⟨"vlan7", .interfaceVLAN, false, .manual,
          [("vlan_raw_device", ["eth0"]), ("id", ["7"]), ("raw_device", ["eth0"])]⟩ ∧
      buildInterfaces insertionOrder
          [⟨"vlan7", .interfaceVLAN, false, .manual,
            [("vlan_raw_device", ["eth0"]), ("id", ["7"]), ("raw_device", ["eth0"])]⟩] =
        .error .panicIndexOutOfRange ∧
      parseInterfaceStanza ipv4Lib ["eth0.1.7", "inet", "manual"] [] =
        .ok ⟨"eth0.1.7", .interfaceVLAN, false, .manual, [("id", ["7"]), ("raw_device", [])]⟩ ∧
      (buildInterfaces insertionOrder
          [⟨"eth0.1.7", .interfaceVLAN, false, .manual,
            [("id", ["7"]), ("raw_device", [])]⟩]).map
          (fun nodes => nodes.map InterfaceGenerator.Netdev) =
        .ok ["[NetDev]\nKind=vlan\nName=eth0.1.7\n\n[VLAN]\nId=1\n"] := by
  decide

/-! ### Maps and their ranges -/

theorem Map.get_set {V : Type} (m : Map V) (k k' : String) (v : V) :
    Map.get (Map.set m k v) k' = if k' = k then some v else Map.get m k' := by
  by_cases h : k' = k
  · subst h
    simp [Map.get_set_self]
  · simp [h, Map.get_set_other m k k' v h]

theorem Map.mem_keys_of_get {V : Type} (m : Map V) (k : String) (v : V)
    (h : Map.get m k = some v) : k ∈ Map.keys m := by
  induction m with
  | nil => simp [Map.get] at h
  | cons e m ih =>
    obtain ⟨k', v'⟩ := e
    by_cases hk : k' = k
    · simp [Map.keys, hk]
    · simp only [Map.get, hk, if_false] at h
      have := ih h
      simp only [Map.keys, List.map_cons, List.mem_cons]
      exact Or.inr this

theorem Map.get_of_mem_range {V : Type} (o : RangeOrder) (i : Nat) (m : Map V) (k : String)
    (v : V) (h : (k, v) ∈ Map.range o i m) : Map.get m k = some v := by
  simp only [Map.range, List.mem_filterMap, Option.map_eq_some', Prod.mk.injEq] at h
  obtain ⟨k', _, v', hv', hk, hv⟩ := h
  subst hk hv
  exact hv'

theorem Map.mem_range_of_get {V : Type} (o : RangeOrder) (ho : o.Valid) (i : Nat) (m : Map V)
    (k : String) (v : V) (h : Map.get m k = some v) : (k, v) ∈ Map.range o i m := by
  simp only [Map.range, List.mem_filterMap, Option.map_eq_some', Prod.mk.injEq]
  exact ⟨k, (ho i _).mem_iff.mpr (Map.mem_keys_of_get m k v h), v, h, rfl, rfl⟩

/-! ### The pools of `buildInterfaces` -/

theorem stanzaPools_append (xs ys : List StanzaInterface) :
    ∀ pools, stanzaPools pools (xs ++ ys) = stanzaPools (stanzaPools pools xs) ys := by
  induction xs with
  | nil => intro pools; rfl
  | cons x xs ih =>
    intro pools
    simp only [List.cons_append, stanzaPools]
    cases x.kind <;> exact ih _

theorem stanzaPools_bond_unchanged (k : String) (xs : List StanzaInterface) :
    ∀ pools, (∀ x ∈ xs, ¬(x.kind = .interfaceBond ∧ x.name = k)) →
      Map.get (stanzaPools pools xs).bondStanzas k = Map.get pools.bondStanzas k := by
  induction xs with
  | nil => intro pools _; rfl
  | cons x xs ih =>
    intro pools h
    have hx := h x (List.mem_cons_self _ _)
    have hxs : ∀ y ∈ xs, ¬(y.kind = .interfaceBond ∧ y.name = k) :=
      fun y hy => h y (List.mem_cons_of_mem _ hy)
    simp only [stanzaPools]
    cases hk : x.kind with
    | interfaceBond =>
      simp only []
      rw [ih _ hxs]
      have : k ≠ x.name := fun e => hx ⟨hk, e.symm⟩
      exact Map.get_set_other _ _ _ _ this
    | interfacePhysical => simp only []; rw [ih _ hxs]
    | interfaceVLAN => simp only []; rw [ih _ hxs]

theorem stanzaPools_bond_last (pre post : List StanzaInterface) (b : StanzaInterface)
    (pools : StanzaPools) (hb : b.kind = .interfaceBond)
    (hpost : ∀ x ∈ post, ¬(x.kind = .interfaceBond ∧ x.name = b.name)) :
    Map.get (stanzaPools pools (pre ++ b :: post)).bondStanzas b.name = some b := by
  rw [stanzaPools_append]
  simp only [stanzaPools, hb]
  rw [stanzaPools_bond_unchanged b.name post _ hpost]
  exact Map.get_set_self _ _ _

/-- Every entry of the pools was there at the start or is a stanza of the list, of the kind of
its pool and under its own name. -/
theorem stanzaPools_entries (xs : List StanzaInterface) :
    ∀ pools k v,
      (Map.get (stanzaPools pools xs).bondStanzas k = some v →
        Map.get pools.bondStanzas k = some v ∨
          (v ∈ xs ∧ v.kind = .interfaceBond ∧ v.name = k)) ∧
      (Map.get (stanzaPools pools xs).physicalStanzas k = some v →
        Map.get pools.physicalStanzas k = some v ∨
          (v ∈ xs ∧ v.kind = .interfacePhysical ∧ v.name = k)) ∧
      (Map.get (stanzaPools pools xs).vlanStanzas k = some v →
        Map.get pools.vlanStanzas k = some v ∨
          (v ∈ xs ∧ v.kind = .interfaceVLAN ∧ v.name = k)) := by
  induction xs with
  | nil => intro pools k v; exact ⟨Or.inl, Or.inl, Or.inl⟩
  | cons x xs ih =>
    intro pools k v
    simp only [stanzaPools]
    have lift : ∀ {P : Prop} (w : StanzaInterface) (kd : InterfaceKind),
        P ∨ (w ∈ xs ∧ w.kind = kd ∧ w.name = k) →
        P ∨ (w ∈ x :: xs ∧ w.kind = kd ∧ w.name = k) := by
      intro P w kd h
      rcases h with h | ⟨h1, h2⟩
      · exact Or.inl h
      · exact Or.inr ⟨List.mem_cons_of_mem _ h1, h2⟩
    cases hk : x.kind with
    | interfaceBond =>
      simp only []
      obtain ⟨h1, h2, h3⟩ := ih { pools with bondStanzas := Map.set pools.bondStanzas x.name x } k v
      refine ⟨fun h => ?_, fun h => lift v _ (h2 h), fun h => lift v _ (h3 h)⟩
      rcases h1 h with h | h
      · simp only [Map.get_set] at h
        by_cases hkx : k = x.name
        · simp only [hkx, if_true, Option.some.injEq] at h
          subst h
          exact Or.inr ⟨List.mem_cons_self _ _, hk, hkx.symm⟩
        · simp only [hkx, if_false] at h
          exact Or.inl h
      · exact lift v _ (Or.inr h)
    | interfacePhysical =>
      simp only []
      obtain ⟨h1, h2, h3⟩ :=
        ih { pools with physicalStanzas := Map.set pools.physicalStanzas x.name x } k v
      refine ⟨fun h => lift v _ (h1 h), fun h => ?_, fun h => lift v _ (h3 h)⟩
      rcases h2 h with h | h
      · simp only [Map.get_set] at h
        by_cases hkx : k = x.name
        · simp only [hkx, if_true, Option.some.injEq] at h
          subst h
          exact Or.inr ⟨List.mem_cons_self _ _, hk, hkx.symm⟩
        · simp only [hkx, if_false] at h
          exact Or.inl h
      · exact lift v _ (Or.inr h)
    | interfaceVLAN =>
      simp only []
      obtain ⟨h1, h2, h3⟩ := ih { pools with vlanStanzas := Map.set pools.vlanStanzas x.name x } k v
      refine ⟨fun h => lift v _ (h1 h), fun h => lift v _ (h2 h), fun h => ?_⟩
      rcases h3 h with h | h
      · simp only [Map.get_set] at h
        by_cases hkx : k = x.name
        · simp only [hkx, if_true, Option.some.injEq] at h
          subst h
          exact Or.inr ⟨List.mem_cons_self _ _, hk, hkx.symm⟩
        · simp only [hkx, if_false] at h
          exact Or.inl h
      · exact lift v _ (Or.inr h)

theorem stanzaPools_physical_present (xs : List StanzaInterface) :
    ∀ pools k,
      ((Map.get pools.physicalStanzas k).isSome = true ∨
        ∃ p ∈ xs, p.kind = .interfacePhysical ∧ p.name = k) →
      (Map.get (stanzaPools pools xs).physicalStanzas k).isSome = true := by
  induction xs with
  | nil =>
    intro pools k h
    rcases h with h | ⟨p, hp, _⟩
    · exact h
    · simp at hp
  | cons x xs ih =>
    intro pools k h
    simp only [stanzaPools]
    cases hk : x.kind with
    | interfaceBond =>
      simp only []
      apply ih
      rcases h with h | ⟨p, hp, hpk, hpn⟩
      · exact Or.inl h
      · rcases List.mem_cons.mp hp with e | e
        · subst e; rw [hk] at hpk; cases hpk
        · exact Or.inr ⟨p, e, hpk, hpn⟩
    | interfacePhysical =>
      simp only []
      apply ih
      by_cases hkx : k = x.name
      · left
        simp [Map.get_set, hkx]
      · rcases h with h | ⟨p, hp, hpk, hpn⟩
        · left
          simpa [Map.get_set, hkx] using h
        · rcases List.mem_cons.mp hp with e | e
          · subst e; exact absurd hpn.symm hkx
          · exact Or.inr ⟨p, e, hpk, hpn⟩
    | interfaceVLAN =>
      simp only []
      apply ih
      rcases h with h | ⟨p, hp, hpk, hpn⟩
      · exact Or.inl h
      · rcases List.mem_cons.mp hp with e | e
        · subst e; rw [hk] at hpk; cases hpk
        · exact Or.inr ⟨p, e, hpk, hpn⟩

theorem LogicalInterface.addChildren_nil (l : LogicalInterface) : l.addChildren [] = l := by
  simp [LogicalInterface.addChildren]

theorem LogicalInterface.addChildren_addChildren (l : LogicalInterface) (cs ds : List Child) :
    (l.addChildren cs).addChildren ds = l.addChildren (cs ++ ds) := by
  simp [LogicalInterface.addChildren]

theorem LogicalInterface.addChild_eq (l : LogicalInterface) (c : Child) :
    l.addChild c = l.addChildren [c] := rfl

theorem buildPhysicals_name (l : List (String × StanzaInterface)) :
    ∀ acc : Map PhysicalInterface,
      (∀ k p, Map.get acc k = some p → p.logical.name = k ∧ k ≠ "lo") →
      ∀ k p, Map.get (buildPhysicals acc l) k = some p → p.logical.name = k ∧ k ≠ "lo" := by
  induction l with
  | nil => intro acc h; exact h
  | cons e l ih =>
    intro acc h
    obtain ⟨k₀, x⟩ := e
    simp only [buildPhysicals]
    by_cases hlo : x.name = "lo"
    · simp only [hlo, if_true]
      exact ih acc h
    · simp only [hlo, if_false]
      apply ih
      intro k p hk
      rw [Map.get_set] at hk
      by_cases hkx : k = x.name
      · simp only [hkx, if_true, Option.some.injEq] at hk
        subst hk
        exact ⟨hkx.symm, hkx ▸ hlo⟩
      · simp only [hkx, if_false] at hk
        exact h k p hk

theorem buildPhysicals_present (s : String) (hs : s ≠ "lo") (l : List (String × StanzaInterface)) :
    ∀ acc : Map PhysicalInterface,
      ((Map.get acc s).isSome = true ∨ ∃ e ∈ l, e.2.name = s) →
      (Map.get (buildPhysicals acc l) s).isSome = true := by
  induction l with
  | nil =>
    intro acc h
    rcases h with h | ⟨e, he, _⟩
    · exact h
    · simp at he
  | cons e l ih =>
    intro acc h
    obtain ⟨k₀, x⟩ := e
    simp only [buildPhysicals]
    by_cases hlo : x.name = "lo"
    · simp only [hlo, if_true]
      apply ih
      rcases h with h | ⟨e, he, hen⟩
      · exact Or.inl h
      · rcases List.mem_cons.mp he with e1 | e1
        · subst e1
          exact absurd (hen ▸ hlo) hs
        · exact Or.inr ⟨e, e1, hen⟩
    · simp only [hlo, if_false]
      apply ih
      by_cases hsx : s = x.name
      · left
        simp [Map.get_set, hsx]
      · rcases h with h | ⟨e, he, hen⟩
        · left
          simpa [Map.get_set, hsx] using h
        · rcases List.mem_cons.mp he with e1 | e1
          · subst e1
            exact absurd hen.symm hsx
          · exact Or.inr ⟨e, e1, hen⟩

theorem buildPhysicals_children (l : List (String × StanzaInterface)) :
    ∀ acc : Map PhysicalInterface,
      (∀ k p, Map.get acc k = some p → p.logical.children = []) →
      ∀ k p, Map.get (buildPhysicals acc l) k = some p → p.logical.children = [] := by
  induction l with
  | nil => intro acc h; exact h
  | cons e l ih =>
    intro acc h
    obtain ⟨k₀, x⟩ := e
    simp only [buildPhysicals]
    by_cases hlo : x.name = "lo"
    · simp only [hlo, if_true]
      exact ih acc h
    · simp only [hlo, if_false]
      apply ih
      intro k p hk
      rw [Map.get_set] at hk
      by_cases hkx : k = x.name
      · simp only [hkx, if_true, Option.some.injEq] at hk
        subst hk
        rfl
      · simp only [hkx, if_false] at hk
        exact h k p hk

theorem buildBonds_get (B : String) (b : StanzaInterface) (l : List (String × StanzaInterface))
    (hl : ∀ e ∈ l, e.2.name = B → e.2 = b) :
    ∀ acc : Map BondInterface,
      ((∃ e ∈ l, e.2.name = B) ∨
        Map.get acc B = some ⟨⟨B, b.configMethod, []⟩, Map.getD b.options "bond-slaves"⟩) →
      Map.get (buildBonds acc l) B =
        some ⟨⟨B, b.configMethod, []⟩, Map.getD b.options "bond-slaves"⟩ := by
  induction l with
  | nil =>
    intro acc h
    rcases h with ⟨e, he, _⟩ | h
    · simp at he
    · exact h
  | cons e l ih =>
    intro acc h
    obtain ⟨k₀, x⟩ := e
    simp only [buildBonds]
    apply ih (fun e he => hl e (List.mem_cons_of_mem _ he))
    by_cases hx : x.name = B
    · right
      have hxb : x = b := hl (k₀, x) (List.mem_cons_self _ _) hx
      subst hxb
      rw [hx, Map.get_set_self]
    · rcases h with ⟨e, he, hen⟩ | h
      · rcases List.mem_cons.mp he with e1 | e1
        · subst e1
          exact absurd hen hx
        · exact Or.inl ⟨e, e1, hen⟩
      · right
        rw [Map.get_set_other _ _ _ _ (Ne.symm hx)]
        exact h

theorem Split_get?_one (s : String) (h : '.' ∈ s.data) : ∃ piece, (Split s '.').get? 1 = some piece := by
  have hlen := splitChars_length_of_mem '.' s.data h
  have : 1 < (Split s '.').length := by
    simp only [Split, List.length_map]
    omega
  exact ⟨(Split s '.')[1], by simp [List.get?_eq_getElem?, this]⟩

theorem buildVlans_ok (l : List (String × StanzaInterface))
    (hl : ∀ e ∈ l, '.' ∈ e.2.name.data) :
    ∀ acc : Map VlanInterface, ∃ vlans, buildVlans acc l = .ok vlans := by
  induction l with
  | nil => intro acc; exact ⟨acc, rfl⟩
  | cons e l ih =>
    intro acc
    obtain ⟨k₀, x⟩ := e
    obtain ⟨piece, hp⟩ := Split_get?_one x.name (hl (k₀, x) (List.mem_cons_self _ _))
    simp only [buildVlans, hp]
    exact ih (fun e he => hl e (List.mem_cons_of_mem _ he)) _

/-! ### The links of `buildInterfaces` -/

theorem linkVlan_fst (vlan : VlanInterface) (pools : Map PhysicalInterface × Map BondInterface)
    (k : String) :
    Map.get (linkVlan vlan pools).1 k =
      (Map.get pools.1 k).map (fun p =>
        ⟨p.logical.addChildren
          (if vlan.rawDevice = k then [⟨.interfaceVLAN, vlan.logical.name⟩] else [])⟩) := by
  simp only [linkVlan]
  cases h : Map.get pools.1 vlan.rawDevice with
  | none =>
    simp only []
    by_cases hk : vlan.rawDevice = k
    · subst hk
      simp [h]
    · cases Map.get pools.1 k <;> simp [hk, LogicalInterface.addChildren_nil]
  | some x =>
    simp only [Map.get_set]
    by_cases hk : vlan.rawDevice = k
    · subst hk
      simp [h, LogicalInterface.addChild_eq]
    · have hk' : ¬ k = vlan.rawDevice := fun e => hk e.symm
      cases Map.get pools.1 k <;> simp [hk, hk', LogicalInterface.addChildren_nil]

theorem linkVlan_snd (vlan : VlanInterface) (pools : Map PhysicalInterface × Map BondInterface)
    (k : String) :
    Map.get (linkVlan vlan pools).2 k =
      (Map.get pools.2 k).map (fun b =>
        ⟨b.logical.addChildren
          (if vlan.rawDevice = k then [⟨.interfaceVLAN, vlan.logical.name⟩] else []), b.slaves⟩) := by
  simp only [linkVlan]
  cases h : Map.get pools.2 vlan.rawDevice with
  | none =>
    simp only []
    by_cases hk : vlan.rawDevice = k
    · subst hk
      simp [h]
    · cases Map.get pools.2 k <;> simp [hk, LogicalInterface.addChildren_nil]
  | some x =>
    simp only [Map.get_set]
    by_cases hk : vlan.rawDevice = k
    · subst hk
      simp [h, LogicalInterface.addChild_eq]
    · have hk' : ¬ k = vlan.rawDevice := fun e => hk e.symm
      cases Map.get pools.2 k <;> simp [hk, hk', LogicalInterface.addChildren_nil]

theorem vlanChildrenOf_cons (k : String) (e : String × VlanInterface)
    (l : List (String × VlanInterface)) :
    vlanChildrenOf k (e :: l) =
      (if e.2.rawDevice = k then [⟨.interfaceVLAN, e.2.logical.name⟩] else []) ++
        vlanChildrenOf k l := by
  by_cases h : e.2.rawDevice = k <;> simp [vlanChildrenOf, List.filter_cons, h]

theorem linkVlans_fst (l : List (String × VlanInterface)) (k : String) :
    ∀ pools : Map PhysicalInterface × Map BondInterface,
      Map.get (linkVlans l pools).1 k =
        (Map.get pools.1 k).map (fun p => ⟨p.logical.addChildren (vlanChildrenOf k l)⟩) := by
  induction l with
  | nil =>
    intro pools
    cases h : Map.get pools.1 k <;>
      simp [linkVlans, vlanChildrenOf, LogicalInterface.addChildren_nil, h]
  | cons e l ih =>
    intro pools
    obtain ⟨k₀, vlan⟩ := e
    simp only [linkVlans]
    rw [ih, linkVlan_fst, vlanChildrenOf_cons]
    cases Map.get pools.1 k <;> simp [LogicalInterface.addChildren_addChildren]

theorem linkVlans_snd (l : List (String × VlanInterface)) (k : String) :
    ∀ pools : Map PhysicalInterface × Map BondInterface,
      Map.get (linkVlans l pools).2 k =
        (Map.get pools.2 k).map (fun b =>
          ⟨b.logical.addChildren (vlanChildrenOf k l), b.slaves⟩) := by
  induction l with
  | nil =>
    intro pools
    cases h : Map.get pools.2 k <;>
      simp [linkVlans, vlanChildrenOf, LogicalInterface.addChildren_nil, h]
  | cons e l ih =>
    intro pools
    obtain ⟨k₀, vlan⟩ := e
    simp only [linkVlans]
    rw [ih, linkVlan_snd, vlanChildrenOf_cons]
    cases Map.get pools.2 k <;> simp [LogicalInterface.addChildren_addChildren]

theorem linkSlave_fst (bondName slave : String)
    (pools : Map PhysicalInterface × Map BondInterface) (k : String) :
    Map.get (linkSlave bondName slave pools).1 k =
      (Map.get pools.1 k).map (fun p =>
        ⟨p.logical.addChildren (if slave = k then [⟨.interfaceBond, bondName⟩] else [])⟩) := by
  simp only [linkSlave]
  cases h : Map.get pools.1 slave with
  | none =>
    simp only []
    by_cases hk : slave = k
    · subst hk
      simp [h]
    · cases Map.get pools.1 k <;> simp [hk, LogicalInterface.addChildren_nil]
  | some x =>
    simp only [Map.get_set]
    by_cases hk : slave = k
    · subst hk
      simp [h, LogicalInterface.addChild_eq]
    · have hk' : ¬ k = slave := fun e => hk e.symm
      cases Map.get pools.1 k <;> simp [hk, hk', LogicalInterface.addChildren_nil]

theorem linkSlaves_fst (bondName : String) (slaves : List String) (k : String) :
    ∀ pools : Map PhysicalInterface × Map BondInterface,
      Map.get (linkSlaves bondName slaves pools).1 k =
        (Map.get pools.1 k).map (fun p =>
          ⟨p.logical.addChildren
            ((slaves.filter (fun slave => slave = k)).map
              (fun _ => ⟨.interfaceBond, bondName⟩))⟩) := by
  induction slaves with
  | nil =>
    intro pools
    cases h : Map.get pools.1 k <;> simp [linkSlaves, LogicalInterface.addChildren_nil, h]
  | cons s slaves ih =>
    intro pools
    simp only [linkSlaves]
    rw [ih, linkSlave_fst]
    by_cases hk : s = k <;>
      cases Map.get pools.1 k <;>
        simp [hk, List.filter_cons, LogicalInterface.addChildren_addChildren,
          LogicalInterface.addChildren_nil]

theorem linkBonds_fst (l : List (String × BondInterface)) (k : String) :
    ∀ pools : Map PhysicalInterface × Map BondInterface,
      Map.get (linkBonds l pools).1 k =
        (Map.get pools.1 k).map (fun p => ⟨p.logical.addChildren (bondChildrenOf k l)⟩) := by
  induction l with
  | nil =>
    intro pools
    cases h : Map.get pools.1 k <;>
      simp [linkBonds, bondChildrenOf, LogicalInterface.addChildren_nil, h]
  | cons e l ih =>
    intro pools
    obtain ⟨k₀, bond⟩ := e
    simp only [linkBonds]
    rw [ih, linkSlaves_fst]
    cases Map.get pools.1 k <;>
      simp [bondChildrenOf, LogicalInterface.addChildren_addChildren]

theorem childLines_append (xs ys : List Child) :
    childLines (xs ++ ys) = childLines xs ++ childLines ys := by
  induction xs with
  | nil => simp [childLines]
  | cons x xs ih =>
    simp only [List.cons_append, childLines]
    change _ ++ childLines (xs ++ ys) = _
    rw [ih]
    exact (String.append_assoc _ _ _).symm

theorem mem_bondChildrenOf (k : String) (l : List (String × BondInterface))
    (e : String × BondInterface) (he : e ∈ l) (hk : k ∈ e.2.slaves) :
    ⟨.interfaceBond, e.2.logical.name⟩ ∈ bondChildrenOf k l := by
  simp only [bondChildrenOf, List.mem_flatMap, List.mem_map, List.mem_filter,
    decide_eq_true_eq]
  exact ⟨e, he, k, ⟨hk, rfl⟩, rfl⟩

theorem stanzaPools_empty_entries (xs : List StanzaInterface) (k : String) (v : StanzaInterface) :
    (Map.get (stanzaPools ⟨[], [], []⟩ xs).bondStanzas k = some v →
        v ∈ xs ∧ v.kind = .interfaceBond ∧ v.name = k) ∧
      (Map.get (stanzaPools ⟨[], [], []⟩ xs).physicalStanzas k = some v →
        v ∈ xs ∧ v.kind = .interfacePhysical ∧ v.name = k) ∧
      (Map.get (stanzaPools ⟨[], [], []⟩ xs).vlanStanzas k = some v →
        v ∈ xs ∧ v.kind = .interfaceVLAN ∧ v.name = k) := by
  obtain ⟨h1, h2, h3⟩ := stanzaPools_entries xs ⟨[], [], []⟩ k v
  refine ⟨fun h => ?_, fun h => ?_, fun h => ?_⟩
  · rcases h1 h with h | h
    · simp [Map.get] at h
    · exact h
  · rcases h2 h with h | h
    · simp [Map.get] at h
    · exact h
  · rcases h3 h with h | h
    · simp [Map.get] at h
    · exact h

theorem buildInterfaces_eq (o : RangeOrder) (stanzas : List StanzaInterface)
    (vlans : Map VlanInterface)
    (hv : buildVlans [] (Map.range o 2 (stanzaPools ⟨[], [], []⟩ stanzas).vlanStanzas) =
      .ok vlans) :
    buildInterfaces o stanzas =
      .ok (((Map.range o 5 (linkedPools o stanzas vlans).1).map
          (fun e => InterfaceGenerator.physical e.2)) ++
        ((Map.range o 6 (linkedPools o stanzas vlans).2).map
          (fun e => InterfaceGenerator.bond e.2)) ++
        ((Map.range o 7 vlans).map (fun e => InterfaceGenerator.vlan e.2))) := by
  simp only [buildInterfaces, hv, linkedPools, vlanLinkedPools, nodePools]

theorem linkedPools_fst (o : RangeOrder) (stanzas : List StanzaInterface)
    (vlans : Map VlanInterface) (k : String) :
    Map.get (linkedPools o stanzas vlans).1 k =
      (Map.get (nodePools o stanzas).1 k).map (fun p =>
        ⟨p.logical.addChildren
          (vlanChildrenOf k (Map.range o 3 vlans) ++
            bondChildrenOf k (Map.range o 4 (vlanLinkedPools o stanzas vlans).2))⟩) := by
  rw [linkedPools, linkBonds_fst, vlanLinkedPools, linkVlans_fst]
  cases Map.get (nodePools o stanzas).1 k <;>
    simp [LogicalInterface.addChildren_addChildren]

theorem nodePools_fst_name (o : RangeOrder) (stanzas : List StanzaInterface) (k : String)
    (p : PhysicalInterface) (h : Map.get (nodePools o stanzas).1 k = some p) :
    p.logical.name = k ∧ k ≠ "lo" ∧ p.logical.children = [] := by
  have h1 := buildPhysicals_name (Map.range o 0 (stanzaPools ⟨[], [], []⟩ stanzas).physicalStanzas)
    [] (fun k p hk => by simp [Map.get] at hk) k p h
  have h2 := buildPhysicals_children
    (Map.range o 0 (stanzaPools ⟨[], [], []⟩ stanzas).physicalStanzas)
    [] (fun k p hk => by simp [Map.get] at hk) k p h
  exact ⟨h1.1, h1.2, h2⟩

theorem nodePools_fst_present (o : RangeOrder) (ho : o.Valid) (stanzas : List StanzaInterface)
    (s : String) (hlo : s ≠ "lo")
    (hp : ∃ p ∈ stanzas, p.kind = .interfacePhysical ∧ p.name = s) :
    ∃ p, Map.get (nodePools o stanzas).1 s = some p := by
  have h1 := stanzaPools_physical_present stanzas ⟨[], [], []⟩ s (Or.inr hp)
  obtain ⟨p', hp'⟩ := Option.isSome_iff_exists.mp h1
  have hname := ((stanzaPools_empty_entries stanzas s p').2.1 hp').2.2
  have hmem := Map.mem_range_of_get o ho 0 _ s p' hp'
  have h2 := buildPhysicals_present s hlo _ [] (Or.inr ⟨(s, p'), hmem, hname⟩)
  exact Option.isSome_iff_exists.mp h2

theorem nodePools_snd_last (o : RangeOrder) (ho : o.Valid) (pre post : List StanzaInterface)
    (b : StanzaInterface) (hb : b.kind = .interfaceBond)
    (hlast : ∀ x ∈ post, ¬(x.kind = .interfaceBond ∧ x.name = b.name)) :
    Map.get (nodePools o (pre ++ b :: post)).2 b.name =
      some ⟨⟨b.name, b.configMethod, []⟩, Map.getD b.options "bond-slaves"⟩ := by
  have hget := stanzaPools_bond_last pre post b ⟨[], [], []⟩ hb hlast
  apply buildBonds_get b.name b
  · intro e he hen
    have h1 := Map.get_of_mem_range o 1 _ e.1 e.2 he
    have h2 := ((stanzaPools_empty_entries (pre ++ b :: post) e.1 e.2).1 h1).2.2
    rw [← h2, hen, hget] at h1
    exact (Option.some.inj h1).symm
  · exact Or.inl ⟨(b.name, b), Map.mem_range_of_get o ho 1 _ _ _ hget, rfl⟩

theorem buildVlans_of_dotted (o : RangeOrder) (stanzas : List StanzaInterface)
    (hvlan : ∀ v ∈ stanzas, v.kind = .interfaceVLAN → '.' ∈ v.name.data) :
    ∃ vlans,
      buildVlans [] (Map.range o 2 (stanzaPools ⟨[], [], []⟩ stanzas).vlanStanzas) =
        .ok vlans := by
  apply buildVlans_ok
  intro e he
  have hget := Map.get_of_mem_range o 2 _ e.1 e.2 he
  obtain ⟨hmem, hkind, _⟩ := (stanzaPools_empty_entries stanzas e.1 e.2).2.2 hget
  exact hvlan e.2 hmem hkind

/-! ### The slaves of a bond (C10) -/

/-- C10, as amended. For every list of interface declarations in which the
last bond declaration named B carries a `bond-slaves` list, a name s of that
list is declared as a physical interface other than `lo`, and every VLAN
declaration has a dot in its name, `buildInterfaces` returns nodes, among
them a physical node named s, and every such node has B among its dependents
and the line `Bond=<B>` in its Network() fragment, whatever the order in
which the maps are visited. -/
theorem bond_attached_to_physical_slave (o : RangeOrder) (ho : o.Valid)
    (pre post : List StanzaInterface) (b : StanzaInterface) (s : String)
    (hb : b.kind = .interfaceBond)
    (hlast : ∀ x ∈ post, ¬(x.kind = .interfaceBond ∧ x.name = b.name))
    (hs : s ∈ Map.getD b.options "bond-slaves")
    (hp : ∃ p ∈ pre ++ b :: post, p.kind = .interfacePhysical ∧ p.name = s)
    (hlo : s ≠ "lo")
    (hvlan : ∀ v ∈ pre ++ b :: post, v.kind = .interfaceVLAN → '.' ∈ v.name.data) :
    ∃ nodes, buildInterfaces o (pre ++ b :: post) = .ok nodes ∧
      (∃ p, InterfaceGenerator.physical p ∈ nodes ∧ p.logical.name = s) ∧
      ∀ p, InterfaceGenerator.physical p ∈ nodes → p.logical.name = s →
        ∃ before after,
          p.logical.children = before ++ ⟨.interfaceBond, b.name⟩ :: after ∧
          p.Network =
            "[Match]\nName=" ++ s ++ "\n\n[Network]\n" ++
              (childLines before ++ ("Bond=" ++ b.name ++ "\n" ++ childLines after)) := by
  obtain ⟨vlans, hv⟩ := buildVlans_of_dotted o (pre ++ b :: post) hvlan
  refine ⟨_, buildInterfaces_eq o _ vlans hv, ?_, ?_⟩
  · obtain ⟨p0, hp0⟩ := nodePools_fst_present o ho _ s hlo hp
    have hname := (nodePools_fst_name o _ s p0 hp0).1
    have hget := linkedPools_fst o (pre ++ b :: post) vlans s
    rw [hp0] at hget
    simp only [Option.map_some'] at hget
    refine ⟨⟨p0.logical.addChildren
      (vlanChildrenOf s (Map.range o 3 vlans) ++
        bondChildrenOf s (Map.range o 4 (vlanLinkedPools o (pre ++ b :: post) vlans).2))⟩, ?_, ?_⟩
    · simp only [List.mem_append, List.mem_map]
      exact Or.inl (Or.inl ⟨(s, _), Map.mem_range_of_get o ho 5 _ _ _ hget, rfl⟩)
    · simpa [LogicalInterface.addChildren] using hname
  · intro p hmem hpname
    simp only [List.mem_append, List.mem_map, reduceCtorEq, and_false, exists_false, or_false,
      InterfaceGenerator.physical.injEq] at hmem
    obtain ⟨e, he, hep⟩ := hmem
    have hget := Map.get_of_mem_range o 5 _ e.1 e.2 he
    rw [hep, linkedPools_fst] at hget
    cases hp0 : Map.get (nodePools o (pre ++ b :: post)).1 e.1 with
    | none => simp [hp0] at hget
    | some p0 =>
      rw [hp0] at hget
      simp only [Option.map_some', Option.some.injEq] at hget
      obtain ⟨hn0, _, hc0⟩ := nodePools_fst_name o _ e.1 p0 hp0
      have hk : e.1 = s := by
        rw [← hpname, ← hget, ← hn0]
        rfl
      have hbond := nodePools_snd_last o ho pre post b hb hlast
      have hbond2 : Map.get (vlanLinkedPools o (pre ++ b :: post) vlans).2 b.name =
          some ⟨(⟨b.name, b.configMethod, []⟩ : LogicalInterface).addChildren
            (vlanChildrenOf b.name (Map.range o 3 vlans)), Map.getD b.options "bond-slaves"⟩ := by
        rw [vlanLinkedPools, linkVlans_snd, hbond]
        rfl
      have hchild := mem_bondChildrenOf s _ _ (Map.mem_range_of_get o ho 4 _ _ _ hbond2) hs
      have hmemc : (⟨.interfaceBond, b.name⟩ : Child) ∈ p.logical.children := by
        rw [← hget, hk]
        simp only [LogicalInterface.addChildren, List.mem_append]
        exact Or.inr (Or.inr hchild)
      obtain ⟨before, after, hsplit⟩ := List.append_of_mem hmemc
      refine ⟨before, after, hsplit, ?_⟩
      rw [PhysicalInterface.Network, hsplit, hpname, childLines_append]
      rfl

theorem insertionOrder_valid : insertionOrder.Valid :=
  fun _ ks => List.Perm.refl ks

theorem bond_attached_to_physical_slave_witness :
    ∃ nodes,
      buildInterfaces insertionOrder
          ([] ++ (⟨"bond0", .interfaceBond, false, .manual,
              [("bond-slaves", ["eth1", "eth2"]), ("slaves", ["eth1", "eth2"])]⟩ :
              StanzaInterface) ::
            [⟨"eth1", .interfacePhysical, false, .manual, []⟩]) = .ok nodes ∧
      (∃ p, InterfaceGenerator.physical p ∈ nodes ∧ p.logical.name = "eth1") ∧
      ∀ p, InterfaceGenerator.physical p ∈ nodes → p.logical.name = "eth1" →
        ∃ before after,
          p.logical.children = before ++ ⟨.interfaceBond, "bond0"⟩ :: after ∧
          p.Network =
            "[Match]\nName=" ++ "eth1" ++ "\n\n[Network]\n" ++
              (childLines before ++ ("Bond=" ++ "bond0" ++ "\n" ++ childLines after)) :=
  bond_attached_to_physical_slave insertionOrder insertionOrder_valid []
    [⟨"eth1", .interfacePhysical, false, .manual, []⟩]
    ⟨"bond0", .interfaceBond, false, .manual,
      [("bond-slaves", ["eth1", "eth2"]), ("slaves", ["eth1", "eth2"])]⟩
    "eth1" rfl (by decide) (by decide)
    ⟨⟨"eth1", .interfacePhysical, false, .manual, []⟩, by decide, rfl, rfl⟩
    (by decide) (by decide)

/-- C10, counterexample. The bond `bond0` is declared with the slave `eth1`
and declared again with the slave `eth2`, and `eth1` is declared as a
physical interface: the map of bond stanzas keeps the last declaration of a
name, the node of `eth1` has no dependent, and its Network() fragment has no
line `Bond=bond0`. -/
theorem bond_redeclared_not_attached :
    parseInterfaceStanza ipv4Lib ["bond0", "inet", "manual"] ["bond-slaves eth1"] =
        .ok ⟨"bond0", .interfaceBond, false, .manual,
          [("bond-slaves", ["eth1"]), ("slaves", ["eth1"])]⟩ ∧
      parseInterfaceStanza ipv4Lib ["bond0", "inet", "manual"] ["bond-slaves eth2"] =
        .ok ⟨"bond0", .interfaceBond, false, .manual,
          [("bond-slaves", ["eth2"]), ("slaves", ["eth2"])]⟩ ∧
      parseInterfaceStanza ipv4Lib ["eth1", "inet", "manual"] [] =
        .ok ⟨"eth1", .interfacePhysical, false, .manual, []⟩ ∧
      (buildInterfaces insertionOrder
          [⟨"bond0", .interfaceBond, false, .manual,
              [("bond-slaves", ["eth1"]), ("slaves", ["eth1"])]⟩,
            ⟨"bond0", .interfaceBond, false, .manual,
              [("bond-slaves", ["eth2"]), ("slaves", ["eth2"])]⟩,
            ⟨"eth1", .interfacePhysical, false, .manual, []⟩]).map
          (fun nodes => nodes.map (fun n => (n.Name, n.Network ipv4Lib))) =
        .ok [("eth1", "[Match]\nName=eth1\n\n[Network]\n"),
          ("bond0", "[Match]\nName=bond0\n\n[Network]\nDHCP=true\n")] := by
  decide

/-! ### `splitStanzas` (C14, C15) -/

theorem splitStanzasLoop_open (lines : List String) :
    ∀ (stanzas : List (List String)) (c : List String),
      ∃ r, splitStanzasLoop stanzas (some c) lines = .ok r := by
  induction lines with
  | nil => intro stanzas c; exact ⟨_, rfl⟩
  | cons line lines ih =>
    intro stanzas c
    simp only [splitStanzasLoop]
    split
    · exact ih _ _
    · exact ih _ _

theorem splitStanzas_cons (line : String) (lines : List String) :
    splitStanzas (line :: lines) =
      if isStanzaStart line = true then splitStanzasLoop [] (some [line]) lines
      else .error (.missingStanzaStart line) := by
  simp [splitStanzas, splitStanzasLoop]

/-- C14. For every list of logical lines, `splitStanzas` fails if and only if
the list is non-empty and its first line is not a stanza-start line; the
failure is then the missing-stanza-start error, for that line; otherwise it
succeeds. -/
theorem splitStanzas_fails_iff (lines : List String) :
    ((∃ e, splitStanzas lines = .error e) ↔
        ∃ line rest, lines = line :: rest ∧ isStanzaStart line = false) ∧
      (∀ line rest, lines = line :: rest → isStanzaStart line = false →
        splitStanzas lines = .error (.missingStanzaStart line)) ∧
      ((¬ ∃ line rest, lines = line :: rest ∧ isStanzaStart line = false) →
        ∃ stanzas, splitStanzas lines = .ok stanzas) := by
  cases lines with
  | nil =>
    refine ⟨⟨?_, ?_⟩, ?_, ?_⟩
    · rintro ⟨e, he⟩
      simp [splitStanzas, splitStanzasLoop] at he
    · rintro ⟨line, rest, h, _⟩
      cases h
    · intro line rest h
      cases h
    · intro _
      exact ⟨[], rfl⟩
  | cons l ls =>
    by_cases hs : isStanzaStart l = true
    · obtain ⟨r, hr⟩ := splitStanzasLoop_open ls [] [l]
      have hok : splitStanzas (l :: ls) = .ok r := by
        rw [splitStanzas_cons, if_pos hs, hr]
      refine ⟨⟨?_, ?_⟩, ?_, ?_⟩
      · rintro ⟨e, he⟩
        rw [hok] at he
        cases he
      · rintro ⟨line, rest, h, hl⟩
        cases h
        rw [hs] at hl
        cases hl
      · intro line rest h hl
        cases h
        rw [hs] at hl
        cases hl
      · intro _
        exact ⟨r, hok⟩
    · have hf : isStanzaStart l = false := by
        cases h : isStanzaStart l
        · rfl
        · exact absurd h hs
      have herr : splitStanzas (l :: ls) = .error (.missingStanzaStart l) := by
        rw [splitStanzas_cons, if_neg hs]
      refine ⟨⟨?_, ?_⟩, ?_, ?_⟩
      · intro _
        exact ⟨l, ls, rfl, hf⟩
      · intro _
        exact ⟨_, herr⟩
      · intro line rest h _
        cases h
        exact herr
      · intro hno
        exact absurd ⟨l, ls, rfl, hf⟩ hno

theorem splitStanzasLoop_shape (lines : List String) :
    ∀ (stanzas : List (List String)) (cur : Option (List String)) (r : List (List String)),
      splitStanzasLoop stanzas cur lines = .ok r →
      (∀ s ∈ stanzas, StanzaShape s) → (∀ c, cur = some c → StanzaShape c) →
      r.flatten = stanzas.flatten ++ cur.getD [] ++ lines ∧ ∀ s ∈ r, StanzaShape s := by
  induction lines with
  | nil =>
    intro stanzas cur r h hst hcur
    cases cur with
    | none =>
      simp only [splitStanzasLoop, Except.ok.injEq] at h
      subst h
      exact ⟨by simp, hst⟩
    | some c =>
      simp only [splitStanzasLoop, Except.ok.injEq] at h
      subst h
      refine ⟨by simp, ?_⟩
      intro s hs
      rcases List.mem_append.mp hs with hs | hs
      · exact hst s hs
      · simp only [List.mem_singleton] at hs
        subst hs
        exact hcur _ rfl
  | cons line lines ih =>
    intro stanzas cur r h hst hcur
    simp only [splitStanzasLoop] at h
    by_cases hs : isStanzaStart line = true
    · simp only [hs, if_true] at h
      have hnew : ∀ c, some [line] = some c → StanzaShape c := by
        intro c hc
        cases hc
        exact ⟨line, [], rfl, hs, by simp⟩
      cases cur with
      | none =>
        obtain ⟨h1, h2⟩ := ih _ _ r h hst hnew
        exact ⟨by simpa using h1, h2⟩
      | some c =>
        have hst' : ∀ s ∈ stanzas ++ [c], StanzaShape s := by
          intro s hs'
          rcases List.mem_append.mp hs' with hs' | hs'
          · exact hst s hs'
          · simp only [List.mem_singleton] at hs'
            subst hs'
            exact hcur _ rfl
        obtain ⟨h1, h2⟩ := ih _ _ r h hst' hnew
        exact ⟨by simpa using h1, h2⟩
    · have hf : isStanzaStart line = false := by
        cases h' : isStanzaStart line
        · rfl
        · exact absurd h' hs
      simp only [hs, if_false, Bool.false_eq_true] at h
      cases cur with
      | none => simp at h
      | some c =>
        have hnew : ∀ c', some (c ++ [line]) = some c' → StanzaShape c' := by
          intro c' hc
          cases hc
          obtain ⟨first, rest, hc, hfirst, hrest⟩ := hcur c rfl
          refine ⟨first, rest ++ [line], by simp [hc], hfirst, ?_⟩
          intro l hl
          rcases List.mem_append.mp hl with hl | hl
          · exact hrest l hl
          · simp only [List.mem_singleton] at hl
            subst hl
            exact hf
        obtain ⟨h1, h2⟩ := ih _ _ r h hst hnew
        exact ⟨by simpa using h1, h2⟩

/-- C15. For every list of lines on which `splitStanzas` succeeds,
concatenating the returned stanzas in order gives back the input list, every
stanza is non-empty, its first line is a stanza-start line, and none of its
later lines is a stanza-start line. -/
theorem splitStanzas_partition (lines : List String) (stanzas : List (List String))
    (h : splitStanzas lines = .ok stanzas) :
    stanzas.flatten = lines ∧
      ∀ s ∈ stanzas, ∃ first rest, s = first :: rest ∧ isStanzaStart first = true ∧
        ∀ l ∈ rest, isStanzaStart l = false := by
  have := splitStanzasLoop_shape lines [] none stanzas h (by simp) (by simp)
  exact ⟨by simpa using this.1, this.2⟩

theorem splitStanzas_partition_witness :
    [["auto lo"], ["iface eth1 inet manual", "bond-slaves eth2"], ["mapping"]].flatten =
        ["auto lo", "iface eth1 inet manual", "bond-slaves eth2", "mapping"] ∧
      ∀ s ∈ [["auto lo"], ["iface eth1 inet manual", "bond-slaves eth2"], ["mapping"]],
        ∃ first rest, s = first :: rest ∧ isStanzaStart first = true ∧
          ∀ l ∈ rest, isStanzaStart l = false :=
  splitStanzas_partition ["auto lo", "iface eth1 inet manual", "bond-slaves eth2", "mapping"]
    [["auto lo"], ["iface eth1 inet manual", "bond-slaves eth2"], ["mapping"]] (by decide)

/-! ### `isStanzaStart` (C16) -/

theorem splitChars_headD (c : Char) (l : List Char) :
    (splitChars c l).headD [] = l.takeWhile (fun x => x ≠ c) := by
  induction l with
  | nil => rfl
  | cons x xs ih =>
    by_cases hx : x = c
    · simp [splitChars, hx]
    · simp only [splitChars, hx, if_false]
      cases hs : splitChars c xs with
      | nil => exact absurd hs (splitChars_ne_nil c xs)
      | cons p ps =>
        rw [hs] at ih
        simp only [List.headD_cons] at ih
        simp [List.takeWhile_cons, hx, ih]

theorem Split_headD (line : String) : (Split line ' ').headD "" = beforeFirstSpace line := by
  have h := splitChars_headD ' ' line.data
  unfold Split beforeFirstSpace
  cases hs : splitChars ' ' line.data with
  | nil => exact absurd hs (splitChars_ne_nil _ _)
  | cons p ps =>
    rw [hs] at h
    simp only [List.headD_cons] at h
    simp [h]

/-- The lines `isStanzaStart` accepts: those whose text before the first space
(the whole line when it has no space) is `auto`, `iface` or `mapping`, and
those that begin with `allow-`. -/
theorem isStanzaStart_iff (line : String) :
    isStanzaStart line = true ↔
      (beforeFirstSpace line = "auto" ∨ beforeFirstSpace line = "iface" ∨
        beforeFirstSpace line = "mapping") ∨ "allow-".data <+: line.data := by
  unfold isStanzaStart
  simp only [Split_headD]
  by_cases h : beforeFirstSpace line = "auto" ∨ beforeFirstSpace line = "iface" ∨
      beforeFirstSpace line = "mapping"
  · simp [h]
  · simp only [h, if_false, false_or]
    by_cases hp : HasPrefix line "allow-" = true
    · simp [hp, (HasPrefix_iff _ _).mp hp]
    · have : ¬ "allow-".data <+: line.data := fun e => hp ((HasPrefix_iff _ _).mpr e)
      simp [hp, this]

/-- C16, at the failing input. The first whitespace-delimited token of the
line `iface`, tab, `eth0 inet manual` is `iface`, and `parseStanza`, which
reads the line with `strings.Fields`, takes it for the interface stanza of
`eth0`; but `isStanzaStart` cuts the line at the first space and returns
false, so `splitStanzas` keeps the line as an option of the stanza before it,
and `parseStanzas` returns the stanza `auto lo` alone. The same holds of the
line `auto`, tab, `eth0`. -/
theorem isStanzaStart_tab_separated :
    (Fields "iface\teth0 inet manual").head? = some "iface" ∧
      isStanzaStart "iface\teth0 inet manual" = false ∧
      parseStanza ipv4Lib ["iface\teth0 inet manual"] =
        .ok (.iface ⟨"eth0", .interfacePhysical, false, .manual, []⟩) ∧
      splitStanzas ["auto lo", "iface\teth0 inet manual"] =
        .ok [["auto lo", "iface\teth0 inet manual"]] ∧
      parseStanzas ipv4Lib ["auto lo", "iface\teth0 inet manual"] =
        .ok [.auto ⟨["lo"]⟩] ∧
      (Fields "auto\teth0").head? = some "auto" ∧ isStanzaStart "auto\teth0" = false := by
  decide

/-! ### `parseStanzas` (C17, C18) -/

/-- C17, at the failing input. For the single line "", which is no
stanza-start line, `splitStanzas` fails with the missing-stanza-start error,
and `parseStanzas` returns no error: it returns an empty list of stanzas. -/
theorem parseStanzas_drops_split_error :
    splitStanzas [""] = .error (.missingStanzaStart "") ∧
      parseStanzas ipv4Lib [""] = .ok [] ∧
      parseStanzas ipv4Lib ["address 10.0.0.1", "iface eth0 inet manual"] = .ok [] := by
  decide

theorem parseRawStanzas_first_failure (L : NetLib) (before : List (List String)) :
    ∀ (bad : List String) (after : List (List String)) (e : Err),
      (∀ s ∈ before, ∃ st, parseStanza L s = .ok st) → parseStanza L bad = .error e →
      parseRawStanzas L (before ++ bad :: after) = .error e := by
  induction before with
  | nil =>
    intro bad after e _ hbad
    simp [parseRawStanzas, hbad]
  | cons s before ih =>
    intro bad after e hbefore hbad
    obtain ⟨st, hst⟩ := hbefore s (List.mem_cons_self _ _)
    have := ih bad after e (fun x hx => hbefore x (List.mem_cons_of_mem _ hx)) hbad
    simp [parseRawStanzas, hst, this]

/-- C18. For every list of lines that `splitStanzas` splits into stanzas of
which at least one fails to parse, `parseStanzas` returns the failure of the
first failing stanza and no stanzas at all, whatever the stanzas before it
contained. -/
theorem parseStanzas_first_failure (L : NetLib) (lines : List String)
    (before : List (List String)) (bad : List String) (after : List (List String)) (e : Err)
    (hsplit : splitStanzas lines = .ok (before ++ bad :: after))
    (hbefore : ∀ s ∈ before, ∃ st, parseStanza L s = .ok st)
    (hbad : parseStanza L bad = .error e) :
    parseStanzas L lines = .error e := by
  simp [parseStanzas, hsplit, parseRawStanzas_first_failure L before bad after e hbefore hbad]

theorem parseStanzas_first_failure_witness :
    parseStanzas ipv4Lib ["auto lo", "iface eth0 inet static", "iface eth1 inet manual"] =
      .error (.malformedStaticNetwork "eth0") :=
  parseStanzas_first_failure ipv4Lib
    ["auto lo", "iface eth0 inet static", "iface eth1 inet manual"]
    [["auto lo"]] ["iface eth0 inet static"] [["iface eth1 inet manual"]]
    (.malformedStaticNetwork "eth0") (by decide)
    (fun s hs => by
      rw [List.mem_singleton] at hs
      subst hs
      exact ⟨.auto ⟨["lo"]⟩, by decide⟩)
    (by decide)

/-! ### `parseStanza` (C19, C20) -/

/-- C19, as amended. For every stanza whose first line has the first token
`iface`: followed by no token, `parseStanza` fails with the
malformed-stanza-start error; followed by 1 or 2 tokens, it fails with the
error of `parseInterfaceStanza` for an incorrect number of attributes. -/
theorem parseStanza_iface_few_attributes (L : NetLib) (first : String)
    (options attributes : List String)
    (hfirst : Fields first = "iface" :: attributes) (hlen : attributes.length < 3) :
    parseStanza L (first :: options) =
      if attributes = [] then .error (.malformedStanzaStart first)
      else .error .interfaceMissingAttributes := by
  match attributes, hlen with
  | [], _ => simp [parseStanza, hfirst]
  | [a], _ => simp [parseStanza, hfirst, parseInterfaceStanza, Except.map]
  | [a, b], _ => simp [parseStanza, hfirst, parseInterfaceStanza, Except.map]
  | _ :: _ :: _ :: _, h => simp at h; omega

theorem parseStanza_iface_few_attributes_witness :
    parseStanza ipv4Lib ("iface eth0 inet" :: ["address 10.0.0.1"]) =
      if ["eth0", "inet"] = [] then .error (.malformedStanzaStart "iface eth0 inet")
      else .error .interfaceMissingAttributes :=
  parseStanza_iface_few_attributes ipv4Lib "iface eth0 inet" ["address 10.0.0.1"]
    ["eth0", "inet"] (by decide) (by decide)

/-- C19, counterexample. The first lines `iface eth0` and `iface eth0 inet`,
with 1 and 2 tokens after `iface`: `parseStanza` fails with the error of an
incorrect number of attributes, not with the malformed-stanza-start error. -/
theorem parseStanza_iface_two_attributes :
    parseStanza ipv4Lib ["iface eth0"] = .error .interfaceMissingAttributes ∧
      parseStanza ipv4Lib ["iface eth0 inet"] = .error .interfaceMissingAttributes := by
  decide

/-- C20, as amended. For every non-empty stanza whose first line's first
token is neither `auto` nor `iface`: when at least one more token follows,
`parseStanza` fails with the unknown-stanza error; when the first token stands
alone, it fails with the malformed-stanza-start error. -/
theorem parseStanza_unknown_kind (L : NetLib) (first : String) (options : List String)
    (kind : String) (attributes : List String)
    (hfirst : Fields first = kind :: attributes)
    (hauto : kind ≠ "auto") (hiface : kind ≠ "iface") :
    parseStanza L (first :: options) =
      if attributes = [] then .error (.malformedStanzaStart first)
      else .error (.unknownStanza kind) := by
  cases attributes with
  | nil => simp [parseStanza, hfirst]
  | cons a attributes => simp [parseStanza, hfirst, hauto, hiface]

theorem parseStanza_unknown_kind_witness :
    parseStanza ipv4Lib ("allow-hotplug eth0" :: []) =
      if ["eth0"] = [] then .error (.malformedStanzaStart "allow-hotplug eth0")
      else .error (.unknownStanza "allow-hotplug") :=
  parseStanza_unknown_kind ipv4Lib "allow-hotplug eth0" [] "allow-hotplug" ["eth0"]
    (by decide) (by decide) (by decide)

/-- C20, counterexample. The openers `mapping` and `allow-hotplug` without
further tokens: `parseStanza` fails with the malformed-stanza-start error, not
with the unknown-stanza error. -/
theorem parseStanza_bare_opener :
    parseStanza ipv4Lib ["mapping"] = .error (.malformedStanzaStart "mapping") ∧
      parseStanza ipv4Lib ["allow-hotplug"] =
        .error (.malformedStanzaStart "allow-hotplug") := by
  decide

/-! ### The links of `buildInterfaces`, on the side of the bonds -/

theorem linkSlave_snd (bondName slave : String)
    (pools : Map PhysicalInterface × Map BondInterface) (k : String) :
    Map.get (linkSlave bondName slave pools).2 k =
      (Map.get pools.2 k).map (fun b =>
        ⟨b.logical.addChildren
          (if slave = k then [⟨.interfaceBond, b.logical.name⟩] else []), b.slaves⟩) := by
  simp only [linkSlave]
  cases h : Map.get pools.2 slave with
  | none =>
    simp only []
    by_cases hk : slave = k
    · subst hk
      simp [h]
    · cases Map.get pools.2 k <;> simp [hk, LogicalInterface.addChildren_nil]
  | some x =>
    simp only [Map.get_set]
    by_cases hk : slave = k
    · subst hk
      simp [h, LogicalInterface.addChild_eq]
    · have hk' : ¬ k = slave := fun e => hk e.symm
      cases Map.get pools.2 k <;> simp [hk, hk', LogicalInterface.addChildren_nil]

theorem linkSlaves_snd (bondName : String) (slaves : List String) (k : String) :
    ∀ pools : Map PhysicalInterface × Map BondInterface,
      Map.get (linkSlaves bondName slaves pools).2 k =
        (Map.get pools.2 k).map (fun b =>
          ⟨b.logical.addChildren
            ((slaves.filter (fun slave => slave = k)).map
              (fun _ => ⟨.interfaceBond, b.logical.name⟩)), b.slaves⟩) := by
  induction slaves with
  | nil =>
    intro pools
    cases h : Map.get pools.2 k <;> simp [linkSlaves, LogicalInterface.addChildren_nil, h]
  | cons s slaves ih =>
    intro pools
    simp only [linkSlaves]
    rw [ih, linkSlave_snd]
    by_cases hk : s = k <;>
      cases Map.get pools.2 k <;>
        simp [hk, List.filter_cons, LogicalInterface.addChildren_addChildren,
          LogicalInterface.addChildren_nil, LogicalInterface.addChildren]

theorem linkBonds_snd (l : List (String × BondInterface)) (k : String) :
    ∀ pools : Map PhysicalInterface × Map BondInterface,
      Map.get (linkBonds l pools).2 k =
        (Map.get pools.2 k).map (fun b =>
          ⟨b.logical.addChildren (selfChildrenOf k b.logical.name l), b.slaves⟩) := by
  induction l with
  | nil =>
    intro pools
    cases h : Map.get pools.2 k <;>
      simp [linkBonds, selfChildrenOf, LogicalInterface.addChildren_nil, h]
  | cons e l ih =>
    intro pools
    obtain ⟨k₀, bond⟩ := e
    simp only [linkBonds]
    rw [ih, linkSlaves_snd]
    cases Map.get pools.2 k <;>
      simp [selfChildrenOf, LogicalInterface.addChildren_addChildren,
        LogicalInterface.addChildren]

theorem linkedPools_snd (o : RangeOrder) (stanzas : List StanzaInterface)
    (vlans : Map VlanInterface) (k : String) :
    Map.get (linkedPools o stanzas vlans).2 k =
      (Map.get (nodePools o stanzas).2 k).map (fun b =>
        ⟨b.logical.addChildren
          (vlanChildrenOf k (Map.range o 3 vlans) ++
            selfChildrenOf k b.logical.name
              (Map.range o 4 (vlanLinkedPools o stanzas vlans).2)), b.slaves⟩) := by
  rw [linkedPools, linkBonds_snd, vlanLinkedPools, linkVlans_snd]
  cases Map.get (nodePools o stanzas).2 k <;>
    simp [LogicalInterface.addChildren_addChildren, LogicalInterface.addChildren]

/-! ### Where the nodes of `buildInterfaces` come from -/

theorem stanzaPools_vlan_unchanged (k : String) (xs : List StanzaInterface) :
    ∀ pools, (∀ x ∈ xs, ¬(x.kind = .interfaceVLAN ∧ x.name = k)) →
      Map.get (stanzaPools pools xs).vlanStanzas k = Map.get pools.vlanStanzas k := by
  induction xs with
  | nil => intro pools _; rfl
  | cons x xs ih =>
    intro pools h
    have hx := h x (List.mem_cons_self _ _)
    have hxs : ∀ y ∈ xs, ¬(y.kind = .interfaceVLAN ∧ y.name = k) :=
      fun y hy => h y (List.mem_cons_of_mem _ hy)
    simp only [stanzaPools]
    cases hk : x.kind with
    | interfaceBond => simp only []; rw [ih _ hxs]
    | interfacePhysical => simp only []; rw [ih _ hxs]
    | interfaceVLAN =>
      simp only []
      rw [ih _ hxs]
      have : k ≠ x.name := fun e => hx ⟨hk, e.symm⟩
      exact Map.get_set_other _ _ _ _ this

theorem stanzaPools_vlan_last (pre post : List StanzaInterface) (v : StanzaInterface)
    (pools : StanzaPools) (hv : v.kind = .interfaceVLAN)
    (hpost : ∀ x ∈ post, ¬(x.kind = .interfaceVLAN ∧ x.name = v.name)) :
    Map.get (stanzaPools pools (pre ++ v :: post)).vlanStanzas v.name = some v := by
  rw [stanzaPools_append]
  simp only [stanzaPools, hv]
  rw [stanzaPools_vlan_unchanged v.name post _ hpost]
  exact Map.get_set_self _ _ _

theorem stanzaPools_bond_present (xs : List StanzaInterface) :
    ∀ pools k,
      ((Map.get pools.bondStanzas k).isSome = true ∨
        ∃ p ∈ xs, p.kind = .interfaceBond ∧ p.name = k) →
      (Map.get (stanzaPools pools xs).bondStanzas k).isSome = true := by
  induction xs with
  | nil =>
    intro pools k h
    rcases h with h | ⟨p, hp, _⟩
    · exact h
    · simp at hp
  | cons x xs ih =>
    intro pools k h
    simp only [stanzaPools]
    cases hk : x.kind with
    | interfaceBond =>
      simp only []
      apply ih
      by_cases hkx : k = x.name
      · left
        simp [Map.get_set, hkx]
      · rcases h with h | ⟨p, hp, hpk, hpn⟩
        · left
          simpa [Map.get_set, hkx] using h
        · rcases List.mem_cons.mp hp with e | e
          · subst e; exact absurd hpn.symm hkx
          · exact Or.inr ⟨p, e, hpk, hpn⟩
    | interfacePhysical =>
      simp only []
      apply ih
      rcases h with h | ⟨p, hp, hpk, hpn⟩
      · exact Or.inl h
      · rcases List.mem_cons.mp hp with e | e
        · subst e; rw [hk] at hpk; cases hpk
        · exact Or.inr ⟨p, e, hpk, hpn⟩
    | interfaceVLAN =>
      simp only []
      apply ih
      rcases h with h | ⟨p, hp, hpk, hpn⟩
      · exact Or.inl h
      · rcases List.mem_cons.mp hp with e | e
        · subst e; rw [hk] at hpk; cases hpk
        · exact Or.inr ⟨p, e, hpk, hpn⟩

theorem buildPhysicals_origin (l : List (String × StanzaInterface)) :
    ∀ (acc : Map PhysicalInterface) (k : String) (p : PhysicalInterface),
      Map.get (buildPhysicals acc l) k = some p →
      Map.get acc k = some p ∨ ∃ e ∈ l, e.2.name = k := by
  induction l with
  | nil => intro acc k p h; exact Or.inl h
  | cons e l ih =>
    intro acc k p h
    obtain ⟨k₀, x⟩ := e
    simp only [buildPhysicals] at h
    by_cases hlo : x.name = "lo"
    · simp only [hlo, if_true] at h
      rcases ih _ _ _ h with h' | ⟨e, he, hen⟩
      · exact Or.inl h'
      · exact Or.inr ⟨e, List.mem_cons_of_mem _ he, hen⟩
    · simp only [hlo, if_false] at h
      rcases ih _ _ _ h with h' | ⟨e, he, hen⟩
      · rw [Map.get_set] at h'
        by_cases hkx : k = x.name
        · exact Or.inr ⟨(k₀, x), List.mem_cons_self _ _, hkx.symm⟩
        · simp only [hkx, if_false] at h'
          exact Or.inl h'
      · exact Or.inr ⟨e, List.mem_cons_of_mem _ he, hen⟩

theorem buildBonds_origin (l : List (String × StanzaInterface)) :
    ∀ (acc : Map BondInterface) (k : String) (b : BondInterface),
      Map.get (buildBonds acc l) k = some b →
      Map.get acc k = some b ∨
        ∃ e ∈ l, e.2.name = k ∧
          b = ⟨⟨k, e.2.configMethod, []⟩, Map.getD e.2.options "bond-slaves"⟩ := by
  induction l with
  | nil => intro acc k b h; exact Or.inl h
  | cons e l ih =>
    intro acc k b h
    obtain ⟨k₀, x⟩ := e
    simp only [buildBonds] at h
    rcases ih _ _ _ h with h' | ⟨e, he, hen⟩
    · rw [Map.get_set] at h'
      by_cases hkx : k = x.name
      · simp only [hkx, if_true, Option.some.injEq] at h'
        exact Or.inr ⟨(k₀, x), List.mem_cons_self _ _, hkx.symm, by rw [← h', hkx]⟩
      · simp only [hkx, if_false] at h'
        exact Or.inl h'
    · exact Or.inr ⟨e, List.mem_cons_of_mem _ he, hen⟩

theorem buildBonds_present (k : String) (l : List (String × StanzaInterface)) :
    ∀ acc : Map BondInterface,
      ((Map.get acc k).isSome = true ∨ ∃ e ∈ l, e.2.name = k) →
      (Map.get (buildBonds acc l) k).isSome = true := by
  induction l with
  | nil =>
    intro acc h
    rcases h with h | ⟨e, he, _⟩
    · exact h
    · simp at he
  | cons e l ih =>
    intro acc h
    obtain ⟨k₀, x⟩ := e
    simp only [buildBonds]
    apply ih
    by_cases hkx : k = x.name
    · left
      simp [Map.get_set, hkx]
    · rcases h with h | ⟨e, he, hen⟩
      · left
        simpa [Map.get_set, hkx] using h
      · rcases List.mem_cons.mp he with e1 | e1
        · subst e1
          exact absurd hen.symm hkx
        · exact Or.inr ⟨e, e1, hen⟩

theorem buildVlans_origin (l : List (String × StanzaInterface)) :
    ∀ (acc vlans : Map VlanInterface) (k : String) (vn : VlanInterface),
      buildVlans acc l = .ok vlans → Map.get vlans k = some vn →
      Map.get acc k = some vn ∨
        ∃ e ∈ l, e.2.name = k ∧ vn.logical = ⟨k, e.2.configMethod, []⟩ ∧
          vn.rawDevice = rawDeviceOf e.2 := by
  induction l with
  | nil =>
    intro acc vlans k vn h hget
    simp only [buildVlans, Except.ok.injEq] at h
    subst h
    exact Or.inl hget
  | cons e l ih =>
    intro acc vlans k vn h hget
    obtain ⟨k₀, x⟩ := e
    simp only [buildVlans] at h
    cases hp : (Split x.name '.').get? 1 with
    | none =>
      rw [hp] at h
      cases h
    | some piece =>
      rw [hp] at h
      dsimp only at h
      rcases ih _ _ _ _ h hget with h' | ⟨e, he, hen⟩
      · rw [Map.get_set] at h'
        by_cases hkx : k = x.name
        · simp only [hkx, if_true, Option.some.injEq] at h'
          refine Or.inr ⟨(k₀, x), List.mem_cons_self _ _, hkx.symm, ?_, ?_⟩
          · rw [← h', hkx]
          · rw [← h']
            rfl
        · simp only [hkx, if_false] at h'
          exact Or.inl h'
      · exact Or.inr ⟨e, List.mem_cons_of_mem _ he, hen⟩

theorem buildVlans_present (k : String) (l : List (String × StanzaInterface)) :
    ∀ acc vlans : Map VlanInterface,
      ((Map.get acc k).isSome = true ∨ ∃ e ∈ l, e.2.name = k) →
      buildVlans acc l = .ok vlans → (Map.get vlans k).isSome = true := by
  induction l with
  | nil =>
    intro acc vlans h hb
    simp only [buildVlans, Except.ok.injEq] at hb
    subst hb
    rcases h with h | ⟨e, he, _⟩
    · exact h
    · simp at he
  | cons e l ih =>
    intro acc vlans h hb
    obtain ⟨k₀, x⟩ := e
    simp only [buildVlans] at hb
    cases hp : (Split x.name '.').get? 1 with
    | none =>
      rw [hp] at hb
      cases hb
    | some piece =>
      rw [hp] at hb
      dsimp only at hb
      apply ih _ _ _ hb
      by_cases hkx : k = x.name
      · left
        simp [Map.get_set, hkx]
      · rcases h with h | ⟨e, he, hen⟩
        · left
          simpa [Map.get_set, hkx] using h
        · rcases List.mem_cons.mp he with e1 | e1
          · subst e1
            exact absurd hen.symm hkx
          · exact Or.inr ⟨e, e1, hen⟩

theorem nodePools_fst_origin (o : RangeOrder) (stanzas : List StanzaInterface) (k : String)
    (p : PhysicalInterface) (h : Map.get (nodePools o stanzas).1 k = some p) :
    ∃ x ∈ stanzas, x.kind = .interfacePhysical ∧ x.name = k := by
  rcases buildPhysicals_origin _ _ _ _ h with h' | ⟨e, he, hen⟩
  · simp [Map.get] at h'
  · have hget := Map.get_of_mem_range o 0 _ e.1 e.2 he
    obtain ⟨hmem, hkind, _⟩ := (stanzaPools_empty_entries stanzas e.1 e.2).2.1 hget
    exact ⟨e.2, hmem, hkind, hen⟩

theorem nodePools_snd_origin (o : RangeOrder) (stanzas : List StanzaInterface) (k : String)
    (b : BondInterface) (h : Map.get (nodePools o stanzas).2 k = some b) :
    b.logical.name = k ∧ b.logical.children = [] ∧
      ∃ x ∈ stanzas, x.kind = .interfaceBond ∧ x.name = k ∧
        b.slaves = Map.getD x.options "bond-slaves" := by
  rcases buildBonds_origin _ _ _ _ h with h' | ⟨e, he, hen, hb⟩
  · simp [Map.get] at h'
  · have hget := Map.get_of_mem_range o 1 _ e.1 e.2 he
    obtain ⟨hmem, hkind, _⟩ := (stanzaPools_empty_entries stanzas e.1 e.2).1 hget
    subst hb
    exact ⟨rfl, rfl, e.2, hmem, hkind, hen, rfl⟩

theorem nodePools_snd_present (o : RangeOrder) (ho : o.Valid) (stanzas : List StanzaInterface)
    (r : String) (hb : ∃ b ∈ stanzas, b.kind = .interfaceBond ∧ b.name = r) :
    ∃ b, Map.get (nodePools o stanzas).2 r = some b := by
  have h1 := stanzaPools_bond_present stanzas ⟨[], [], []⟩ r (Or.inr hb)
  obtain ⟨b', hb'⟩ := Option.isSome_iff_exists.mp h1
  have hname := ((stanzaPools_empty_entries stanzas r b').1 hb').2.2
  have hmem := Map.mem_range_of_get o ho 1 _ r b' hb'
  have h2 := buildBonds_present r _ [] (Or.inr ⟨(r, b'), hmem, hname⟩)
  exact Option.isSome_iff_exists.mp h2

theorem vlans_origin (o : RangeOrder) (stanzas : List StanzaInterface)
    (vlans : Map VlanInterface)
    (hb : buildVlans [] (Map.range o 2 (stanzaPools ⟨[], [], []⟩ stanzas).vlanStanzas) =
      .ok vlans)
    (k : String) (vn : VlanInterface) (h : Map.get vlans k = some vn) :
    vn.logical.name = k ∧ vn.logical.children = [] ∧
      ∃ x ∈ stanzas, x.kind = .interfaceVLAN ∧ x.name = k ∧
        Map.get (stanzaPools ⟨[], [], []⟩ stanzas).vlanStanzas k = some x ∧
        vn.logical.config = x.configMethod ∧ vn.rawDevice = rawDeviceOf x := by
  rcases buildVlans_origin _ _ _ _ _ hb h with h' | ⟨e, he, hen, hl, hraw⟩
  · simp [Map.get] at h'
  · have hget := Map.get_of_mem_range o 2 _ e.1 e.2 he
    obtain ⟨hmem, hkind, hname⟩ := (stanzaPools_empty_entries stanzas e.1 e.2).2.2 hget
    rw [← hname, hen] at hget
    rw [hl]
    exact ⟨rfl, rfl, e.2, hmem, hkind, hen, hget, rfl, hraw⟩

theorem vlans_last (o : RangeOrder) (ho : o.Valid) (pre post : List StanzaInterface)
    (v : StanzaInterface) (vlans : Map VlanInterface)
    (hv : v.kind = .interfaceVLAN)
    (hlast : ∀ x ∈ post, ¬(x.kind = .interfaceVLAN ∧ x.name = v.name))
    (hb : buildVlans []
      (Map.range o 2 (stanzaPools ⟨[], [], []⟩ (pre ++ v :: post)).vlanStanzas) = .ok vlans) :
    ∃ vn, Map.get vlans v.name = some vn ∧ vn.logical = ⟨v.name, v.configMethod, []⟩ ∧
      vn.rawDevice = rawDeviceOf v := by
  have hget := stanzaPools_vlan_last pre post v ⟨[], [], []⟩ hv hlast
  have hmem := Map.mem_range_of_get o ho 2 _ _ _ hget
  have hsome := buildVlans_present v.name _ [] vlans (Or.inr ⟨(v.name, v), hmem, rfl⟩) hb
  obtain ⟨vn, hvn⟩ := Option.isSome_iff_exists.mp hsome
  obtain ⟨hn, hc, x, _, _, _, hx, hconf, hraw⟩ := vlans_origin o _ vlans hb v.name vn hvn
  rw [hget] at hx
  cases hx
  refine ⟨vn, hvn, ?_, hraw⟩
  cases vn with
  | mk logical id rawDevice =>
    cases logical with
    | mk name config children =>
      simp only at hn hc hconf
      subst hn hc hconf
      rfl

theorem mem_vlanChildrenOf (k : String) (l : List (String × VlanInterface)) (c : Child) :
    c ∈ vlanChildrenOf k l ↔
      ∃ e ∈ l, e.2.rawDevice = k ∧ c = ⟨.interfaceVLAN, e.2.logical.name⟩ := by
  simp only [vlanChildrenOf, List.mem_map, List.mem_filter, decide_eq_true_eq]
  constructor
  · rintro ⟨e, ⟨he, hk⟩, hc⟩
    exact ⟨e, he, hk, hc.symm⟩
  · rintro ⟨e, he, hk, hc⟩
    exact ⟨e, ⟨he, hk⟩, hc.symm⟩

theorem kind_of_mem_bondChildrenOf (k : String) (l : List (String × BondInterface)) (c : Child)
    (h : c ∈ bondChildrenOf k l) : c.kind = .interfaceBond := by
  simp only [bondChildrenOf, List.mem_flatMap, List.mem_map] at h
  obtain ⟨e, _, s, _, hc⟩ := h
  rw [← hc]

theorem kind_of_mem_selfChildrenOf (k name : String) (l : List (String × BondInterface))
    (c : Child) (h : c ∈ selfChildrenOf k name l) : c.kind = .interfaceBond := by
  simp only [selfChildrenOf, List.mem_map] at h
  obtain ⟨s, _, hc⟩ := h
  rw [← hc]

/-! ### The raw device of a VLAN (C12) -/

theorem vlan_child_iff (o : RangeOrder) (ho : o.Valid) (stanzas : List StanzaInterface)
    (vlans : Map VlanInterface)
    (hb : buildVlans [] (Map.range o 2 (stanzaPools ⟨[], [], []⟩ stanzas).vlanStanzas) =
      .ok vlans)
    (name : String) (vn : VlanInterface) (hvn : Map.get vlans name = some vn) (k : String) :
    (⟨.interfaceVLAN, name⟩ : Child) ∈ vlanChildrenOf k (Map.range o 3 vlans) ↔
      k = vn.rawDevice := by
  rw [mem_vlanChildrenOf]
  constructor
  · rintro ⟨e, he, hk, hc⟩
    have hget := Map.get_of_mem_range o 3 _ e.1 e.2 he
    have hn := (vlans_origin o stanzas vlans hb e.1 e.2 hget).1
    simp only [Child.mk.injEq, true_and] at hc
    rw [← hn, ← hc, hvn] at hget
    cases hget
    exact hk.symm
  · intro hk
    have hn := (vlans_origin o stanzas vlans hb name vn hvn).1
    exact ⟨(name, vn), Map.mem_range_of_get o ho 3 _ _ _ hvn, hk.symm, by rw [hn]⟩

/-- C12, as amended. For every list of interface declarations in which every
VLAN declaration has a dot in its name and the last VLAN declaration named V
carries a `vlan_raw_device` option with the single value r, whatever the
order in which the maps are visited, `buildInterfaces` returns nodes, among
them the node of V; when r is declared as a physical interface other than
`lo`, a physical node named r is returned, and every such node has V among
its dependents and the line `VLAN=<V>` in its Network() fragment; the same
holds of the bond nodes named r when r is declared as a bond; and when r is
declared neither as a physical interface other than `lo` nor as a bond, no
node returned has V among its dependents. -/
theorem vlan_attached_to_raw_device (o : RangeOrder) (ho : o.Valid)
    (pre post : List StanzaInterface) (v : StanzaInterface) (r : String)
    (hv : v.kind = .interfaceVLAN)
    (hlast : ∀ x ∈ post, ¬(x.kind = .interfaceVLAN ∧ x.name = v.name))
    (hr : Map.get v.options "vlan_raw_device" = some [r])
    (hvlan : ∀ x ∈ pre ++ v :: post, x.kind = .interfaceVLAN → '.' ∈ x.name.data) :
    ∃ nodes, buildInterfaces o (pre ++ v :: post) = .ok nodes ∧
      (∃ vn, InterfaceGenerator.vlan vn ∈ nodes ∧ vn.logical.name = v.name) ∧
      ((∃ p ∈ pre ++ v :: post, p.kind = .interfacePhysical ∧ p.name = r) → r ≠ "lo" →
        (∃ p, InterfaceGenerator.physical p ∈ nodes ∧ p.logical.name = r) ∧
        ∀ p, InterfaceGenerator.physical p ∈ nodes → p.logical.name = r →
          ∃ before after,
            p.logical.children = before ++ ⟨.interfaceVLAN, v.name⟩ :: after ∧
            p.Network =
              "[Match]\nName=" ++ r ++ "\n\n[Network]\n" ++
                (childLines before ++ ("VLAN=" ++ v.name ++ "\n" ++ childLines after))) ∧
      ((∃ b ∈ pre ++ v :: post, b.kind = .interfaceBond ∧ b.name = r) →
        (∃ b, InterfaceGenerator.bond b ∈ nodes ∧ b.logical.name = r) ∧
        ∀ b, InterfaceGenerator.bond b ∈ nodes → b.logical.name = r →
          ∃ before after,
            b.logical.children = before ++ ⟨.interfaceVLAN, v.name⟩ :: after ∧
            b.Network =
              "[Match]\nName=" ++ r ++ "\n\n[Network]\nDHCP=true\n" ++
                (childLines before ++ ("VLAN=" ++ v.name ++ "\n" ++ childLines after))) ∧
      ((¬ ∃ p ∈ pre ++ v :: post, p.kind = .interfacePhysical ∧ p.name = r ∧ r ≠ "lo") →
        (¬ ∃ b ∈ pre ++ v :: post, b.kind = .interfaceBond ∧ b.name = r) →
        ∀ n ∈ nodes, (⟨.interfaceVLAN, v.name⟩ : Child) ∉ n.children) := by
  obtain ⟨vlans, hbv⟩ := buildVlans_of_dotted o (pre ++ v :: post) hvlan
  obtain ⟨vn, hvn, hvl, hvraw⟩ := vlans_last o ho pre post v vlans hv hlast hbv
  have hraw : vn.rawDevice = r := by
    rw [hvraw]
    simp [rawDeviceOf, hr]
  have hchild := vlan_child_iff o ho (pre ++ v :: post) vlans hbv v.name vn hvn
  rw [hraw] at hchild
  refine ⟨_, buildInterfaces_eq o _ vlans hbv, ?_, ?_, ?_, ?_⟩
  · refine ⟨vn, ?_, by rw [hvl]⟩
    simp only [List.mem_append, List.mem_map]
    exact Or.inr ⟨(v.name, vn), Map.mem_range_of_get o ho 7 _ _ _ hvn, rfl⟩
  · intro hp hlo
    constructor
    · obtain ⟨p0, hp0⟩ := nodePools_fst_present o ho _ r hlo hp
      have hname := (nodePools_fst_name o _ r p0 hp0).1
      have hget := linkedPools_fst o (pre ++ v :: post) vlans r
      rw [hp0] at hget
      simp only [Option.map_some'] at hget
      refine ⟨⟨p0.logical.addChildren
        (vlanChildrenOf r (Map.range o 3 vlans) ++
          bondChildrenOf r (Map.range o 4 (vlanLinkedPools o (pre ++ v :: post) vlans).2))⟩,
        ?_, ?_⟩
      · simp only [List.mem_append, List.mem_map]
        exact Or.inl (Or.inl ⟨(r, _), Map.mem_range_of_get o ho 5 _ _ _ hget, rfl⟩)
      · simpa [LogicalInterface.addChildren] using hname
    · intro p hmem hpname
      simp only [List.mem_append, List.mem_map, reduceCtorEq, and_false, exists_false,
        or_false, InterfaceGenerator.physical.injEq] at hmem
      obtain ⟨e, he, hep⟩ := hmem
      have hget := Map.get_of_mem_range o 5 _ e.1 e.2 he
      rw [hep, linkedPools_fst] at hget
      cases hp0 : Map.get (nodePools o (pre ++ v :: post)).1 e.1 with
      | none => simp [hp0] at hget
      | some p0 =>
        rw [hp0] at hget
        simp only [Option.map_some', Option.some.injEq] at hget
        obtain ⟨hn0, _, hc0⟩ := nodePools_fst_name o _ e.1 p0 hp0
        have hk : e.1 = r := by
          rw [← hpname, ← hget, ← hn0]
          rfl
        have hmemc : (⟨.interfaceVLAN, v.name⟩ : Child) ∈ p.logical.children := by
          rw [← hget, hk]
          simp only [LogicalInterface.addChildren, List.mem_append]
          exact Or.inr (Or.inl ((hchild r).mpr rfl))
        obtain ⟨before, after, hsplit⟩ := List.append_of_mem hmemc
        refine ⟨before, after, hsplit, ?_⟩
        rw [PhysicalInterface.Network, hsplit, hpname, childLines_append]
        rfl
  · intro hb
    constructor
    · obtain ⟨b0, hb0⟩ := nodePools_snd_present o ho _ r hb
      have hname := (nodePools_snd_origin o _ r b0 hb0).1
      have hget := linkedPools_snd o (pre ++ v :: post) vlans r
      rw [hb0] at hget
      simp only [Option.map_some'] at hget
      refine ⟨⟨b0.logical.addChildren
        (vlanChildrenOf r (Map.range o 3 vlans) ++
          selfChildrenOf r b0.logical.name
            (Map.range o 4 (vlanLinkedPools o (pre ++ v :: post) vlans).2)), b0.slaves⟩,
        ?_, ?_⟩
      · simp only [List.mem_append, List.mem_map]
        exact Or.inl (Or.inr ⟨(r, _), Map.mem_range_of_get o ho 6 _ _ _ hget, rfl⟩)
      · simpa [LogicalInterface.addChildren] using hname
    · intro b hmem hbname
      simp only [List.mem_append, List.mem_map, reduceCtorEq, and_false, exists_false,
        or_false, false_or, InterfaceGenerator.bond.injEq] at hmem
      obtain ⟨e, he, heb⟩ := hmem
      have hget := Map.get_of_mem_range o 6 _ e.1 e.2 he
      rw [heb, linkedPools_snd] at hget
      cases hb0 : Map.get (nodePools o (pre ++ v :: post)).2 e.1 with
      | none => simp [hb0] at hget
      | some b0 =>
        rw [hb0] at hget
        simp only [Option.map_some', Option.some.injEq] at hget
        obtain ⟨hn0, hc0, _⟩ := nodePools_snd_origin o _ e.1 b0 hb0
        have hk : e.1 = r := by
          rw [← hbname, ← hget, ← hn0]
          rfl
        have hmemc : (⟨.interfaceVLAN, v.name⟩ : Child) ∈ b.logical.children := by
          rw [← hget, hk]
          simp only [LogicalInterface.addChildren, List.mem_append]
          exact Or.inr (Or.inl ((hchild r).mpr rfl))
        obtain ⟨before, after, hsplit⟩ := List.append_of_mem hmemc
        refine ⟨before, after, hsplit, ?_⟩
        rw [BondInterface.Network, hsplit, hbname, childLines_append]
        rfl
  · intro hnp hnb n hn hmem
    simp only [List.mem_append, List.mem_map] at hn
    rcases hn with (⟨e, he, hen⟩ | ⟨e, he, hen⟩) | ⟨e, he, hen⟩
    · subst hen
      have hget := Map.get_of_mem_range o 5 _ e.1 e.2 he
      rw [linkedPools_fst] at hget
      cases hp0 : Map.get (nodePools o (pre ++ v :: post)).1 e.1 with
      | none => simp [hp0] at hget
      | some p0 =>
        rw [hp0] at hget
        simp only [Option.map_some', Option.some.injEq] at hget
        obtain ⟨_, hlo, hc0⟩ := nodePools_fst_name o _ e.1 p0 hp0
        obtain ⟨x, hx, hxk, hxn⟩ := nodePools_fst_origin o _ e.1 p0 hp0
        rw [InterfaceGenerator.children, ← hget] at hmem
        simp only [LogicalInterface.addChildren, hc0, List.nil_append, List.mem_append] at hmem
        rcases hmem with hmem | hmem
        · have hk := (hchild e.1).mp hmem
          exact hnp ⟨x, hx, hxk, hk ▸ hxn, hk ▸ hlo⟩
        · have := kind_of_mem_bondChildrenOf _ _ _ hmem
          cases this
    · subst hen
      have hget := Map.get_of_mem_range o 6 _ e.1 e.2 he
      rw [linkedPools_snd] at hget
      cases hb0 : Map.get (nodePools o (pre ++ v :: post)).2 e.1 with
      | none => simp [hb0] at hget
      | some b0 =>
        rw [hb0] at hget
        simp only [Option.map_some', Option.some.injEq] at hget
        obtain ⟨_, hc0, x, hx, hxk, hxn, _⟩ := nodePools_snd_origin o _ e.1 b0 hb0
        rw [InterfaceGenerator.children, ← hget] at hmem
        simp only [LogicalInterface.addChildren, hc0, List.nil_append, List.mem_append] at hmem
        rcases hmem with hmem | hmem
        · have hk := (hchild e.1).mp hmem
          exact hnb ⟨x, hx, hxk, hk ▸ hxn⟩
        · have := kind_of_mem_selfChildrenOf _ _ _ _ hmem
          cases this
    · subst hen
      have hget := Map.get_of_mem_range o 7 _ e.1 e.2 he
      have hc := (vlans_origin o _ vlans hbv e.1 e.2 hget).2.1
      rw [InterfaceGenerator.children, hc] at hmem
      simp at hmem

theorem vlan_attached_to_raw_device_witness :
    ∃ nodes,
      buildInterfaces insertionOrder
          ([⟨"eth1", .interfacePhysical, false, .manual, []⟩] ++
            (⟨"eth1.7", .interfaceVLAN, false, .manual,
              [("vlan_raw_device", ["eth1"]), ("id", ["7"]), ("raw_device", ["eth1"])]⟩ :
              StanzaInterface) :: []) = .ok nodes ∧
      (∃ vn, InterfaceGenerator.vlan vn ∈ nodes ∧ vn.logical.name = "eth1.7") ∧
      (∃ p, InterfaceGenerator.physical p ∈ nodes ∧ p.logical.name = "eth1") ∧
      ∀ p, InterfaceGenerator.physical p ∈ nodes → p.logical.name = "eth1" →
        ∃ before after,
          p.logical.children = before ++ ⟨.interfaceVLAN, "eth1.7"⟩ :: after ∧
          p.Network =
            "[Match]\nName=" ++ "eth1" ++ "\n\n[Network]\n" ++
              (childLines before ++ ("VLAN=" ++ "eth1.7" ++ "\n" ++ childLines after)) := by
  obtain ⟨nodes, h1, h2, h3, _⟩ :=
    vlan_attached_to_raw_device insertionOrder insertionOrder_valid
      [⟨"eth1", .interfacePhysical, false, .manual, []⟩] []
      ⟨"eth1.7", .interfaceVLAN, false, .manual,
        [("vlan_raw_device", ["eth1"]), ("id", ["7"]), ("raw_device", ["eth1"])]⟩
      "eth1" rfl (by decide) (by decide) (by decide)
  exact ⟨nodes, h1, h2,
    h3 ⟨⟨"eth1", .interfacePhysical, false, .manual, []⟩, by decide, rfl, rfl⟩ (by decide)⟩

/-- C12, counterexample. The VLAN `eth0.7` is declared with the raw device
`eth1` and declared again with the raw device `eth2`, and `eth1` is declared
as a physical interface: the map of VLAN stanzas keeps the last declaration
of a name, and the Network() fragment of the node of `eth1` has no line
`VLAN=eth0.7`. -/
theorem vlan_redeclared_not_attached :
    parseInterfaceStanza ipv4Lib ["eth0.7", "inet", "manual"] ["vlan_raw_device eth1"] =
        .ok ⟨"eth0.7", .interfaceVLAN, false, .manual,
          [("vlan_raw_device", ["eth1"]), ("id", ["7"]), ("raw_device", ["eth1"])]⟩ ∧
      parseInterfaceStanza ipv4Lib ["eth0.7", "inet", "manual"] ["vlan_raw_device eth2"] =
        .ok ⟨"eth0.7", .interfaceVLAN, false, .manual,
          [("vlan_raw_device", ["eth2"]), ("id", ["7"]), ("raw_device", ["eth2"])]⟩ ∧
      (buildInterfaces insertionOrder
          [⟨"eth0.7", .interfaceVLAN, false, .manual,
              [("vlan_raw_device", ["eth1"]), ("id", ["7"]), ("raw_device", ["eth1"])]⟩,
            ⟨"eth0.7", .interfaceVLAN, false, .manual,
              [("vlan_raw_device", ["eth2"]), ("id", ["7"]), ("raw_device", ["eth2"])]⟩,
            ⟨"eth1", .interfacePhysical, false, .manual, []⟩]).map
          (fun nodes => nodes.map (fun n => (n.Name, n.Network ipv4Lib))) =
        .ok [("eth1", "[Match]\nName=eth1\n\n[Network]\n"),
          ("eth0.7", "[Match]\nName=eth0.7\n\n[Network]\n")] := by
  decide

/-! ### A bond among the slaves of a bond (C11) -/

/-- C11, at the failing input. The bond `bond0` is declared with the slave
`bond1`, and `bond1` is declared as a bond: `buildInterfaces` attaches `bond1`
to itself, not `bond0` to `bond1`, and the Network() fragment of `bond1` has
the line `Bond=bond1` and no line `Bond=bond0`. -/
theorem bond_slave_bond_attached_to_itself :
    parseInterfaceStanza ipv4Lib ["bond0", "inet", "manual"] ["bond-slaves bond1"] =
        .ok ⟨"bond0", .interfaceBond, false, .manual,
          [("bond-slaves", ["bond1"]), ("slaves", ["bond1"])]⟩ ∧
      parseInterfaceStanza ipv4Lib ["bond1", "inet", "manual"] ["bond-slaves eth0"] =
        .ok ⟨"bond1", .interfaceBond, false, .manual,
          [("bond-slaves", ["eth0"]), ("slaves", ["eth0"])]⟩ ∧
      (buildInterfaces insertionOrder
          [⟨"bond0", .interfaceBond, false, .manual,
              [("bond-slaves", ["bond1"]), ("slaves", ["bond1"])]⟩,
            ⟨"bond1", .interfaceBond, false, .manual,
              [("bond-slaves", ["eth0"]), ("slaves", ["eth0"])]⟩]).map
          (fun nodes => nodes.map (fun n => (n.Name, n.children, n.Network ipv4Lib))) =
        .ok [("bond0", [], "[Match]\nName=bond0\n\n[Network]\nDHCP=true\n"),
          ("bond1", [⟨.interfaceBond, "bond1"⟩],
            "[Match]\nName=bond1\n\n[Network]\nDHCP=true\nBond=bond1\n")] := by
  decide

/-! ### The physical nodes (C13) -/

theorem physical_nodes_except_lo (o : RangeOrder) (ho : o.Valid)
    (stanzas : List StanzaInterface)
    (hvlan : ∀ x ∈ stanzas, x.kind = .interfaceVLAN → '.' ∈ x.name.data) :
    ∃ nodes, buildInterfaces o stanzas = .ok nodes ∧
      (∀ p, InterfaceGenerator.physical p ∈ nodes → p.logical.name ≠ "lo") ∧
      ∀ d ∈ stanzas, d.kind = .interfacePhysical → d.name ≠ "lo" →
        ∃ p, InterfaceGenerator.physical p ∈ nodes ∧ p.logical.name = d.name := by
  obtain ⟨vlans, hbv⟩ := buildVlans_of_dotted o stanzas hvlan
  refine ⟨_, buildInterfaces_eq o _ vlans hbv, ?_, ?_⟩
  · intro p hmem
    simp only [List.mem_append, List.mem_map, reduceCtorEq, and_false, exists_false,
      or_false, InterfaceGenerator.physical.injEq] at hmem
    obtain ⟨e, he, hep⟩ := hmem
    have hget := Map.get_of_mem_range o 5 _ e.1 e.2 he
    rw [hep, linkedPools_fst] at hget
    cases hp0 : Map.get (nodePools o stanzas).1 e.1 with
    | none => simp [hp0] at hget
    | some p0 =>
      rw [hp0] at hget
      simp only [Option.map_some', Option.some.injEq] at hget
      obtain ⟨hn0, hlo, _⟩ := nodePools_fst_name o _ e.1 p0 hp0
      rw [← hget]
      simpa [LogicalInterface.addChildren, hn0] using hlo
  · intro d hd hk hlo
    obtain ⟨p0, hp0⟩ := nodePools_fst_present o ho _ d.name hlo ⟨d, hd, hk, rfl⟩
    have hname := (nodePools_fst_name o _ d.name p0 hp0).1
    have hget := linkedPools_fst o stanzas vlans d.name
    rw [hp0] at hget
    simp only [Option.map_some'] at hget
    refine ⟨⟨p0.logical.addChildren
      (vlanChildrenOf d.name (Map.range o 3 vlans) ++
        bondChildrenOf d.name (Map.range o 4 (vlanLinkedPools o stanzas vlans).2))⟩, ?_, ?_⟩
    · simp only [List.mem_append, List.mem_map]
      exact Or.inl (Or.inl ⟨(d.name, _), Map.mem_range_of_get o ho 5 _ _ _ hget, rfl⟩)
    · simpa [LogicalInterface.addChildren] using hname

/-- C13, at the failing input. The physical interface `eth1` is declared
together with the VLAN `vlan7`, which `parseInterfaceStanza` accepts:
`buildInterfaces` panics in the loop over the VLAN stanzas and returns no
node, so `eth1` does not appear as a node. -/
theorem physical_node_lost_on_panic :
    parseInterfaceStanza ipv4Lib ["eth1", "inet", "manual"] [] =
        .ok ⟨"eth1", .interfacePhysical, false, .manual, []⟩ ∧
      parseInterfaceStanza ipv4Lib ["vlan7", "inet", "manual"] ["vlan_raw_device eth1"] =
        .ok ⟨"vlan7", .interfaceVLAN, false, .manual,
          [("vlan_raw_device", ["eth1"]), ("id", ["7"]), ("raw_device", ["eth1"])]⟩ ∧
      buildInterfaces insertionOrder
          [⟨"eth1", .interfacePhysical, false, .manual, []⟩,
            ⟨"vlan7", .interfaceVLAN, false, .manual,
              [("vlan_raw_device", ["eth1"]), ("id", ["7"]), ("raw_device", ["eth1"])]⟩] =
        .error .panicIndexOutOfRange := by
  decide


/-! ### The option map of `parseInterfaceStanza` (C21, C22, C23) -/

theorem parseOptionsFrom_append (xs ys : List String) :
    ∀ m : OptionMap, parseOptionsFrom m (xs ++ ys) =
      match parseOptionsFrom m xs with
      | .error e => .error e
      | .ok m1 => parseOptionsFrom m1 ys := by
  induction xs with
  | nil => intro m; rfl
  | cons x xs ih =>
    intro m
    simp only [List.cons_append, parseOptionsFrom]
    cases parseOption m x with
    | error e => rfl
    | ok m1 => exact ih m1

theorem parseOption_bare_postup (m : OptionMap) :
    parseOption m "post-up" = .error .panicIndexOutOfRange := by
  have h1 : HasPrefix "post-up" "post-up" = true := by decide
  have h2 : (SplitAfterN2 "post-up").get? 1 = none := by decide
  simp only [parseOption, h1, h2, if_true]

theorem parseOption_bare_predown (m : OptionMap) :
    parseOption m "pre-down" = .error .panicIndexOutOfRange := by
  have h0 : HasPrefix "pre-down" "post-up" = false := by decide
  have h1 : HasPrefix "pre-down" "pre-down" = true := by decide
  have h2 : (SplitAfterN2 "pre-down").get? 1 = none := by decide
  simp only [parseOption, h0, h1, h2, if_true, if_false, Bool.false_eq_true]

/-- C21 (defect). An option line that is `post-up` or `pre-down` alone, with no
value, makes `parseInterfaceStanza` panic with an index out of range
(`tokens[1]` of a slice of one element), whatever the lines after it, where
the claim has it contribute nothing and cause no failure. -/
theorem bare_postup_line_panics (L : NetLib) (iface family method : String)
    (before after : List String) (m : OptionMap) (hbefore : parseOptions before = .ok m) :
    parseInterfaceStanza L [iface, family, method] (before ++ "post-up" :: after) =
        .error .panicIndexOutOfRange ∧
      parseInterfaceStanza L [iface, family, method] (before ++ "pre-down" :: after) =
        .error .panicIndexOutOfRange := by
  unfold parseOptions at hbefore
  constructor
  · simp only [parseInterfaceStanza, parseOptions, parseOptionsFrom_append, hbefore,
      parseOptionsFrom, parseOption_bare_postup]
  · simp only [parseInterfaceStanza, parseOptions, parseOptionsFrom_append, hbefore,
      parseOptionsFrom, parseOption_bare_predown]

theorem bare_postup_line_panics_witness :
    parseOptions [] = .ok [] ∧
      parseInterfaceStanza ipv4Lib ["eth", "inet", "manual"]
          ([] ++ "post-up" :: ["post-up 1 2", "post-up 3 4"]) = .error .panicIndexOutOfRange ∧
      parseInterfaceStanza ipv4Lib ["eth", "inet", "manual"]
          ([] ++ "pre-down" :: ["post-up 1 2", "post-up 3 4"]) = .error .panicIndexOutOfRange :=
  ⟨rfl, bare_postup_line_panics ipv4Lib "eth" "inet" "manual" []
    ["post-up 1 2", "post-up 3 4"] [] rfl⟩

theorem fieldsChars_singleton (c : Char) :
    fieldsChars [c] = if isSpace c then [] else [[c]] := by
  rfl

theorem fieldsChars_cons_cons (c d : Char) (l : List Char) :
    fieldsChars (c :: d :: l) =
      if isSpace c then fieldsChars (d :: l)
      else if isSpace d then [c] :: fieldsChars (d :: l)
      else
        match fieldsChars (d :: l) with
        | [] => [[c]]
        | w :: ws => (c :: w) :: ws := by
  rfl

theorem fieldsChars_cons_nonspace (c : Char) (l : List Char) (hc : isSpace c = false) :
    ∃ w ws, fieldsChars (c :: l) = (c :: w) :: ws := by
  cases l with
  | nil =>
    rw [fieldsChars_singleton]
    exact ⟨[], [], by simp [hc]⟩
  | cons d l =>
    rw [fieldsChars_cons_cons]
    cases hd : isSpace d with
    | true => exact ⟨[], fieldsChars (d :: l), by simp [hc]⟩
    | false =>
      cases fieldsChars (d :: l) with
      | nil => exact ⟨[], [], by simp [hc]⟩
      | cons w ws => exact ⟨w, ws, by simp [hc]⟩

theorem fieldsChars_cons_cons_nonspace (c d : Char) (l w : List Char) (ws : List (List Char))
    (hc : isSpace c = false) (hd : isSpace d = false) (h : fieldsChars (d :: l) = w :: ws) :
    fieldsChars (c :: d :: l) = (c :: w) :: ws := by
  rw [fieldsChars_cons_cons]
  simp only [hc, hd, h, Bool.false_eq_true, if_false]

theorem fieldsChars_head_starts (p : List Char) (hns : ∀ c ∈ p, isSpace c = false) :
    ∀ l : List Char, p ≠ [] → p <+: l → ∃ w ws, fieldsChars l = w :: ws ∧ p <+: w := by
  induction p with
  | nil => intro l h; exact absurd rfl h
  | cons c p ih =>
    intro l _ hpre
    obtain ⟨t, rfl⟩ := hpre
    have hc : isSpace c = false := hns c (List.mem_cons_self _ _)
    cases p with
    | nil =>
      obtain ⟨w, ws, h⟩ := fieldsChars_cons_nonspace c ([] ++ t) hc
      exact ⟨c :: w, ws, h, by simp⟩
    | cons d p =>
      have hd : isSpace d = false := hns d (by simp)
      obtain ⟨w, ws, h, hw⟩ := ih (fun x hx => hns x (List.mem_cons_of_mem _ hx))
        (d :: p ++ t) (by simp) (List.prefix_append _ _)
      refine ⟨c :: w, ws, ?_, ?_⟩
      · exact fieldsChars_cons_cons_nonspace c d (p ++ t) w ws hc hd h
      · obtain ⟨u, rfl⟩ := hw
        exact ⟨u, rfl⟩

theorem HasPrefix_key_of_line (line p k : String) (values : List String)
    (hns : ∀ c ∈ p.data, isSpace c = false) (hp : p.data ≠ [])
    (hline : Fields line = k :: values) (h : HasPrefix line p = true) :
    HasPrefix k p = true := by
  rw [HasPrefix_iff] at h ⊢
  obtain ⟨w, ws, hf, hw⟩ := fieldsChars_head_starts p.data hns line.data hp h
  simp only [Fields, hf, List.map_cons, List.cons.injEq] at hline
  rw [← hline.1]
  exact hw

theorem parseOption_key (m : OptionMap) (line k : String) (values : List String)
    (hline : Fields line = k :: values)
    (hpost : HasPrefix k "post-up" = false) (hpre : HasPrefix k "pre-down" = false) :
    parseOption m line = .ok (Map.set m k values) := by
  have h1 : HasPrefix line "post-up" = false := by
    cases h : HasPrefix line "post-up"
    · rfl
    · have := HasPrefix_key_of_line line "post-up" k values (by decide) (by decide) hline h
      rw [hpost] at this
      cases this
  have h2 : HasPrefix line "pre-down" = false := by
    cases h : HasPrefix line "pre-down"
    · rfl
    · have := HasPrefix_key_of_line line "pre-down" k values (by decide) (by decide) hline h
      rw [hpre] at this
      cases this
  simp only [parseOption, h1, h2, hline, if_false, Bool.false_eq_true]

theorem parseOption_get_other (m m1 : OptionMap) (line k : String)
    (h : parseOption m line = .ok m1) (hk : (Fields line).head? ≠ some k)
    (hpost : k ≠ "post-up") (hpre : k ≠ "pre-down") : Map.get m1 k = Map.get m k := by
  unfold parseOption at h
  generalize (SplitAfterN2 line).get? 1 = r at h
  cases h1 : HasPrefix line "post-up" with
  | true =>
    cases r with
    | none => simp [h1] at h
    | some value =>
      cases hg : Map.get m "post-up" <;> simp only [h1, hg, if_true, Except.ok.injEq] at h <;>
        (rw [← h]; exact Map.get_set_other _ _ _ _ hpost)
  | false =>
    cases h2 : HasPrefix line "pre-down" with
    | true =>
      cases r with
      | none => simp [h1, h2] at h
      | some value =>
        cases hg : Map.get m "pre-down" <;>
          simp only [h1, h2, hg, if_true, if_false, Bool.false_eq_true, Except.ok.injEq] at h <;>
          (rw [← h]; exact Map.get_set_other _ _ _ _ hpre)
    | false =>
      cases hf : Fields line with
      | nil => simp [h1, h2, hf] at h
      | cons key values =>
        rw [hf] at hk
        simp only [h1, h2, hf, if_false, Bool.false_eq_true, Except.ok.injEq] at h
        rw [← h]
        refine Map.get_set_other _ _ _ _ ?_
        intro hkk
        exact hk (by simp [hkk])

theorem parseOptionsFrom_get_other (after : List String) (k : String)
    (hlast : ∀ l ∈ after, (Fields l).head? ≠ some k)
    (hpost : k ≠ "post-up") (hpre : k ≠ "pre-down") :
    ∀ m m1 : OptionMap, parseOptionsFrom m after = .ok m1 → Map.get m1 k = Map.get m k := by
  induction after with
  | nil =>
    intro m m1 h
    simp only [parseOptionsFrom, Except.ok.injEq] at h
    rw [h]
  | cons l after ih =>
    intro m m1 h
    simp only [parseOptionsFrom] at h
    cases hl : parseOption m l with
    | error e => simp [hl] at h
    | ok m2 =>
      rw [hl] at h
      rw [ih (fun x hx => hlast x (List.mem_cons_of_mem _ hx)) m2 m1 h]
      exact parseOption_get_other m m2 l k hl (hlast l (List.mem_cons_self _ _)) hpost hpre

theorem classify_options (iface : String) (conf : ConfigMethod) (attributes : List String)
    (m : OptionMap) (d : StanzaInterface) (k : String)
    (h : classify iface conf attributes m = .ok d)
    (hid : k ≠ "id") (hraw : k ≠ "raw_device") (hslaves : k ≠ "slaves") :
    Map.get d.options k = Map.get m k ∧ d.configMethod = conf := by
  rw [classify_eq] at h
  by_cases h1 : (Map.get m "vlan_raw_device").isSome = true ∨ '.' ∈ iface.data
  · rw [if_pos h1] at h
    obtain ⟨id, _, _, hd⟩ := parseVLANStanza_ok iface conf attributes m d h
    subst hd
    simp only [vlanDeclaration]
    rw [Map.get_set_other _ _ _ _ hraw, Map.get_set_other _ _ _ _ hid]
    exact ⟨rfl, trivial⟩
  · rw [if_neg h1] at h
    by_cases h2 : (Map.get m "bond-slaves").isSome = true
    · rw [if_pos h2] at h
      simp only [parseBondStanza, Except.ok.injEq] at h
      subst h
      exact ⟨Map.get_set_other _ _ _ _ hslaves, rfl⟩
    · rw [if_neg h2] at h
      simp only [parsePhysicalStanza, Except.ok.injEq] at h
      subst h
      exact ⟨rfl, rfl⟩

/-- C22 (as amended). When `parseInterfaceStanza` accepts a stanza, and the
key `k` is the first whitespace-delimited token of an option line, does not
begin with `post-up` or `pre-down`, and is the key of no later line, the option
map built from the lines holds for `k` exactly the tokens that follow `k` on
that line (the empty sequence, not absence, when none follows); the same holds
of the options of the returned declaration when `k` is none of `id`,
`raw_device`, `slaves`, which the classification writes. -/
theorem option_last_line_wins (L : NetLib) (attributes before after : List String)
    (line k : String) (values : List String) (d : StanzaInterface)
    (hparse : parseInterfaceStanza L attributes (before ++ line :: after) = .ok d)
    (hline : Fields line = k :: values)
    (hlast : ∀ l ∈ after, (Fields l).head? ≠ some k)
    (hpost : HasPrefix k "post-up" = false) (hpre : HasPrefix k "pre-down" = false) :
    (∃ m, parseOptions (before ++ line :: after) = .ok m ∧ Map.get m k = some values) ∧
      (k ≠ "id" → k ≠ "raw_device" → k ≠ "slaves" → Map.get d.options k = some values) := by
  have hk1 : k ≠ "post-up" := by
    intro h
    rw [h] at hpost
    exact absurd hpost (by decide)
  have hk2 : k ≠ "pre-down" := by
    intro h
    rw [h] at hpre
    exact absurd hpre (by decide)
  unfold parseInterfaceStanza at hparse
  match attributes, hparse with
  | [iface, _family, confMethod], hparse =>
    simp only at hparse
    cases hm : parseOptions (before ++ line :: after) with
    | error e => simp [hm] at hparse
    | ok m =>
      have hget : Map.get m k = some values := by
        unfold parseOptions at hm
        rw [parseOptionsFrom_append] at hm
        cases hb : parseOptionsFrom [] before with
        | error e => simp [hb] at hm
        | ok m0 =>
          simp only [hb, parseOptionsFrom, parseOption_key m0 line k values hline hpost hpre]
            at hm
          rw [parseOptionsFrom_get_other after k hlast hk1 hk2 _ m hm]
          exact Map.get_set_self _ _ _
      refine ⟨⟨m, rfl, hget⟩, ?_⟩
      intro hid hraw hslaves
      rw [hm] at hparse
      simp only at hparse
      cases hc : configOf L confMethod iface m with
      | error e => simp [hc] at hparse
      | ok conf =>
        rw [hc] at hparse
        simp only at hparse
        rw [(classify_options iface conf _ m d k hparse hid hraw hslaves).1]
        exact hget

theorem option_last_line_wins_witness :
    (∃ m, parseOptions (["mtu 1500", "post-up x"] ++ "mtu" :: ["dns-search a b"]) = .ok m ∧
        Map.get m "mtu" = some []) ∧
      ("mtu" ≠ "id" → "mtu" ≠ "raw_device" → "mtu" ≠ "slaves" →
        Map.get (StanzaInterface.mk "eth0" .interfacePhysical false .manual
          [("mtu", []), ("post-up", ["x"]), ("dns-search", ["a", "b"])]).options "mtu" =
            some []) :=
  option_last_line_wins ipv4Lib ["eth0", "inet", "manual"] ["mtu 1500", "post-up x"]
    ["dns-search a b"] "mtu" "mtu" [] _ (by decide) (by decide) (by decide) (by decide)
    (by decide)

/-- C22 (counterexample). The key `post-upx` of the option line `post-upx 1 2`
is other than `post-up` and `pre-down`, yet the option map holds nothing for
it: the line begins with `post-up`, so its text after the first space is
stored under `post-up`. And the key `id` of the line `id 5` of the VLAN stanza
`eth0.7` holds the VLAN id `7` in the returned declaration. -/
theorem option_key_beginning_with_postup :
    Fields "post-upx 1 2" = ["post-upx", "1", "2"] ∧
      "post-upx" ≠ "post-up" ∧ "post-upx" ≠ "pre-down" ∧
      parseOptions ["post-upx 1 2"] = .ok [("post-up", ["1 2"])] ∧
      parseInterfaceStanza ipv4Lib ["eth0", "inet", "manual"] ["post-upx 1 2"] =
        .ok ⟨"eth0", .interfacePhysical, false, .manual, [("post-up", ["1 2"])]⟩ ∧
      Map.get [("post-up", ["1 2"])] "post-upx" = none ∧
      Fields "id 5" = ["id", "5"] ∧
      parseInterfaceStanza ipv4Lib ["eth0.7", "inet", "manual"] ["id 5"] =
        .ok ⟨"eth0.7", .interfaceVLAN, false, .manual, [("id", ["7"]), ("raw_device", [])]⟩ := by
  decide

/-- C23. When `parseInterfaceStanza` accepts a static stanza, the name servers
of the resulting static method are the values of the option `dns-nameservers`
parsed one by one, in the same order: one entry per value, and none when the
option is absent. -/
theorem nameservers_one_per_value (L : NetLib) (iface family : String)
    (options : List String) (m : OptionMap) (d : StanzaInterface)
    (hopt : parseOptions options = .ok m)
    (hparse : parseInterfaceStanza L [iface, family, "static"] options = .ok d) :
    ∃ conf, d.configMethod = .static conf ∧
      conf.nameservers = (Map.getD m "dns-nameservers").map (ParseIP L) ∧
      conf.nameservers.length = (Map.getD m "dns-nameservers").length ∧
      (Map.get m "dns-nameservers" = none → conf.nameservers = []) := by
  rw [parseInterfaceStanza_static L iface family options m hopt] at hparse
  cases hs : staticConfig L iface m with
  | error e => simp [hs] at hparse
  | ok c =>
    rw [hs] at hparse
    simp only at hparse
    have hc := (classify_options iface c _ m d "" hparse (by decide) (by decide)
      (by decide)).2
    unfold staticConfig at hs
    simp only at hs
    split at hs
    · cases hs
    · split at hs
      · cases hs
      · simp only [Except.ok.injEq] at hs
        refine ⟨_, by rw [hc, ← hs], rfl, by simp, ?_⟩
        intro hnone
        simp [Map.getD, hnone]

theorem nameservers_one_per_value_witness :
    parseOptions ["address 10.0.0.2", "netmask 255.255.255.0",
        "dns-nameservers 8.8.8.8 8.8.4.4 x"] =
        .ok [("address", ["10.0.0.2"]), ("netmask", ["255.255.255.0"]),
          ("dns-nameservers", ["8.8.8.8", "8.8.4.4", "x"])] ∧
      ∃ conf, (StanzaInterface.mk "eth0" .interfacePhysical false
          (.static ⟨⟨some (IPv4 10 0 0 2), some (IPv4 255 255 255 0)⟩,
            [some (IPv4 8 8 8 8), some (IPv4 8 8 4 4), none], []⟩)
          [("address", ["10.0.0.2"]), ("netmask", ["255.255.255.0"]),
            ("dns-nameservers", ["8.8.8.8", "8.8.4.4", "x"])]).configMethod = .static conf ∧
        conf.nameservers =
          (Map.getD [("address", ["10.0.0.2"]), ("netmask", ["255.255.255.0"]),
            ("dns-nameservers", ["8.8.8.8", "8.8.4.4", "x"])] "dns-nameservers").map
            (ParseIP ipv4Lib) ∧
        conf.nameservers.length =
          (Map.getD [("address", ["10.0.0.2"]), ("netmask", ["255.255.255.0"]),
            ("dns-nameservers", ["8.8.8.8", "8.8.4.4", "x"])] "dns-nameservers").length ∧
        (Map.get [("address", ["10.0.0.2"]), ("netmask", ["255.255.255.0"]),
            ("dns-nameservers", ["8.8.8.8", "8.8.4.4", "x"])] "dns-nameservers" = none →
          conf.nameservers = []) :=
  ⟨by decide, nameservers_one_per_value ipv4Lib "eth0" "inet"
    ["address 10.0.0.2", "netmask 255.255.255.0", "dns-nameservers 8.8.8.8 8.8.4.4 x"]
    _ _ (by decide) (by decide)⟩

/-! ### The fragments of a node (C24, C25, C26) -/

theorem String_join_cons (s : String) (l : List String) :
    String.join (s :: l) = s ++ String.join l := by
  apply String.ext
  simp [String.data_join, String.data_append]

theorem childLines_eq_join (children : List Child) :
    childLines children = String.join (children.map childLine) := by
  induction children with
  | nil => rfl
  | cons c cs ih =>
    rw [List.map_cons, String_join_cons, ← ih]
    cases c with
    | mk kind name => cases kind <;> rfl

theorem dnsLines_eq_join (L : NetLib) (nameservers : List IP) :
    dnsLines L nameservers =
      String.join (nameservers.map (fun ip => "DNS=" ++ IP.String L ip ++ "\n")) := by
  induction nameservers with
  | nil => rfl
  | cons ip ips ih =>
    rw [List.map_cons, String_join_cons, ← ih]
    rfl

theorem routeSections_eq_join (L : NetLib) (routes : List Route) :
    routeSections L routes =
      String.join (routes.map (fun route =>
        "\n[Route]\nDestination=" ++ IPNet.String L route.destination ++ "\nGateway=" ++
          IP.String L route.gateway ++ "\n")) := by
  induction routes with
  | nil => rfl
  | cons r rs ih =>
    rw [List.map_cons, String_join_cons, ← ih]
    rfl

/-- C24. For every name, configuration method and list of dependents, the
network fragment of a physical node is the header
`[Match]\nName=<name>\n\n[Network]\n` followed by one line per dependent in
list order, `VLAN=<depName>` for a VLAN and `Bond=<depName>` for a bond; the
fragment of a bond node is the same text with the line `DHCP=true` directly
after `[Network]`; and neither depends on the configuration method. -/
theorem physical_bond_network (name : String) (config other : ConfigMethod)
    (children : List Child) (slaves : List String) :
    (PhysicalInterface.mk ⟨name, config, children⟩).Network =
        "[Match]\nName=" ++ name ++ "\n\n[Network]\n" ++
          String.join (children.map childLine) ∧
      (BondInterface.mk ⟨name, config, children⟩ slaves).Network =
        "[Match]\nName=" ++ name ++ "\n\n[Network]\n" ++ "DHCP=true\n" ++
          String.join (children.map childLine) ∧
      (∀ depName, childLine ⟨.interfaceVLAN, depName⟩ = "VLAN=" ++ depName ++ "\n" ∧
        childLine ⟨.interfaceBond, depName⟩ = "Bond=" ++ depName ++ "\n") ∧
      (PhysicalInterface.mk ⟨name, config, children⟩).Network =
        (PhysicalInterface.mk ⟨name, other, children⟩).Network ∧
      (BondInterface.mk ⟨name, config, children⟩ slaves).Network =
        (BondInterface.mk ⟨name, other, children⟩ slaves).Network := by
  refine ⟨?_, ?_, fun _ => ⟨rfl, rfl⟩, rfl, rfl⟩
  · simp only [PhysicalInterface.Network, childLines_eq_join]
  · simp only [BondInterface.Network, childLines_eq_join]
    apply String.ext
    simp [String.data_append]

/-- C25. For every VLAN node, the network fragment is the header
`[Match]\nName=<name>\n\n[Network]\n` followed, when the method is static, by
one line `DNS=<ip>` per name server in order, then, only if the address is
set, a blank line and `[Address]\nAddress=<CIDR>\n`, then for each route in
order a blank line and `[Route]\nDestination=<CIDR>\nGateway=<ip>\n`; for any
other method it is the header alone. -/
theorem vlan_network (L : NetLib) (name : String) (config : ConfigMethod)
    (children : List Child) (id : Int) (rawDevice : String) :
    (VlanInterface.mk ⟨name, config, children⟩ id rawDevice).Network L =
        "[Match]\nName=" ++ name ++ "\n\n[Network]\n" ++
          (match config with
            | .static conf =>
              String.join (conf.nameservers.map (fun ip => "DNS=" ++ IP.String L ip ++ "\n")) ++
                (if conf.address.ip = none then ""
                  else "\n[Address]\nAddress=" ++ IPNet.String L conf.address ++ "\n") ++
                String.join (conf.routes.map (fun route =>
                  "\n[Route]\nDestination=" ++ IPNet.String L route.destination ++
                    "\nGateway=" ++ IP.String L route.gateway ++ "\n"))
            | _ => "") ∧
      (config = .manual ∨ config = .loopback →
        (VlanInterface.mk ⟨name, config, children⟩ id rawDevice).Network L =
          "[Match]\nName=" ++ name ++ "\n\n[Network]\n") := by
  constructor
  · cases config with
    | static conf =>
      simp only [VlanInterface.Network, dnsLines_eq_join, routeSections_eq_join, addressSection]
      by_cases h : conf.address.ip = none <;> simp [h]
    | unset => rfl
    | loopback => rfl
    | manual => rfl
  · intro h
    rcases h with h | h <;> subst h <;> simp [VlanInterface.Network]

theorem String_append_ne_empty (s t : String) (h : s.data ≠ []) : s ++ t ≠ "" := by
  intro he
  have := congrArg String.data he
  simp only [String.data_append] at this
  cases hs : s.data with
  | nil => exact h hs
  | cons c cs =>
    rw [hs] at this
    cases this

/-- C26. For every node the link fragment is empty, and the netdev fragment is
empty exactly when the node is physical: for a bond named `n` it is
`[NetDev]\nKind=bond\nName=n\n`, and for a VLAN it is the fragment
`[NetDev]\nKind=vlan\nName=<name>\n\n[VLAN]\nId=<id>\n`, which is not
empty. -/
theorem link_empty_netdev_of_kind (node : InterfaceGenerator) :
    node.Link = "" ∧
      (node.Netdev = "" ↔ ∃ p, node = .physical p) ∧
      (∀ b, node = .bond b →
        node.Netdev = "[NetDev]\nKind=bond\nName=" ++ b.logical.name ++ "\n") ∧
      (∀ v, node = .vlan v →
        node.Netdev = "[NetDev]\nKind=vlan\nName=" ++ v.logical.name ++ "\n\n[VLAN]\nId=" ++
          formatInt v.id ++ "\n" ∧ node.Netdev ≠ "") := by
  cases node with
  | physical p =>
    refine ⟨rfl, ⟨fun _ => ⟨p, rfl⟩, fun _ => rfl⟩, ?_, ?_⟩
    · intro b h; cases h
    · intro v h; cases h
  | bond b =>
    refine ⟨rfl, ⟨fun h => ?_, fun h => ?_⟩, ?_, ?_⟩
    · exfalso
      simp only [InterfaceGenerator.Netdev, BondInterface.Netdev, String.append_assoc] at h
      exact String_append_ne_empty _ _ (by decide) h
    · obtain ⟨p, hp⟩ := h
      cases hp
    · intro b2 h
      cases h
      rfl
    · intro v h; cases h
  | vlan v =>
    have hne : (InterfaceGenerator.vlan v).Netdev ≠ "" := by
      simp only [InterfaceGenerator.Netdev, VlanInterface.Netdev, String.append_assoc]
      exact String_append_ne_empty _ _ (by decide)
    refine ⟨rfl, ⟨fun h => absurd h hne, fun h => ?_⟩, ?_, ?_⟩
    · obtain ⟨p, hp⟩ := h
      cases hp
    · intro b h; cases h
    · intro v2 h
      cases h
      exact ⟨rfl, hne⟩

/-! ### The id of a VLAN (C28) -/

theorem buildVlans_origin_id (l : List (String × StanzaInterface)) :
    ∀ (acc vlans : Map VlanInterface) (k : String) (vn : VlanInterface),
      buildVlans acc l = .ok vlans → Map.get vlans k = some vn →
      Map.get acc k = some vn ∨
        ∃ e ∈ l, e.2.name = k ∧ ∃ piece, (Split k '.').get? 1 = some piece ∧
          vn = ⟨⟨k, e.2.configMethod, []⟩, (Atoi piece).val, rawDeviceOf e.2⟩ := by
  induction l with
  | nil =>
    intro acc vlans k vn h hget
    simp only [buildVlans, Except.ok.injEq] at h
    subst h
    exact Or.inl hget
  | cons e l ih =>
    intro acc vlans k vn h hget
    obtain ⟨k₀, x⟩ := e
    simp only [buildVlans] at h
    cases hp : (Split x.name '.').get? 1 with
    | none =>
      rw [hp] at h
      cases h
    | some piece =>
      rw [hp] at h
      dsimp only at h
      rcases ih _ _ _ _ h hget with h' | ⟨e, he, hen⟩
      · rw [Map.get_set] at h'
        by_cases hkx : k = x.name
        · simp only [hkx, if_true, Option.some.injEq] at h'
          refine Or.inr ⟨(k₀, x), List.mem_cons_self _ _, hkx.symm, piece, by rw [hkx, hp], ?_⟩
          rw [← h', hkx]
          rfl
        · simp only [hkx, if_false] at h'
          exact Or.inl h'
      · exact Or.inr ⟨e, List.mem_cons_of_mem _ he, hen⟩

theorem vlanNode_id_eq (o : RangeOrder) (stanzas : List StanzaInterface)
    (nodes : List InterfaceGenerator) (v : VlanInterface)
    (hbuild : buildInterfaces o stanzas = .ok nodes) (hv : InterfaceGenerator.vlan v ∈ nodes) :
    ∃ piece, (Split v.logical.name '.').get? 1 = some piece ∧ v.id = (Atoi piece).val := by
  cases hb : buildVlans [] (Map.range o 2 (stanzaPools ⟨[], [], []⟩ stanzas).vlanStanzas) with
  | error e => simp [buildInterfaces, hb] at hbuild
  | ok vlans =>
    rw [buildInterfaces_eq o stanzas vlans hb] at hbuild
    simp only [Except.ok.injEq] at hbuild
    subst hbuild
    simp only [List.mem_append, List.mem_map, reduceCtorEq, and_false, exists_false,
      false_or, InterfaceGenerator.vlan.injEq] at hv
    obtain ⟨e, he, hev⟩ := hv
    have hget := Map.get_of_mem_range o 7 _ e.1 e.2 he
    rcases buildVlans_origin_id _ _ _ _ _ hb hget with h' | ⟨x, _, _, piece, hp, hvn⟩
    · simp [Map.get] at h'
    · rw [← hev, hvn]
      exact ⟨piece, hp, rfl⟩

theorem Atoi_neg_iff (s : String) : (Atoi s).val < 0 ↔ negativeNumeral s = true := by
  unfold Atoi negativeNumeral
  split
  next neg ds heq =>
    split at heq
    · next r hs =>
      simp only [Prod.mk.injEq] at heq
      obtain ⟨hn, hd⟩ := heq
      subst hn hd
      rw [hs]
      simp only [Bool.false_eq_true, if_false]
      split
      · simp
      · split
        · simp
        · split <;> simp
    · next r hs =>
      simp only [Prod.mk.injEq] at heq
      obtain ⟨hn, hd⟩ := heq
      subst hn hd
      rw [hs]
      simp only [if_true]
      cases r with
      | nil => simp [digitsVal]
      | cons c r =>
        simp only
        cases hdv : digitsVal 0 (c :: r) with
        | none => simp
        | some n =>
          simp only
          split
          · simp only [decide_eq_true_eq]
            omega
          · simp only [decide_eq_true_eq]
            constructor
            · intro _; omega
            · intro _; decide
    · next r hs1 hs2 =>
      simp only [Prod.mk.injEq] at heq
      obtain ⟨hn, hd⟩ := heq
      subst hn hd
      have hneg : (match s.data with
          | '-' :: r =>
            match digitsVal 0 r with
            | some n => decide (0 < n)
            | none => false
          | _ => false) = false := by
        split
        · next r hs => exact absurd hs (hs2 r)
        · rfl
      rw [hneg]
      simp only [Bool.false_eq_true, if_false, iff_false, not_lt]
      split
      · exact le_refl _
      · split
        · exact le_refl _
        · split
          · exact Int.ofNat_nonneg _
          · decide

/-- C28 (as amended). For every interface declaration that
`parseInterfaceStanza` accepts as a VLAN, the VLAN id recorded in the
declaration is the suffix of the name, an integer that `strconv.Atoi` accepts,
and it is greater than or equal to 0 unless that suffix is a minus sign
followed by digits that are not all zero. The VLAN node of that name that
`buildInterfaces` returns carries the id of the declaration whenever the
second dot-separated piece of the name is that suffix, as in every name with
one dot; and its id is greater than or equal to 0 unless the suffix or the
second dot-separated piece of the name is a minus sign followed by digits that
are not all zero. -/
theorem vlan_id_nonneg_unless_minus_numeral (L : NetLib) (attributes options : List String)
    (d : StanzaInterface) (hparse : parseInterfaceStanza L attributes options = .ok d)
    (hkind : d.kind = .interfaceVLAN) :
    ∃ id, vlanSuffix d.name = some id ∧ Map.get d.options "id" = some [id] ∧
      (Atoi id).ok = true ∧ (negativeNumeral id = false → 0 ≤ (Atoi id).val) ∧
      (negativeNumeral id = true → (Atoi id).val < 0) ∧
      ∀ (o : RangeOrder) (stanzas : List StanzaInterface) (nodes : List InterfaceGenerator)
        (v : VlanInterface), buildInterfaces o stanzas = .ok nodes →
        InterfaceGenerator.vlan v ∈ nodes → v.logical.name = d.name →
        ((Split d.name '.').get? 1 = some id → v.id = (Atoi id).val) ∧
        (negativeNumeral id = false →
          (∀ piece, (Split d.name '.').get? 1 = some piece → negativeNumeral piece = false) →
          0 ≤ v.id) := by
  have hnonneg : ∀ s : String, negativeNumeral s = false → 0 ≤ (Atoi s).val := by
    intro s hs
    by_contra hlt
    have := (Atoi_neg_iff s).mp (lt_of_not_ge hlt)
    rw [hs] at this
    cases this
  have hnode : ∀ (id : String) (o : RangeOrder) (stanzas : List StanzaInterface)
      (nodes : List InterfaceGenerator) (v : VlanInterface),
      buildInterfaces o stanzas = .ok nodes →
      InterfaceGenerator.vlan v ∈ nodes → v.logical.name = d.name →
      ((Split d.name '.').get? 1 = some id → v.id = (Atoi id).val) ∧
      (negativeNumeral id = false →
        (∀ piece, (Split d.name '.').get? 1 = some piece → negativeNumeral piece = false) →
        0 ≤ v.id) := by
    intro id o stanzas nodes v hbuild hv hname
    obtain ⟨piece, hp, hid⟩ := vlanNode_id_eq o stanzas nodes v hbuild hv
    rw [hname] at hp
    constructor
    · intro hsuffix
      rw [hp] at hsuffix
      rw [hid, Option.some.inj hsuffix]
    · intro _ hpiece
      rw [hid]
      exact hnonneg piece (hpiece piece hp)
  unfold parseInterfaceStanza at hparse
  match attributes, hparse with
  | [iface, _family, confMethod], hparse =>
    simp only at hparse
    cases hm : parseOptions options with
    | error e => simp [hm] at hparse
    | ok m =>
      rw [hm] at hparse
      simp only at hparse
      cases hc : configOf L confMethod iface m with
      | error e => simp [hc] at hparse
      | ok conf =>
        rw [hc] at hparse
        simp only at hparse
        rw [classify_eq] at hparse
        by_cases h1 : (Map.get m "vlan_raw_device").isSome = true ∨ '.' ∈ iface.data
        · rw [if_pos h1] at hparse
          obtain ⟨id, hid, hok, hd⟩ := parseVLANStanza_ok iface conf _ m d hparse
          refine ⟨id, by rw [hd]; exact hid, ?_, hok, hnonneg id, (Atoi_neg_iff id).mpr,
            hnode id⟩
          rw [hd]
          simp only [vlanDeclaration]
          rw [Map.get_set_other _ _ _ _ (by decide), Map.get_set_self]
        · rw [if_neg h1] at hparse
          by_cases h2 : (Map.get m "bond-slaves").isSome = true
          · rw [if_pos h2] at hparse
            simp only [parseBondStanza, Except.ok.injEq] at hparse
            subst hparse
            cases hkind
          · rw [if_neg h2] at hparse
            simp only [parsePhysicalStanza, Except.ok.injEq] at hparse
            subst hparse
            cases hkind

theorem vlan_id_nonneg_unless_minus_numeral_witness :
    ∃ id, vlanSuffix "br-lan.7" = some id ∧
      Map.get (StanzaInterface.mk "br-lan.7" .interfaceVLAN false .manual
        [("id", ["7"]), ("raw_device", [])]).options "id" = some [id] ∧
      (Atoi id).ok = true ∧ (negativeNumeral id = false → 0 ≤ (Atoi id).val) ∧
      (negativeNumeral id = true → (Atoi id).val < 0) ∧
      ∀ (o : RangeOrder) (stanzas : List StanzaInterface) (nodes : List InterfaceGenerator)
        (v : VlanInterface), buildInterfaces o stanzas = .ok nodes →
        InterfaceGenerator.vlan v ∈ nodes → v.logical.name = "br-lan.7" →
        ((Split "br-lan.7" '.').get? 1 = some id → v.id = (Atoi id).val) ∧
        (negativeNumeral id = false →
          (∀ piece, (Split "br-lan.7" '.').get? 1 = some piece →
            negativeNumeral piece = false) →
          0 ≤ v.id) :=
  vlan_id_nonneg_unless_minus_numeral ipv4Lib ["br-lan.7", "inet", "manual"] []
    ⟨"br-lan.7", .interfaceVLAN, false, .manual, [("id", ["7"]), ("raw_device", [])]⟩
    (by decide) rfl

/-- C28 (counterexample). The stanza `iface eth0.-7 inet manual` is accepted
as a VLAN whose id is the text `-7`, and the node `buildInterfaces` derives
from the declaration has the id -7, which its netdev fragment prints. -/
theorem vlan_id_negative :
    parseInterfaceStanza ipv4Lib ["eth0.-7", "inet", "manual"] [] =
        .ok ⟨"eth0.-7", .interfaceVLAN, false, .manual, [("id", ["-7"]), ("raw_device", [])]⟩ ∧
      (Atoi "-7").val = -7 ∧
      buildInterfaces insertionOrder
          [⟨"eth0.-7", .interfaceVLAN, false, .manual, [("id", ["-7"]), ("raw_device", [])]⟩] =
        .ok [.vlan ⟨⟨"eth0.-7", .manual, []⟩, -7, ""⟩] ∧
      (InterfaceGenerator.vlan ⟨⟨"eth0.-7", .manual, []⟩, -7, ""⟩).Netdev =
        "[NetDev]\nKind=vlan\nName=eth0.-7\n\n[VLAN]\nId=-7\n" := by
  decide

/-! ### A VLAN without a raw device (C29) -/

theorem childLine_eq_vlan (c : Child) (name : String)
    (h : childLine c = "VLAN=" ++ name ++ "\n") : c = ⟨.interfaceVLAN, name⟩ := by
  obtain ⟨kind, cname⟩ := c
  have hd := congrArg String.data h
  cases kind with
  | interfaceBond =>
    simp only [childLine, String.data_append] at hd
    have h0 := congrArg List.head? hd
    simp at h0
  | interfacePhysical =>
    simp only [childLine, String.data_append] at hd
    have h0 := congrArg List.length hd
    simp at h0
  | interfaceVLAN =>
    simp only [childLine, String.data_append, List.append_assoc] at hd
    have h1 := List.append_cancel_left hd
    have h2 := List.append_cancel_right h1
    have h3 : cname = name := String.ext h2
    rw [h3]

/-- C29 (as amended). For every list of interface declarations with non-empty
names in which the last VLAN declaration named V has no `vlan_raw_device`
option, or one that does not carry exactly one value, whatever the order in
which the maps are visited, no node that `buildInterfaces` returns has V among
its dependents, and none writes the line `VLAN=<V>` for a dependent. -/
theorem vlan_without_raw_device_unattached (o : RangeOrder) (ho : o.Valid)
    (pre post : List StanzaInterface) (v : StanzaInterface) (nodes : List InterfaceGenerator)
    (hv : v.kind = .interfaceVLAN)
    (hlast : ∀ x ∈ post, ¬(x.kind = .interfaceVLAN ∧ x.name = v.name))
    (hraw : ∀ r, Map.get v.options "vlan_raw_device" ≠ some [r])
    (hnames : ∀ x ∈ pre ++ v :: post, x.name ≠ "")
    (hbuild : buildInterfaces o (pre ++ v :: post) = .ok nodes) :
    ∀ n ∈ nodes, (⟨.interfaceVLAN, v.name⟩ : Child) ∉ n.children ∧
      "VLAN=" ++ v.name ++ "\n" ∉ n.children.map childLine := by
  have hmain : ∀ n ∈ nodes, (⟨.interfaceVLAN, v.name⟩ : Child) ∉ n.children := by
    cases hbv : buildVlans []
        (Map.range o 2 (stanzaPools ⟨[], [], []⟩ (pre ++ v :: post)).vlanStanzas) with
    | error e => simp [buildInterfaces, hbv] at hbuild
    | ok vlans =>
      rw [buildInterfaces_eq o _ vlans hbv] at hbuild
      simp only [Except.ok.injEq] at hbuild
      subst hbuild
      obtain ⟨vn, hvn, _, hvraw⟩ := vlans_last o ho pre post v vlans hv hlast hbv
      have hempty : vn.rawDevice = "" := by
        rw [hvraw]
        unfold rawDeviceOf
        split
        · next device hd => exact absurd hd (hraw device)
        · rfl
      have hchild := vlan_child_iff o ho (pre ++ v :: post) vlans hbv v.name vn hvn
      rw [hempty] at hchild
      intro n hn hmem
      simp only [List.mem_append, List.mem_map] at hn
      rcases hn with (⟨e, he, hen⟩ | ⟨e, he, hen⟩) | ⟨e, he, hen⟩
      · subst hen
        have hget := Map.get_of_mem_range o 5 _ e.1 e.2 he
        rw [linkedPools_fst] at hget
        cases hp0 : Map.get (nodePools o (pre ++ v :: post)).1 e.1 with
        | none => simp [hp0] at hget
        | some p0 =>
          rw [hp0] at hget
          simp only [Option.map_some', Option.some.injEq] at hget
          obtain ⟨_, _, hc0⟩ := nodePools_fst_name o _ e.1 p0 hp0
          obtain ⟨x, hx, _, hxn⟩ := nodePools_fst_origin o _ e.1 p0 hp0
          rw [InterfaceGenerator.children, ← hget] at hmem
          simp only [LogicalInterface.addChildren, hc0, List.nil_append, List.mem_append]
            at hmem
          rcases hmem with hmem | hmem
          · have hk := (hchild e.1).mp hmem
            exact hnames x hx (hxn.trans hk)
          · have := kind_of_mem_bondChildrenOf _ _ _ hmem
            cases this
      · subst hen
        have hget := Map.get_of_mem_range o 6 _ e.1 e.2 he
        rw [linkedPools_snd] at hget
        cases hb0 : Map.get (nodePools o (pre ++ v :: post)).2 e.1 with
        | none => simp [hb0] at hget
        | some b0 =>
          rw [hb0] at hget
          simp only [Option.map_some', Option.some.injEq] at hget
          obtain ⟨_, hc0, x, hx, _, hxn, _⟩ := nodePools_snd_origin o _ e.1 b0 hb0
          rw [InterfaceGenerator.children, ← hget] at hmem
          simp only [LogicalInterface.addChildren, hc0, List.nil_append, List.mem_append]
            at hmem
          rcases hmem with hmem | hmem
          · have hk := (hchild e.1).mp hmem
            exact hnames x hx (hxn.trans hk)
          · have := kind_of_mem_selfChildrenOf _ _ _ _ hmem
            cases this
      · subst hen
        have hget := Map.get_of_mem_range o 7 _ e.1 e.2 he
        have hc := (vlans_origin o _ vlans hbv e.1 e.2 hget).2.1
        rw [InterfaceGenerator.children, hc] at hmem
        simp at hmem
  intro n hn
  refine ⟨hmain n hn, ?_⟩
  intro hline
  simp only [List.mem_map] at hline
  obtain ⟨c, hc, hcl⟩ := hline
  have := childLine_eq_vlan c v.name hcl
  subst this
  exact hmain n hn hc

theorem vlan_without_raw_device_unattached_witness :
    (⟨.interfaceVLAN,
        (StanzaInterface.mk "eth0.7" .interfaceVLAN false .manual
          [("id", ["7"]), ("raw_device", [])]).name⟩ : Child) ∉
        (InterfaceGenerator.physical ⟨⟨"eth0", .manual, []⟩⟩).children ∧
      "VLAN=" ++ (StanzaInterface.mk "eth0.7" .interfaceVLAN false .manual
          [("id", ["7"]), ("raw_device", [])]).name ++ "\n" ∉
        (InterfaceGenerator.physical ⟨⟨"eth0", .manual, []⟩⟩).children.map childLine :=
  vlan_without_raw_device_unattached insertionOrder insertionOrder_valid
    [⟨"eth0", .interfacePhysical, false, .manual, []⟩] []
    ⟨"eth0.7", .interfaceVLAN, false, .manual, [("id", ["7"]), ("raw_device", [])]⟩
    [.physical ⟨⟨"eth0", .manual, []⟩⟩, .vlan ⟨⟨"eth0.7", .manual, []⟩, 7, ""⟩]
    rfl (by simp) (fun r h => by cases h) (by decide) (by decide)
    (.physical ⟨⟨"eth0", .manual, []⟩⟩) (by decide)

/-- C29 (counterexample). The VLAN `eth0.7` is declared without a
`vlan_raw_device` option, and declared again with the raw device `eth0`: the
later declaration replaces the earlier one, and the node of the declared
interface `eth0` has the VLAN among its dependents and the line `VLAN=eth0.7`
in its network fragment. -/
theorem vlan_redeclared_with_raw_device :
    Map.get (StanzaInterface.mk "eth0.7" .interfaceVLAN false .manual
        [("id", ["7"]), ("raw_device", [])]).options "vlan_raw_device" = none ∧
      (buildInterfaces insertionOrder
          [⟨"eth0.7", .interfaceVLAN, false, .manual, [("id", ["7"]), ("raw_device", [])]⟩,
            ⟨"eth0.7", .interfaceVLAN, false, .manual,
              [("vlan_raw_device", ["eth0"]), ("id", ["7"]), ("raw_device", ["eth0"])]⟩,
            ⟨"eth0", .interfacePhysical, false, .manual, []⟩]).map
          (fun nodes => nodes.map (fun n => (n.Name, n.children, n.Network ipv4Lib))) =
        .ok [("eth0", [⟨.interfaceVLAN, "eth0.7"⟩],
            "[Match]\nName=eth0\n\n[Network]\nVLAN=eth0.7\n"),
          ("eth0.7", [], "[Match]\nName=eth0.7\n\n[Network]\n")] := by
  decide

/-! ### The order of the loops over the maps (C27) -/

theorem Map.keys_set {V : Type} (m : Map V) (k : String) (v : V) :
    Map.keys (Map.set m k v) = if k ∈ Map.keys m then Map.keys m else Map.keys m ++ [k] := by
  induction m with
  | nil => simp [Map.set, Map.keys]
  | cons e m ih =>
    obtain ⟨k', v'⟩ := e
    by_cases h : k' = k
    · simp [Map.set, Map.keys, h]
    · have ih' : List.map Prod.fst (Map.set m k v) =
          if k ∈ List.map Prod.fst m then List.map Prod.fst m
          else List.map Prod.fst m ++ [k] := ih
      simp only [Map.set, h, if_false, Map.keys, List.map_cons, List.mem_cons, ih']
      have h' : ¬ k = k' := fun e => h e.symm
      by_cases hm : k ∈ List.map Prod.fst m
      · simp [hm]
      · simp [hm, h']

theorem Map.nodup_keys_set {V : Type} (m : Map V) (k : String) (v : V)
    (h : (Map.keys m).Nodup) : (Map.keys (Map.set m k v)).Nodup := by
  rw [Map.keys_set]
  by_cases hm : k ∈ Map.keys m
  · simp only [hm, if_true]
    exact h
  · simp only [hm, if_false]
    rw [List.nodup_append]
    refine ⟨h, List.nodup_singleton _, ?_⟩
    intro a ha hb
    rw [List.mem_singleton] at hb
    subst hb
    exact hm ha

theorem Map.get_of_mem_keys {V : Type} (m : Map V) (k : String) (h : k ∈ Map.keys m) :
    ∃ v, Map.get m k = some v := by
  induction m with
  | nil => simp [Map.keys] at h
  | cons e m ih =>
    obtain ⟨k', v'⟩ := e
    by_cases hk : k' = k
    · exact ⟨v', by simp [Map.get, hk]⟩
    · simp only [Map.keys, List.map_cons, List.mem_cons] at h
      rcases h with h | h
      · exact absurd h.symm hk
      · obtain ⟨v, hv⟩ := ih h
        exact ⟨v, by simp [Map.get, hk, hv]⟩

theorem Map.keys_perm {V W : Type} (m₁ : Map V) (m₂ : Map W)
    (hn₁ : (Map.keys m₁).Nodup) (hn₂ : (Map.keys m₂).Nodup)
    (h : ∀ k, (Map.get m₁ k).isSome = (Map.get m₂ k).isSome) :
    (Map.keys m₁).Perm (Map.keys m₂) := by
  rw [List.perm_ext_iff_of_nodup hn₁ hn₂]
  intro k
  constructor
  · intro hk
    obtain ⟨v, hv⟩ := Map.get_of_mem_keys m₁ k hk
    have h2 := h k
    rw [hv] at h2
    obtain ⟨w, hw⟩ := Option.isSome_iff_exists.mp h2.symm
    exact Map.mem_keys_of_get m₂ k w hw
  · intro hk
    obtain ⟨v, hv⟩ := Map.get_of_mem_keys m₂ k hk
    have h2 := h k
    rw [hv] at h2
    obtain ⟨w, hw⟩ := Option.isSome_iff_exists.mp h2
    exact Map.mem_keys_of_get m₁ k w hw

theorem Map.range_map {V W : Type} (o : RangeOrder) (i : Nat) (m : Map V)
    (f : String → V → W) :
    (Map.range o i m).map (fun e => f e.1 e.2) =
      (o.visit i m.keys).filterMap (fun k => (Map.get m k).map (f k)) := by
  simp only [Map.range, List.map_filterMap]
  congr 1
  funext k
  cases Map.get m k <;> rfl

theorem Map.range_map_perm {V W : Type} (o₁ o₂ : RangeOrder) (ho₁ : o₁.Valid) (ho₂ : o₂.Valid)
    (i j : Nat) (m₁ m₂ : Map V) (hn₁ : (Map.keys m₁).Nodup) (hn₂ : (Map.keys m₂).Nodup)
    (f : String → V → W)
    (hget : ∀ k, (Map.get m₁ k).map (f k) = (Map.get m₂ k).map (f k)) :
    ((Map.range o₁ i m₁).map (fun e => f e.1 e.2)).Perm
      ((Map.range o₂ j m₂).map (fun e => f e.1 e.2)) := by
  rw [Map.range_map, Map.range_map]
  have hf : (fun k => (Map.get m₁ k).map (f k)) = (fun k => (Map.get m₂ k).map (f k)) :=
    funext hget
  rw [hf]
  apply List.Perm.filterMap
  have hk : (Map.keys m₁).Perm (Map.keys m₂) := by
    apply Map.keys_perm m₁ m₂ hn₁ hn₂
    intro k
    have := congrArg Option.isSome (hget k)
    simpa using this
  exact ((ho₁ i _).trans hk).trans (ho₂ j _).symm

theorem Map.range_perm {V : Type} (o₁ o₂ : RangeOrder) (ho₁ : o₁.Valid) (ho₂ : o₂.Valid)
    (i j : Nat) (m₁ m₂ : Map V) (hn₁ : (Map.keys m₁).Nodup) (hn₂ : (Map.keys m₂).Nodup)
    (hget : ∀ k, Map.get m₁ k = Map.get m₂ k) :
    (Map.range o₁ i m₁).Perm (Map.range o₂ j m₂) := by
  have h := Map.range_map_perm o₁ o₂ ho₁ ho₂ i j m₁ m₂ hn₁ hn₂ (fun k v => (k, v))
    (fun k => by rw [hget k])
  simpa using h

theorem Map.mem_range_congr {V : Type} (o₁ o₂ : RangeOrder) (ho₂ : o₂.Valid) (i j : Nat)
    (m : Map V) (e : String × V) (h : e ∈ Map.range o₁ i m) : e ∈ Map.range o₂ j m :=
  Map.mem_range_of_get o₂ ho₂ j m e.1 e.2 (Map.get_of_mem_range o₁ i m e.1 e.2 h)

theorem Map.get_congr_of_origin {V : Type} (node : String → StanzaInterface → Option V)
    (l₁ l₂ : List (String × StanzaInterface)) (M₁ M₂ : Map V)
    (hmem : ∀ e, e ∈ l₁ → e ∈ l₂)
    (hfun : ∀ e ∈ l₂, ∀ e' ∈ l₂, e.2.name = e'.2.name → e.2 = e'.2)
    (ho₁ : ∀ k v, Map.get M₁ k = some v → ∃ e ∈ l₁, e.2.name = k ∧ node k e.2 = some v)
    (ho₂ : ∀ k v, Map.get M₂ k = some v → ∃ e ∈ l₂, e.2.name = k ∧ node k e.2 = some v)
    (hp₂ : ∀ k, ∀ e ∈ l₂, e.2.name = k → (node k e.2).isSome = true →
      (Map.get M₂ k).isSome = true)
    (k : String) (v : V) (h : Map.get M₁ k = some v) : Map.get M₂ k = some v := by
  obtain ⟨e, he, hek, hev⟩ := ho₁ k v h
  have he2 := hmem e he
  have hs := hp₂ k e he2 hek (by rw [hev]; rfl)
  obtain ⟨v', hv'⟩ := Option.isSome_iff_exists.mp hs
  obtain ⟨e', he', hek', hev'⟩ := ho₂ k v' hv'
  have := hfun e he2 e' he' (hek.trans hek'.symm)
  rw [← this, hev] at hev'
  rw [hv', ← Option.some.inj hev']

theorem Option_eq_of_some_imp {V : Type} (a b : Option V) (h₁ : ∀ v, a = some v → b = some v)
    (h₂ : ∀ v, b = some v → a = some v) : a = b := by
  cases a with
  | some v => exact (h₁ v rfl).symm
  | none =>
    cases b with
    | none => rfl
    | some w => exact h₂ w rfl

theorem buildPhysicals_origin_node (l : List (String × StanzaInterface)) :
    ∀ (acc : Map PhysicalInterface) (k : String) (p : PhysicalInterface),
      Map.get (buildPhysicals acc l) k = some p →
      Map.get acc k = some p ∨
        ∃ e ∈ l, e.2.name = k ∧ k ≠ "lo" ∧ p = ⟨⟨k, e.2.configMethod, []⟩⟩ := by
  induction l with
  | nil => intro acc k p h; exact Or.inl h
  | cons e l ih =>
    intro acc k p h
    obtain ⟨k₀, x⟩ := e
    simp only [buildPhysicals] at h
    by_cases hlo : x.name = "lo"
    · simp only [hlo, if_true] at h
      rcases ih _ _ _ h with h' | ⟨e, he, hen⟩
      · exact Or.inl h'
      · exact Or.inr ⟨e, List.mem_cons_of_mem _ he, hen⟩
    · simp only [hlo, if_false] at h
      rcases ih _ _ _ h with h' | ⟨e, he, hen⟩
      · rw [Map.get_set] at h'
        by_cases hkx : k = x.name
        · simp only [hkx, if_true, Option.some.injEq] at h'
          refine Or.inr ⟨(k₀, x), List.mem_cons_self _ _, hkx.symm, by rw [hkx]; exact hlo, ?_⟩
          rw [← h', hkx]
        · simp only [hkx, if_false] at h'
          exact Or.inl h'
      · exact Or.inr ⟨e, List.mem_cons_of_mem _ he, hen⟩

theorem pool_range_fun (o : RangeOrder) (i : Nat) (m : Map StanzaInterface)
    (hname : ∀ k x, Map.get m k = some x → x.name = k) :
    ∀ e ∈ Map.range o i m, ∀ e' ∈ Map.range o i m, e.2.name = e'.2.name → e.2 = e'.2 := by
  intro e he e' he' hn
  have h := Map.get_of_mem_range o i m e.1 e.2 he
  have h' := Map.get_of_mem_range o i m e'.1 e'.2 he'
  have hk : e.1 = e'.1 := by
    rw [← hname _ _ h, ← hname _ _ h', hn]
  rw [hk, h'] at h
  exact (Option.some.inj h).symm

theorem nodePools_fst_mono (o₁ o₂ : RangeOrder) (ho₂ : o₂.Valid)
    (stanzas : List StanzaInterface) (k : String) (p : PhysicalInterface)
    (h : Map.get (nodePools o₁ stanzas).1 k = some p) :
    Map.get (nodePools o₂ stanzas).1 k = some p := by
  refine Map.get_congr_of_origin
    (fun k x => if k = "lo" then none else some ⟨⟨k, x.configMethod, []⟩⟩)
    (Map.range o₁ 0 (stanzaPools ⟨[], [], []⟩ stanzas).physicalStanzas)
    (Map.range o₂ 0 (stanzaPools ⟨[], [], []⟩ stanzas).physicalStanzas)
    _ _ (fun e he => Map.mem_range_congr o₁ o₂ ho₂ 0 0 _ e he)
    (pool_range_fun o₂ 0 _ (fun k x hx => ((stanzaPools_empty_entries stanzas k x).2.1 hx).2.2))
    ?_ ?_ ?_ k p h
  · intro k v hv
    rcases buildPhysicals_origin_node _ _ _ _ hv with h' | ⟨e, he, hek, hlo, hp⟩
    · simp [Map.get] at h'
    · exact ⟨e, he, hek, by simp [hlo, hp]⟩
  · intro k v hv
    rcases buildPhysicals_origin_node _ _ _ _ hv with h' | ⟨e, he, hek, hlo, hp⟩
    · simp [Map.get] at h'
    · exact ⟨e, he, hek, by simp [hlo, hp]⟩
  · intro k e he hek hs
    have hlo : k ≠ "lo" := by
      intro hlo
      simp [hlo] at hs
    exact buildPhysicals_present k hlo _ [] (Or.inr ⟨e, he, hek⟩)

theorem nodePools_snd_mono (o₁ o₂ : RangeOrder) (ho₂ : o₂.Valid)
    (stanzas : List StanzaInterface) (k : String) (b : BondInterface)
    (h : Map.get (nodePools o₁ stanzas).2 k = some b) :
    Map.get (nodePools o₂ stanzas).2 k = some b := by
  refine Map.get_congr_of_origin
    (fun k x => some ⟨⟨k, x.configMethod, []⟩, Map.getD x.options "bond-slaves"⟩)
    (Map.range o₁ 1 (stanzaPools ⟨[], [], []⟩ stanzas).bondStanzas)
    (Map.range o₂ 1 (stanzaPools ⟨[], [], []⟩ stanzas).bondStanzas)
    _ _ (fun e he => Map.mem_range_congr o₁ o₂ ho₂ 1 1 _ e he)
    (pool_range_fun o₂ 1 _ (fun k x hx => ((stanzaPools_empty_entries stanzas k x).1 hx).2.2))
    ?_ ?_ ?_ k b h
  · intro k v hv
    rcases buildBonds_origin _ _ _ _ hv with h' | ⟨e, he, hek, hb⟩
    · simp [Map.get] at h'
    · exact ⟨e, he, hek, by rw [hb]⟩
  · intro k v hv
    rcases buildBonds_origin _ _ _ _ hv with h' | ⟨e, he, hek, hb⟩
    · simp [Map.get] at h'
    · exact ⟨e, he, hek, by rw [hb]⟩
  · intro k e he hek _
    exact buildBonds_present k _ [] (Or.inr ⟨e, he, hek⟩)

theorem vlans_mono (o₁ o₂ : RangeOrder) (ho₂ : o₂.Valid) (stanzas : List StanzaInterface)
    (vlans₁ vlans₂ : Map VlanInterface)
    (h₁ : buildVlans [] (Map.range o₁ 2 (stanzaPools ⟨[], [], []⟩ stanzas).vlanStanzas) =
      .ok vlans₁)
    (h₂ : buildVlans [] (Map.range o₂ 2 (stanzaPools ⟨[], [], []⟩ stanzas).vlanStanzas) =
      .ok vlans₂)
    (k : String) (v : VlanInterface) (h : Map.get vlans₁ k = some v) :
    Map.get vlans₂ k = some v := by
  refine Map.get_congr_of_origin
    (fun k x => ((Split k '.').get? 1).map (fun piece =>
      ⟨⟨k, x.configMethod, []⟩, (Atoi piece).val, rawDeviceOf x⟩))
    (Map.range o₁ 2 (stanzaPools ⟨[], [], []⟩ stanzas).vlanStanzas)
    (Map.range o₂ 2 (stanzaPools ⟨[], [], []⟩ stanzas).vlanStanzas)
    _ _ (fun e he => Map.mem_range_congr o₁ o₂ ho₂ 2 2 _ e he)
    (pool_range_fun o₂ 2 _ (fun k x hx => ((stanzaPools_empty_entries stanzas k x).2.2 hx).2.2))
    ?_ ?_ ?_ k v h
  · intro k v hv
    rcases buildVlans_origin_id _ _ _ _ _ h₁ hv with h' | ⟨e, he, hek, piece, hp, hvn⟩
    · simp [Map.get] at h'
    · exact ⟨e, he, hek, by simp only [hp, hvn]; rfl⟩
  · intro k v hv
    rcases buildVlans_origin_id _ _ _ _ _ h₂ hv with h' | ⟨e, he, hek, piece, hp, hvn⟩
    · simp [Map.get] at h'
    · exact ⟨e, he, hek, by simp only [hp, hvn]; rfl⟩
  · intro k e he hek _
    exact buildVlans_present k _ [] vlans₂ (Or.inr ⟨e, he, hek⟩) h₂

theorem mem_of_Split_get?_one (s piece : String) (h : (Split s '.').get? 1 = some piece) :
    '.' ∈ s.data := by
  by_contra hn
  have hlen := splitChars_length_of_not_mem '.' s.data hn
  have hl : (Split s '.').length = 1 := by
    simp only [Split, List.length_map]
    exact hlen
  have : (Split s '.').get? 1 = none := by
    rw [List.get?_eq_none]
    omega
  rw [this] at h
  cases h

theorem buildVlans_dotted (l : List (String × StanzaInterface)) :
    ∀ acc vlans : Map VlanInterface, buildVlans acc l = .ok vlans →
      ∀ e ∈ l, '.' ∈ e.2.name.data := by
  induction l with
  | nil => intro acc vlans _ e he; simp at he
  | cons x l ih =>
    intro acc vlans h e he
    obtain ⟨k₀, x⟩ := x
    simp only [buildVlans] at h
    cases hp : (Split x.name '.').get? 1 with
    | none =>
      rw [hp] at h
      cases h
    | some piece =>
      rw [hp] at h
      dsimp only at h
      rcases List.mem_cons.mp he with he | he
      · subst he
        exact mem_of_Split_get?_one _ _ hp
      · exact ih _ _ h e he

theorem buildVlans_order (o₁ o₂ : RangeOrder) (ho₁ : o₁.Valid) (m : Map StanzaInterface)
    (vlans₁ : Map VlanInterface) (h₁ : buildVlans [] (Map.range o₁ 2 m) = .ok vlans₁) :
    ∃ vlans₂, buildVlans [] (Map.range o₂ 2 m) = .ok vlans₂ := by
  apply buildVlans_ok
  intro e he
  exact buildVlans_dotted _ _ _ h₁ e (Map.mem_range_congr o₂ o₁ ho₁ 2 2 m e he)

theorem buildBonds_nodup (l : List (String × StanzaInterface)) :
    ∀ acc : Map BondInterface, (Map.keys acc).Nodup → (Map.keys (buildBonds acc l)).Nodup := by
  induction l with
  | nil => intro acc h; exact h
  | cons e l ih =>
    intro acc h
    obtain ⟨k₀, x⟩ := e
    simp only [buildBonds]
    exact ih _ (Map.nodup_keys_set _ _ _ h)

theorem buildVlans_nodup (l : List (String × StanzaInterface)) :
    ∀ acc vlans : Map VlanInterface, (Map.keys acc).Nodup → buildVlans acc l = .ok vlans →
      (Map.keys vlans).Nodup := by
  induction l with
  | nil =>
    intro acc vlans h hb
    simp only [buildVlans, Except.ok.injEq] at hb
    subst hb
    exact h
  | cons e l ih =>
    intro acc vlans h hb
    obtain ⟨k₀, x⟩ := e
    simp only [buildVlans] at hb
    cases hp : (Split x.name '.').get? 1 with
    | none =>
      rw [hp] at hb
      cases hb
    | some piece =>
      rw [hp] at hb
      dsimp only at hb
      exact ih _ _ (Map.nodup_keys_set _ _ _ h) hb

theorem linkVlan_snd_nodup (vlan : VlanInterface)
    (pools : Map PhysicalInterface × Map BondInterface) (h : (Map.keys pools.2).Nodup) :
    (Map.keys (linkVlan vlan pools).2).Nodup := by
  simp only [linkVlan]
  cases Map.get pools.2 vlan.rawDevice with
  | none => exact h
  | some b => exact Map.nodup_keys_set _ _ _ h

theorem linkVlans_snd_nodup (l : List (String × VlanInterface)) :
    ∀ pools : Map PhysicalInterface × Map BondInterface, (Map.keys pools.2).Nodup →
      (Map.keys (linkVlans l pools).2).Nodup := by
  induction l with
  | nil => intro pools h; exact h
  | cons e l ih =>
    intro pools h
    obtain ⟨k₀, x⟩ := e
    simp only [linkVlans]
    exact ih _ (linkVlan_snd_nodup x pools h)

theorem bondChildrenOf_eq (k : String) (l : List (String × BondInterface)) :
    bondChildrenOf k l =
      (l.map (fun e => (e.2.logical.name, e.2.slaves))).flatMap (fun t =>
        (t.2.filter (fun slave => slave = k)).map
          (fun _ => (⟨.interfaceBond, t.1⟩ : Child))) := by
  induction l with
  | nil => rfl
  | cons e l ih =>
    simp only [bondChildrenOf, List.flatMap_cons, List.map_cons] at ih ⊢
    rw [ih]

theorem selfChildrenOf_eq (k name : String) (l : List (String × BondInterface)) :
    selfChildrenOf k name l =
      ((l.map (fun e => (e.2.logical.name, e.2.slaves))).flatMap (fun t =>
        t.2.filter (fun slave => slave = k))).map
          (fun _ => (⟨.interfaceBond, name⟩ : Child)) := by
  have h : ∀ l : List (String × BondInterface),
      l.flatMap (fun e => e.2.slaves.filter (fun slave => slave = k)) =
        (l.map (fun e => (e.2.logical.name, e.2.slaves))).flatMap (fun t =>
          t.2.filter (fun slave => slave = k)) := by
    intro l
    induction l with
    | nil => rfl
    | cons e l ih =>
      simp only [List.flatMap_cons, List.map_cons]
      rw [ih]
  simp only [selfChildrenOf, h]

theorem nodePools_fst_congr (o₁ o₂ : RangeOrder) (ho₁ : o₁.Valid) (ho₂ : o₂.Valid)
    (stanzas : List StanzaInterface) (k : String) :
    Map.get (nodePools o₁ stanzas).1 k = Map.get (nodePools o₂ stanzas).1 k :=
  Option_eq_of_some_imp _ _ (nodePools_fst_mono o₁ o₂ ho₂ stanzas k)
    (nodePools_fst_mono o₂ o₁ ho₁ stanzas k)

theorem nodePools_snd_congr (o₁ o₂ : RangeOrder) (ho₁ : o₁.Valid) (ho₂ : o₂.Valid)
    (stanzas : List StanzaInterface) (k : String) :
    Map.get (nodePools o₁ stanzas).2 k = Map.get (nodePools o₂ stanzas).2 k :=
  Option_eq_of_some_imp _ _ (nodePools_snd_mono o₁ o₂ ho₂ stanzas k)
    (nodePools_snd_mono o₂ o₁ ho₁ stanzas k)

theorem vlanChildrenOf_perm (o₁ o₂ : RangeOrder) (ho₁ : o₁.Valid) (ho₂ : o₂.Valid)
    (stanzas : List StanzaInterface) (vlans₁ vlans₂ : Map VlanInterface)
    (h₁ : buildVlans [] (Map.range o₁ 2 (stanzaPools ⟨[], [], []⟩ stanzas).vlanStanzas) =
      .ok vlans₁)
    (h₂ : buildVlans [] (Map.range o₂ 2 (stanzaPools ⟨[], [], []⟩ stanzas).vlanStanzas) =
      .ok vlans₂)
    (k : String) :
    (vlanChildrenOf k (Map.range o₂ 3 vlans₂)).Perm
      (vlanChildrenOf k (Map.range o₁ 3 vlans₁)) := by
  have hp : (Map.range o₂ 3 vlans₂).Perm (Map.range o₁ 3 vlans₁) :=
    Map.range_perm o₂ o₁ ho₂ ho₁ 3 3 vlans₂ vlans₁
      (buildVlans_nodup _ [] _ List.nodup_nil h₂) (buildVlans_nodup _ [] _ List.nodup_nil h₁)
      (fun k => Option_eq_of_some_imp _ _ (vlans_mono o₂ o₁ ho₁ stanzas _ _ h₂ h₁ k)
        (vlans_mono o₁ o₂ ho₂ stanzas _ _ h₁ h₂ k))
  exact (hp.filter _).map _

theorem bondEntries_perm (o₁ o₂ : RangeOrder) (ho₁ : o₁.Valid) (ho₂ : o₂.Valid)
    (stanzas : List StanzaInterface) (vlans₁ vlans₂ : Map VlanInterface) :
    ((Map.range o₂ 4 (vlanLinkedPools o₂ stanzas vlans₂).2).map
        (fun e => (e.2.logical.name, e.2.slaves))).Perm
      ((Map.range o₁ 4 (vlanLinkedPools o₁ stanzas vlans₁).2).map
        (fun e => (e.2.logical.name, e.2.slaves))) := by
  have hn : ∀ (o : RangeOrder) (vlans : Map VlanInterface),
      (Map.keys (vlanLinkedPools o stanzas vlans).2).Nodup := by
    intro o vlans
    exact linkVlans_snd_nodup _ _ (buildBonds_nodup _ [] List.nodup_nil)
  have hg : ∀ (o : RangeOrder) (vlans : Map VlanInterface) (k : String),
      (Map.get (vlanLinkedPools o stanzas vlans).2 k).map
          (fun b => (b.logical.name, b.slaves)) =
        (Map.get (nodePools o stanzas).2 k).map (fun b => (b.logical.name, b.slaves)) := by
    intro o vlans k
    rw [vlanLinkedPools, linkVlans_snd]
    cases Map.get (nodePools o stanzas).2 k <;> simp [LogicalInterface.addChildren]
  exact Map.range_map_perm o₂ o₁ ho₂ ho₁ 4 4 _ _ (hn o₂ vlans₂) (hn o₁ vlans₁)
    (fun _ b => (b.logical.name, b.slaves))
    (fun k => by rw [hg, hg, nodePools_snd_congr o₂ o₁ ho₂ ho₁])

theorem InterfaceGenerator.network_eq (L : NetLib) (n : InterfaceGenerator)
    (h : ∀ v, n = .vlan v → v.logical.children = []) :
    n.Network L = (n.withChildren []).Network L ++ String.join (n.children.map childLine) := by
  cases n with
  | physical p =>
    simp only [InterfaceGenerator.Network, InterfaceGenerator.withChildren,
      InterfaceGenerator.children, PhysicalInterface.Network, childLines_eq_join]
    apply String.ext
    simp [String.data_append, String.join]
  | bond b =>
    simp only [InterfaceGenerator.Network, InterfaceGenerator.withChildren,
      InterfaceGenerator.children, BondInterface.Network, childLines_eq_join]
    apply String.ext
    simp [String.data_append, String.join]
  | vlan v =>
    have hv := h v rfl
    simp only [InterfaceGenerator.Network, InterfaceGenerator.withChildren,
      InterfaceGenerator.children, VlanInterface.Network, hv]
    apply String.ext
    simp [String.data_append, String.join]

theorem InterfaceGenerator.withChildren_fragments (n : InterfaceGenerator) (cs : List Child) :
    (n.withChildren cs).Name = n.Name ∧ (n.withChildren cs).Netdev = n.Netdev ∧
      (n.withChildren cs).Link = n.Link ∧ (n.withChildren cs).children = cs ∧
      (n.withChildren cs).withChildren [] = n.withChildren [] := by
  cases n <;> exact ⟨rfl, rfl, rfl, rfl, rfl⟩

theorem nodes_up_to_order (o₁ o₂ : RangeOrder) (ho₁ : o₁.Valid) (ho₂ : o₂.Valid)
    (stanzas : List StanzaInterface) (nodes₁ : List InterfaceGenerator)
    (h₁ : buildInterfaces o₁ stanzas = .ok nodes₁) :
    ∃ nodes₂, buildInterfaces o₂ stanzas = .ok nodes₂ ∧
      ∀ n₁ ∈ nodes₁, (∀ v, n₁ = .vlan v → v.logical.children = []) ∧
        ∃ n₂ ∈ nodes₂, ∃ cs, cs.Perm n₁.children ∧ n₂ = n₁.withChildren cs := by
  cases hb₁ : buildVlans []
      (Map.range o₁ 2 (stanzaPools ⟨[], [], []⟩ stanzas).vlanStanzas) with
  | error e => simp [buildInterfaces, hb₁] at h₁
  | ok vlans₁ =>
    obtain ⟨vlans₂, hb₂⟩ := buildVlans_order o₁ o₂ ho₁ _ vlans₁ hb₁
    rw [buildInterfaces_eq o₁ stanzas vlans₁ hb₁] at h₁
    simp only [Except.ok.injEq] at h₁
    subst h₁
    refine ⟨_, buildInterfaces_eq o₂ stanzas vlans₂ hb₂, ?_⟩
    have hvc := vlanChildrenOf_perm o₁ o₂ ho₁ ho₂ stanzas vlans₁ vlans₂ hb₁ hb₂
    have hbe := bondEntries_perm o₁ o₂ ho₁ ho₂ stanzas vlans₁ vlans₂
    intro n₁ hn
    simp only [List.mem_append, List.mem_map] at hn
    rcases hn with (⟨e, he, hen⟩ | ⟨e, he, hen⟩) | ⟨e, he, hen⟩
    · subst hen
      refine ⟨fun v hv => (by cases hv), ?_⟩
      have hget := Map.get_of_mem_range o₁ 5 _ e.1 e.2 he
      rw [linkedPools_fst] at hget
      cases hp0 : Map.get (nodePools o₁ stanzas).1 e.1 with
      | none => simp [hp0] at hget
      | some p0 =>
        rw [hp0] at hget
        simp only [Option.map_some', Option.some.injEq] at hget
        have hp0' := nodePools_fst_mono o₁ o₂ ho₂ stanzas e.1 p0 hp0
        have hget₂ := linkedPools_fst o₂ stanzas vlans₂ e.1
        rw [hp0'] at hget₂
        simp only [Option.map_some'] at hget₂
        refine ⟨.physical ⟨p0.logical.addChildren
          (vlanChildrenOf e.1 (Map.range o₂ 3 vlans₂) ++
            bondChildrenOf e.1 (Map.range o₂ 4 (vlanLinkedPools o₂ stanzas vlans₂).2))⟩, ?_,
          p0.logical.children ++ (vlanChildrenOf e.1 (Map.range o₂ 3 vlans₂) ++
          bondChildrenOf e.1 (Map.range o₂ 4 (vlanLinkedPools o₂ stanzas vlans₂).2)), ?_, ?_⟩
        · simp only [List.mem_append, List.mem_map]
          exact Or.inl (Or.inl ⟨(e.1, _), Map.mem_range_of_get o₂ ho₂ 5 _ _ _ hget₂, rfl⟩)
        · rw [InterfaceGenerator.children, ← hget]
          simp only [LogicalInterface.addChildren]
          refine List.Perm.append_left _ (List.Perm.append (hvc e.1) ?_)
          rw [bondChildrenOf_eq, bondChildrenOf_eq]
          exact hbe.flatMap_right _
        · rw [← hget]
          rfl
    · subst hen
      refine ⟨fun v hv => (by cases hv), ?_⟩
      have hget := Map.get_of_mem_range o₁ 6 _ e.1 e.2 he
      rw [linkedPools_snd] at hget
      cases hb0 : Map.get (nodePools o₁ stanzas).2 e.1 with
      | none => simp [hb0] at hget
      | some b0 =>
        rw [hb0] at hget
        simp only [Option.map_some', Option.some.injEq] at hget
        have hb0' := nodePools_snd_mono o₁ o₂ ho₂ stanzas e.1 b0 hb0
        have hget₂ := linkedPools_snd o₂ stanzas vlans₂ e.1
        rw [hb0'] at hget₂
        simp only [Option.map_some'] at hget₂
        refine ⟨.bond ⟨b0.logical.addChildren
          (vlanChildrenOf e.1 (Map.range o₂ 3 vlans₂) ++
            selfChildrenOf e.1 b0.logical.name
              (Map.range o₂ 4 (vlanLinkedPools o₂ stanzas vlans₂).2)), b0.slaves⟩, ?_,
          b0.logical.children ++ (vlanChildrenOf e.1 (Map.range o₂ 3 vlans₂) ++
          selfChildrenOf e.1 b0.logical.name
            (Map.range o₂ 4 (vlanLinkedPools o₂ stanzas vlans₂).2)), ?_, ?_⟩
        · simp only [List.mem_append, List.mem_map]
          exact Or.inl (Or.inr ⟨(e.1, _), Map.mem_range_of_get o₂ ho₂ 6 _ _ _ hget₂, rfl⟩)
        · rw [InterfaceGenerator.children, ← hget]
          simp only [LogicalInterface.addChildren]
          refine List.Perm.append_left _ (List.Perm.append (hvc e.1) ?_)
          rw [selfChildrenOf_eq, selfChildrenOf_eq]
          exact (hbe.flatMap_right _).map _
        · rw [← hget]
          rfl
    · subst hen
      have hget := Map.get_of_mem_range o₁ 7 _ e.1 e.2 he
      have hc := (vlans_origin o₁ _ vlans₁ hb₁ e.1 e.2 hget).2.1
      refine ⟨fun v hv => ?_, ?_⟩
      · cases hv
        exact hc
      · have hget₂ := vlans_mono o₁ o₂ ho₂ stanzas _ _ hb₁ hb₂ e.1 e.2 hget
        refine ⟨.vlan e.2, ?_, [], ?_, ?_⟩
        · simp only [List.mem_append, List.mem_map]
          exact Or.inr ⟨(e.1, e.2), Map.mem_range_of_get o₂ ho₂ 7 _ _ _ hget₂, rfl⟩
        · rw [InterfaceGenerator.children, hc]
        · simp only [InterfaceGenerator.withChildren, ← hc]

theorem reverseAt_valid (j : Nat) : (reverseAt j).Valid := by
  intro i ks
  simp only [reverseAt]
  by_cases h : i = j
  · simp only [h, if_true]
    exact List.reverse_perm ks
  · simp only [h, if_false]
    exact List.Perm.refl ks

theorem InterfaceGenerator.withChildren_self (n : InterfaceGenerator) :
    n.withChildren n.children = n := by
  cases n <;> rfl

theorem List_eq_of_perm_of_length_le_one {α : Type} (l₁ l₂ : List α) (h : l₁.Perm l₂)
    (hlen : l₂.length ≤ 1) : l₁ = l₂ := by
  match l₂, hlen, h with
  | [], _, h => exact h.eq_nil
  | [a], _, h => exact List.perm_singleton.mp h
  | _ :: _ :: _, hlen, _ => simp at hlen

/-- C27 (as amended). For a fixed list of interface declarations and any two
orders in which the maps are traversed, `buildInterfaces` returns under the
one exactly when it returns under the other, and each node returned under the
first order is returned under the second with the same dependents in a
possibly different order: same name, same netdev and link fragments, and a
network fragment with the same header and the same dependent lines, possibly
in a different order; the fragments of a node with at most one dependent are
byte-identical. -/
theorem fragments_up_to_dependent_order (L : NetLib) (o₁ o₂ : RangeOrder)
    (ho₁ : o₁.Valid) (ho₂ : o₂.Valid) (stanzas : List StanzaInterface)
    (nodes₁ : List InterfaceGenerator) (h₁ : buildInterfaces o₁ stanzas = .ok nodes₁) :
    ∃ nodes₂, buildInterfaces o₂ stanzas = .ok nodes₂ ∧
      ∀ n₁ ∈ nodes₁, ∃ n₂ ∈ nodes₂,
        n₂.Name = n₁.Name ∧ n₂.Netdev = n₁.Netdev ∧ n₂.Link = n₁.Link ∧
        (∃ cs, cs.Perm n₁.children ∧ n₂ = n₁.withChildren cs) ∧
        (∃ header,
          n₁.Network L = header ++ String.join (n₁.children.map childLine) ∧
          n₂.Network L = header ++ String.join (n₂.children.map childLine) ∧
          (n₂.children.map childLine).Perm (n₁.children.map childLine)) ∧
        (n₁.children.length ≤ 1 → n₂ = n₁) := by
  obtain ⟨nodes₂, h₂, hall⟩ := nodes_up_to_order o₁ o₂ ho₁ ho₂ stanzas nodes₁ h₁
  refine ⟨nodes₂, h₂, ?_⟩
  intro n₁ hn₁
  obtain ⟨hvl, n₂, hn₂, cs, hperm, hcs⟩ := hall n₁ hn₁
  obtain ⟨f1, f2, f3, f4, f5⟩ := InterfaceGenerator.withChildren_fragments n₁ cs
  refine ⟨n₂, hn₂, by rw [hcs, f1], by rw [hcs, f2], by rw [hcs, f3], ⟨cs, hperm, hcs⟩,
    ⟨(n₁.withChildren []).Network L, InterfaceGenerator.network_eq L n₁ hvl, ?_, ?_⟩, ?_⟩
  · have h := InterfaceGenerator.network_eq L n₂ (by
      intro v hv
      have hc : n₂.children = cs := by rw [hcs, f4]
      rw [hv] at hc hcs
      simp only [InterfaceGenerator.children] at hc
      rw [hc]
      cases n₁ with
      | physical p => cases hcs
      | bond b => cases hcs
      | vlan v₁ =>
        have := hvl v₁ rfl
        simp only [InterfaceGenerator.children, this] at hperm
        exact hperm.eq_nil)
    rw [h, hcs, f5]
  · rw [hcs, f4]
    exact hperm.map _
  · intro hlen
    have := List_eq_of_perm_of_length_le_one cs n₁.children hperm hlen
    rw [hcs, this, InterfaceGenerator.withChildren_self]

theorem fragments_up_to_dependent_order_witness :
    ∃ nodes₂,
      buildInterfaces (reverseAt 3)
          [⟨"eth0", .interfacePhysical, false, .manual, []⟩,
            ⟨"eth0.1", .interfaceVLAN, false, .manual,
              [("vlan_raw_device", ["eth0"]), ("id", ["1"]), ("raw_device", ["eth0"])]⟩,
            ⟨"eth0.2", .interfaceVLAN, false, .manual,
              [("vlan_raw_device", ["eth0"]), ("id", ["2"]), ("raw_device", ["eth0"])]⟩] =
          .ok nodes₂ ∧
        ∀ n₁ ∈ [InterfaceGenerator.physical
              ⟨⟨"eth0", .manual, [⟨.interfaceVLAN, "eth0.1"⟩, ⟨.interfaceVLAN, "eth0.2"⟩]⟩⟩,
            .vlan ⟨⟨"eth0.1", .manual, []⟩, 1, "eth0"⟩,
            .vlan ⟨⟨"eth0.2", .manual, []⟩, 2, "eth0"⟩],
          ∃ n₂ ∈ nodes₂,
            n₂.Name = n₁.Name ∧ n₂.Netdev = n₁.Netdev ∧ n₂.Link = n₁.Link ∧
            (∃ cs, cs.Perm n₁.children ∧ n₂ = n₁.withChildren cs) ∧
            (∃ header,
              n₁.Network ipv4Lib = header ++ String.join (n₁.children.map childLine) ∧
              n₂.Network ipv4Lib = header ++ String.join (n₂.children.map childLine) ∧
              (n₂.children.map childLine).Perm (n₁.children.map childLine)) ∧
            (n₁.children.length ≤ 1 → n₂ = n₁) :=
  fragments_up_to_dependent_order ipv4Lib insertionOrder (reverseAt 3) insertionOrder_valid
    (reverseAt_valid 3) _ _ (by decide)

/-- C27 (counterexample). For the declarations of `eth0` and of the VLANs
`eth0.1` and `eth0.2` on it, the network fragment of `eth0` has the line
`VLAN=eth0.1` before `VLAN=eth0.2` when every loop visits the maps in the
order of insertion, and after it when the loop over `vlans` that links them
visits the map in the opposite order. -/
theorem dependent_lines_follow_traversal :
    insertionOrder.Valid ∧ (reverseAt 3).Valid ∧
      (buildInterfaces insertionOrder
          [⟨"eth0", .interfacePhysical, false, .manual, []⟩,
            ⟨"eth0.1", .interfaceVLAN, false, .manual,
              [("vlan_raw_device", ["eth0"]), ("id", ["1"]), ("raw_device", ["eth0"])]⟩,
            ⟨"eth0.2", .interfaceVLAN, false, .manual,
              [("vlan_raw_device", ["eth0"]), ("id", ["2"]), ("raw_device", ["eth0"])]⟩]).map
          (fun nodes => nodes.map (fun n => (n.Name, n.Network ipv4Lib))) =
        .ok [("eth0", "[Match]\nName=eth0\n\n[Network]\nVLAN=eth0.1\nVLAN=eth0.2\n"),
          ("eth0.1", "[Match]\nName=eth0.1\n\n[Network]\n"),
          ("eth0.2", "[Match]\nName=eth0.2\n\n[Network]\n")] ∧
      (buildInterfaces (reverseAt 3)
          [⟨"eth0", .interfacePhysical, false, .manual, []⟩,
            ⟨"eth0.1", .interfaceVLAN, false, .manual,
              [("vlan_raw_device", ["eth0"]), ("id", ["1"]), ("raw_device", ["eth0"])]⟩,
            ⟨"eth0.2", .interfaceVLAN, false, .manual,
              [("vlan_raw_device", ["eth0"]), ("id", ["2"]), ("raw_device", ["eth0"])]⟩]).map
          (fun nodes => nodes.map (fun n => (n.Name, n.Network ipv4Lib))) =
        .ok [("eth0", "[Match]\nName=eth0\n\n[Network]\nVLAN=eth0.2\nVLAN=eth0.1\n"),
          ("eth0.1", "[Match]\nName=eth0.1\n\n[Network]\n"),
          ("eth0.2", "[Match]\nName=eth0.2\n\n[Network]\n")] :=
  ⟨insertionOrder_valid, reverseAt_valid 3, by decide, by decide⟩

end CloudInit
